import Mathlib

/-!
# From-space pool (`zFromSpacePool.cpp`, `zFromSpacePool.inline.hpp`)

A state-passing embedding of `ZFromSpacePool`.  Every method of the pool is a
function from the pool state (and the values it reads from its environment:
the caller's CPU id, the phase of the young generation, the outcome of a
`try_lock`) to the new pool state and the returned value.  Calls are taken one
at a time; where the code itself waits for another thread (the retry of
`try_free_if_evacuated_else_release`, and through it the loop of
`alloc_page_inner`) the other thread's action is an explicit argument, the
identity in `alloc_page` and `free_page`.  `evacuate_page_raced` is
`evacuate_page` with the mappings that other threads insert between a lookup
and the insert that follows it.

Pointers are identities: a `ZPage*` is the page's `id`, a `ZForwarding*` is the
index of the forwarding in `_fsp`.  `size_t` is a natural number below `2^64`
with wrapping arithmetic.
-/

namespace ZFSP

/-! ## `size_t` -/

/-- The modulus of `size_t` arithmetic (64 bits). -/
def SIZE_T_MOD : Nat := 18446744073709551616

/-- `a + b` on `size_t`. -/
def size_add (a b : Nat) : Nat := (a + b) % SIZE_T_MOD

/-- `a - b` on `size_t`. -/
def size_sub (a b : Nat) : Nat := (a + (SIZE_T_MOD - b % SIZE_T_MOD)) % SIZE_T_MOD

/-- The conversion of a `size_t` to `int32_t`, as when `from_rc` is passed to
`try_fast_zero_rc(int32_t initial_rc)`: the low 32 bits, in two's complement. -/
def to_int32 (n : Nat) : Int :=
  if n % 4294967296 < 2147483648 then ((n % 4294967296 : Nat) : Int)
  else ((n % 4294967296 : Nat) : Int) - 4294967296

/-! ## Pages and forwardings -/

/-- What the pool reads and writes of a `ZPage`: its identity (`id`), the address it
starts at, its size, its live bytes, its age and its bump pointer (`top`, bytes in use). -/
structure ZPage where
  id : Nat
  start : Nat
  size : Nat
  live_bytes : Nat
  age : Nat
  top : Nat
  deriving DecidableEq, Repr

/-- The fields of `ZForwarding` (zForwarding.hpp) used by the pool.  `livemap` lists the
live objects of the page as (address, size) in ascending address order, `entries` is
the forwarding table as (from address, to address). -/
structure ZForwarding where
  page : ZPage
  to_age : Nat
  claimed : Bool
  claimed2 : Bool
  ref_count : Int
  done : Bool
  evacuated : Bool
  in_placed : Bool
  live_bytes : Nat
  evacuated_bytes : Nat
  livemap : List (Nat × Nat)
  entries : List (Nat × Nat)
  deriving DecidableEq, Repr

namespace ZPage

/-- Modelled from the spec: `ZPage::alloc_object_atomic` (zPage.inline.hpp is absent),
"bump-allocate `object_size(from_addr)` bytes atomically on it"; the allocation fails
when the target is full.  The result is the allocated address, `none` for null. -/
def alloc_object_atomic (p : ZPage) (size : Nat) : Option Nat × ZPage :=
  if p.top + size ≤ p.size then (some (p.start + p.top), { p with top := p.top + size })
  else (none, p)

/-- The method `ZPage::reset_age(age)`. -/
def reset_age (p : ZPage) (age : Nat) : ZPage := { p with age := age }

end ZPage

namespace ZForwarding

/-- Modelled from the spec: the constructor of `ZForwarding` (zForwarding.cpp is absent),
the state INIT: not claimed, not claim2-ed, not done, nothing evacuated.  The count of
an idle record is 1, as zFromSpacePool.hpp has it ("the sparsest page with RC=1",
"evacuated and has RC=2, it will be freed"). -/
def alloc (page : ZPage) (to_age : Nat) (livemap : List (Nat × Nat)) : ZForwarding :=
  { page := page, to_age := to_age, claimed := false, claimed2 := false, ref_count := 1,
    done := false, evacuated := false, in_placed := false, live_bytes := page.live_bytes,
    evacuated_bytes := 0, livemap := livemap, entries := [] }

/-- Modelled from the spec: `claim`, "atomic test-and-set of `claimed`". -/
def claim (f : ZForwarding) : Bool × ZForwarding :=
  if f.claimed then (false, f) else (true, { f with claimed := true })

/-- Modelled from the spec: `claim2`, "atomic test-and-set of `claimed2`". -/
def claim2 (f : ZForwarding) : Bool × ZForwarding :=
  if f.claimed2 then (false, f) else (true, { f with claimed2 := true })

/-- Modelled from the spec: `is_claim2` reads `claimed2`. -/
def is_claim2 (f : ZForwarding) : Bool := f.claimed2

/-- Modelled from the spec: `unclaim2` rolls `claimed2` back. -/
def unclaim2 (f : ZForwarding) : ZForwarding := { f with claimed2 := false }

/-- The method `is_in_place` of zForwarding.hpp. -/
def is_in_place (f : ZForwarding) : Bool := f.in_placed

/-- The method `mark_in_place` of zForwarding.hpp. -/
def mark_in_place (f : ZForwarding) : ZForwarding := { f with in_placed := true }

/-- Modelled from the spec: `is_done` reads the terminal flag. -/
def is_done (f : ZForwarding) : Bool := f.done

/-- Modelled from the spec: `mark_done` sets the terminal flag. -/
def mark_done (f : ZForwarding) : ZForwarding := { f with done := true }

/-- Modelled from the spec: `is_evacuated` reads `evacuated`. -/
def is_evacuated (f : ZForwarding) : Bool := f.evacuated

/-- Modelled from the spec: `retain_page(nullptr, true, true)`, "increments `ref_count`
from a positive value (or from 0 if the record is not done); fails if done"; "on a fully
evacuated page, retain fails"; a negative count is an exclusive claim, which a
fail-fast retain does not wait for. -/
def retain_page (f : ZForwarding) : Bool × ZForwarding :=
  if f.done ∨ f.evacuated ∨ f.ref_count < 0 then (false, f)
  else (true, { f with ref_count := f.ref_count + 1 })

/-- Modelled from the spec: `release_page`, "release own rc".  A positive count goes down;
the exclusive claim -1 goes back to 0, as the assertions around `release_page` in
`compact_in_place` and `install_new_target` state. -/
def release_page (f : ZForwarding) : ZForwarding :=
  if 0 < f.ref_count then { f with ref_count := f.ref_count - 1 }
  else if f.ref_count < 0 then { f with ref_count := f.ref_count + 1 }
  else f

/-- Modelled from the spec: `try_fast_zero_rc(initial_rc)`, "cmpxchg rc: expected → −1". -/
def try_fast_zero_rc (f : ZForwarding) (initial_rc : Int) : Bool × ZForwarding :=
  if f.ref_count = initial_rc then (true, { f with ref_count := -1 }) else (false, f)

/-- Modelled from the spec: `in_place_relocation_claim_page(return_if_evacuated)`, "takes
the exclusive claim provided" the record is idle "(or provided `evacuated` if invoked with
`return_if_evacuated=true`)".  Idle is a count of 1 (see `alloc`).  A done record "no
longer participates in the protocol": the claim on it fails, which is the branch of
`compact_in_place` where "someone else won the race to compact". -/
def in_place_relocation_claim_page (f : ZForwarding) (return_if_evacuated : Bool) :
    Bool × ZForwarding :=
  if f.done then (false, f)
  else if f.ref_count = 1 ∨ (return_if_evacuated = true ∧ f.evacuated = true) then
    (true, { f with ref_count := -1 })
  else (false, f)

/-- Modelled from the spec: `inc_evacuated_bytes(bytes)` adds to `evacuated_bytes` and
"returns true if the page is now fully evacuated"; `evacuated` is "set when
`evacuated_bytes ≥ live_bytes`". -/
def inc_evacuated_bytes (f : ZForwarding) (bytes : Nat) : Bool × ZForwarding :=
  if f.live_bytes ≤ size_add f.evacuated_bytes bytes then
    (true, { f with evacuated_bytes := size_add f.evacuated_bytes bytes, evacuated := true })
  else (false, { f with evacuated_bytes := size_add f.evacuated_bytes bytes })

/-- The bytes of the live objects of the page that have no entry in the forwarding table. -/
def unforwarded_bytes (f : ZForwarding) : Nat :=
  ((f.livemap.filter (fun o => (f.entries.find? (fun e => e.1 == o.1)).isNone)).map
    (fun o => o.2)).sum

end ZForwarding

namespace ZRelocate

/-- Modelled from the spec: `ZRelocate::lookup(f, from_addr, cursor)`, the to-address of
`from_addr` in the forwarding table, `none` for null. -/
def lookup (f : ZForwarding) (from_addr : Nat) : Option Nat :=
  (f.entries.find? (fun e => e.1 == from_addr)).map (fun e => e.2)

/-- Modelled from the spec: `ZRelocate::insert(f, from_addr, to_addr, cursor)`,
"CAS-linearized: returns the mapping that survives the race": the first installed mapping
wins. -/
def insert (f : ZForwarding) (from_addr to_addr : Nat) : Nat × ZForwarding :=
  match lookup f from_addr with
  | some a => (a, f)
  | none => (to_addr, { f with entries := f.entries ++ [(from_addr, to_addr)] })

/-- Modelled from the spec: `ZRelocate::compact_in_place(f)`, "performs the in-place
rewrite, returning total surviving bytes" (the live bytes of the page); the page keeps the
objects that were not forwarded, packed from its start. -/
def compact_in_place (f : ZForwarding) : Nat × ZForwarding :=
  (f.live_bytes, { f with page := { f.page with top := f.unforwarded_bytes } })

end ZRelocate

/-! ## Evacuation of one page -/

/-- The closure of `evacuate_page`, run by `object_iterate_via_livemap` over the live
objects `objs` in ascending address order, until it returns false.  `start_from` is the
captured start address, `has_cursor` tells whether `livemap_cursor` is non-null; the
state is the forwarding, the target page of the age, the value of `*livemap_cursor` and
the local `evacuated_bytes`. -/
def evacuate_objects (start_from : Nat) (has_cursor : Bool) :
    List (Nat × Nat) → ZForwarding → Option ZPage → Nat → Nat →
      ZForwarding × Option ZPage × Nat × Nat
  | [], f, t, cur, bytes => (f, t, cur, bytes)
  | (from_addr, unaligned_size) :: rest, f, t, cur, bytes =>
    if from_addr < start_from then evacuate_objects start_from has_cursor rest f t cur bytes
    else
      match ZRelocate.lookup f from_addr with
      | some _ => evacuate_objects start_from has_cursor rest f t cur bytes
      | none =>
        match t with
        | none => (f, t, if has_cursor then from_addr else cur, bytes)
        | some p =>
          match (p.alloc_object_atomic unaligned_size).1 with
          | none =>
            (f, some (p.alloc_object_atomic unaligned_size).2,
              if has_cursor then from_addr else cur, bytes)
          | some to_addr =>
            evacuate_objects start_from has_cursor rest
              (ZRelocate.insert f from_addr to_addr).2
              (some (p.alloc_object_atomic unaligned_size).2) cur
              (if (ZRelocate.insert f from_addr to_addr).1 = to_addr then
                size_add bytes unaligned_size else bytes)

/-- The method `ZFromSpacePool::evacuate_page(f, livemap_cursor)` on the forwarding `f` and
the target page `t` of `f.to_age`; `livemap_cursor` is `none` for a null pointer, and the
address 0 is `zaddress::null`.  Returns the forwarding, the target, the cursor and the
evacuated bytes. -/
def evacuate_page (f : ZForwarding) (t : Option ZPage) (livemap_cursor : Option Nat) :
    ZForwarding × Option ZPage × Option Nat × Nat :=
  let r := evacuate_objects (livemap_cursor.getD 0) livemap_cursor.isSome f.livemap f t
    (livemap_cursor.getD 0) 0
  (r.1, r.2.1, livemap_cursor.map (fun _ => r.2.2.1), r.2.2.2)

/-! ## The pool -/

/-- The state of `ZFromSpacePool` (zFromSpacePool.hpp).  `_in_placed_pages` and `_target`
are indexed by age, `_per_cpu_free_list` has one shard per CPU (`ZCPU::count()` is its
length).  `heap_freed` lists the pages handed to `ZHeap::free_page`, the external
allocator.  `free_page_calls` is a history variable: the forwardings, in the state they
had at the call, on which `free_page(f, result)` was executed.  `own_claims` is a history
variable: the values returned by the calling thread's `f->claim()` in the two callers of
`free_page(f, result)`, `try_free_if_evacuated_else_release` and
`claim_and_remove_specific` (for `compact_in_place`). -/
structure ZFromSpacePool where
  _fsp : List ZForwarding
  _fsp_pages : Nat
  _fsp_start : Nat
  _in_placed_pages : Nat → List ZPage
  _target : Nat → Option ZPage
  _per_cpu_free_list : List (List ZPage)
  _shared_free_list : List ZPage
  _size_in_bytes : Nat
  _evacuated_bytes : Nat
  _in_placed_bytes : Nat
  _deferrable_bytes : Nat
  _evacuated_page_count : Nat
  _in_placed_page_count : Nat
  heap_freed : List ZPage
  free_page_calls : List ZForwarding
  own_claims : List Bool

namespace ZFromSpacePool

/-- The constructor `ZFromSpacePool::ZFromSpacePool()` for `ncpu` CPUs. -/
def empty (ncpu : Nat) : ZFromSpacePool :=
  { _fsp := [], _fsp_pages := 0, _fsp_start := 0, _in_placed_pages := fun _ => [],
    _target := fun _ => none, _per_cpu_free_list := List.replicate ncpu [],
    _shared_free_list := [], _size_in_bytes := 0, _evacuated_bytes := 0,
    _in_placed_bytes := 0, _deferrable_bytes := 0, _evacuated_page_count := 0,
    _in_placed_page_count := 0, heap_freed := [], free_page_calls := [],
    own_claims := [] }

/-- Write through the pointer `_fsp.at(i)`. -/
def set_fsp (s : ZFromSpacePool) (i : Nat) (f : ZForwarding) : ZFromSpacePool :=
  { s with _fsp := s._fsp.set i f }

/-- The value `res` returned by the calling thread's `f->claim()` is added to the history
`own_claims`. -/
def record_claim (s : ZFromSpacePool) (res : Bool) : ZFromSpacePool :=
  { s with own_claims := s.own_claims ++ [res] }

/-- The method `fsp_depleted`. -/
def fsp_depleted (s : ZFromSpacePool) : Bool := decide (s._fsp_pages ≤ s._fsp_start)

/-- The method `load_target(age)`, as the identity of the page (`none` for null). -/
def load_target (s : ZFromSpacePool) (age : Nat) : Option Nat := (s._target age).map (fun p => p.id)

/-- The method `store_target(page, age)`. -/
def store_target (s : ZFromSpacePool) (page : ZPage) (age : Nat) : ZFromSpacePool :=
  { s with _target := fun a => if a = age then some page else s._target a }

/-- The method `add_page(p)`; `f` is `p->get_forwarding()` and `f.page` is `p`. -/
def add_page (s : ZFromSpacePool) (f : ZForwarding) : ZFromSpacePool :=
  { s with
    _fsp := s._fsp ++ [f],
    _fsp_pages := size_add s._fsp_pages 1,
    _size_in_bytes := size_add s._size_in_bytes (size_sub f.page.size f.page.live_bytes),
    _deferrable_bytes := size_add s._deferrable_bytes f.page.live_bytes }

/-- The method `inc_in_placed_page_count_and_bytes(bytes_in_placed, f)`. -/
def inc_in_placed_page_count_and_bytes (s : ZFromSpacePool) (bytes_in_placed : Nat)
    (f : ZForwarding) : ZFromSpacePool :=
  { s with
    _in_placed_page_count := size_add s._in_placed_page_count 1,
    _in_placed_bytes := size_add s._in_placed_bytes bytes_in_placed,
    _size_in_bytes := size_sub s._size_in_bytes (size_sub f.page.size f.live_bytes) }

/-- The method `inc_evacuated_page_count_and_bytes(bytes_evacuated, f)`. -/
def inc_evacuated_page_count_and_bytes (s : ZFromSpacePool) (bytes_evacuated : Nat)
    (f : ZForwarding) : ZFromSpacePool :=
  { s with
    _evacuated_page_count := size_add s._evacuated_page_count 1,
    _evacuated_bytes := size_add s._evacuated_bytes bytes_evacuated,
    _size_in_bytes := size_sub s._size_in_bytes (size_sub f.page.size f.live_bytes) }

/-- The method `append_to_in_placed_pages(p, age)`. -/
def append_to_in_placed_pages (s : ZFromSpacePool) (p : ZPage) (age : Nat) : ZFromSpacePool :=
  { s with _in_placed_pages := fun a => if a = age then s._in_placed_pages a ++ [p]
                                        else s._in_placed_pages a }

/-- The method `free_page(ZForwarding* f, ZPage** result)` on the forwarding at index `i`.
`result` tells whether the pointer is non-null, `cpu_id` is the caller's CPU and `try_lock`
the outcome of `free_list._guard.try_lock()`.  Returns the pool and the page written to
`*result` (`none` when nothing is written).  The mark `mark_as_fsp_current_cycle` and the
`guarantee` on the list links of the page are not part of the state. -/
def free_page_forwarding (s : ZFromSpacePool) (i : Nat) (result : Bool) (cpu_id : Nat)
    (try_lock : Bool) : ZFromSpacePool × Option ZPage :=
  match s._fsp[i]? with
  | none => (s, none)
  | some f =>
    ({ (inc_evacuated_page_count_and_bytes s f.evacuated_bytes f) with
        _per_cpu_free_list :=
          if result then s._per_cpu_free_list
          else if try_lock then
            s._per_cpu_free_list.set cpu_id (s._per_cpu_free_list.getD cpu_id [] ++ [f.page])
          else s._per_cpu_free_list,
        _fsp := s._fsp.set i f.mark_done,
        free_page_calls := s.free_page_calls ++ [f] },
      if result then some f.page else none)

/-- The method `claim_and_remove_specific(f)` on the forwarding at index `i`. -/
def claim_and_remove_specific (s : ZFromSpacePool) (i : Nat) : Bool × ZFromSpacePool :=
  match s._fsp[i]? with
  | none => (false, s)
  | some f =>
    if (f.in_place_relocation_claim_page true).1 then
      (true, (s.record_claim (f.in_place_relocation_claim_page true).2.claim.1).set_fsp i
        (f.in_place_relocation_claim_page true).2.claim.2)
    else (false, s)

/-- The method `compact_in_place(f)` on the forwarding at index `i`. -/
def compact_in_place (s : ZFromSpacePool) (i : Nat) (cpu_id : Nat) (try_lock : Bool) :
    ZFromSpacePool :=
  if (claim_and_remove_specific s i).1 then
    match (claim_and_remove_specific s i).2._fsp[i]? with
    | none => (claim_and_remove_specific s i).2
    | some f =>
      if f.is_evacuated then
        (free_page_forwarding ((claim_and_remove_specific s i).2.set_fsp i f.release_page) i
          false cpu_id try_lock).1
      else
        append_to_in_placed_pages
          ((inc_in_placed_page_count_and_bytes (claim_and_remove_specific s i).2
              (ZRelocate.compact_in_place f).1 f).set_fsp i
            (ZRelocate.compact_in_place f).2.release_page.mark_in_place.mark_done)
          (ZRelocate.compact_in_place f).2.page f.to_age
  else (claim_and_remove_specific s i).2

/-- The method `try_free_if_evacuated_else_release(f, from_rc, result)` on the forwarding
at index `i`, by recursion on `from_rc`, a `size_t` that `try_fast_zero_rc` takes as an
`int32_t`.  `others` is what the other threads that hold
the page do to the forwarding between this thread's `release_page` and its next attempt
(the identity when there is none).  Returns the returned value, the pool and the page
written to `*result`. -/
def try_free_if_evacuated_else_release (others : ZForwarding → ZForwarding)
    (result : Bool) (cpu_id : Nat) (try_lock : Bool) (i : Nat) :
    Nat → ZFromSpacePool → Bool × ZFromSpacePool × Option ZPage
  | 0, s =>
    match s._fsp[i]? with
    | none => (false, s, none)
    | some f =>
      if (f.try_fast_zero_rc (to_int32 0)).1 then
        (true, free_page_forwarding
          ((s.record_claim (f.try_fast_zero_rc (to_int32 0)).2.claim.1).set_fsp i
            (f.try_fast_zero_rc (to_int32 0)).2.claim.2) i result cpu_id try_lock)
      else (false, s, none)
  | from_rc + 1, s =>
    match s._fsp[i]? with
    | none => (false, s, none)
    | some f =>
      if (f.try_fast_zero_rc (to_int32 (from_rc + 1))).1 then
        (true, free_page_forwarding
          ((s.record_claim (f.try_fast_zero_rc (to_int32 (from_rc + 1))).2.claim.1).set_fsp i
            (f.try_fast_zero_rc (to_int32 (from_rc + 1))).2.claim.2) i result cpu_id try_lock)
      else if 1 < from_rc + 1 then
        (false, (try_free_if_evacuated_else_release others result cpu_id try_lock i from_rc
          (s.set_fsp i (others f.release_page))).2)
      else (false, s, none)

/-- The loop over the per-CPU shards in `alloc_page_from_cache`: `n` iterations are left
and the loop variable is `i`.  Returns the page removed and the shards, `none` when every
shard visited was empty. -/
def scan_per_cpu (shards : List (List ZPage)) (cpu_id : Nat) :
    Nat → Nat → Option (ZPage × List (List ZPage))
  | 0, _ => none
  | n + 1, i =>
    match shards[(i + cpu_id) % shards.length]? with
    | some (p :: rest) => some (p, shards.set ((i + cpu_id) % shards.length) rest)
    | _ => scan_per_cpu shards cpu_id n (i + 1)

/-- The tail of `alloc_page_from_cache`: the page goes to `*result`, or to
`ZHeap::free_page` when `result` is null. -/
def deliver (s : ZFromSpacePool) (result : Bool) (p : ZPage) :
    Bool × ZFromSpacePool × Option ZPage :=
  if result then (true, s, some p) else (true, { s with heap_freed := s.heap_freed ++ [p] }, none)

/-- The method `alloc_page_from_cache(result)`; `in_phase_mc` is the value of
`in_phase_mc()`. -/
def alloc_page_from_cache (s : ZFromSpacePool) (result : Bool) (cpu_id : Nat)
    (in_phase_mc : Bool) : Bool × ZFromSpacePool × Option ZPage :=
  match scan_per_cpu s._per_cpu_free_list cpu_id s._per_cpu_free_list.length 0 with
  | some (p, shards) => deliver { s with _per_cpu_free_list := shards } result p
  | none =>
    if in_phase_mc then
      match s._shared_free_list with
      | p :: rest => deliver { s with _shared_free_list := rest } result p
      | [] => (false, s, none)
    else (false, s, none)

/-- The test `f->claim2() && f->claim()` of `reset_start`. -/
def reset_start_claims (f : ZForwarding) : Bool := f.claim2.1 && f.claim2.2.claim.1

/-- What one iteration of `reset_start` does to the forwarding. -/
def reset_start_forwarding (f : ZForwarding) : ZForwarding :=
  if f.claim2.1 then
    if f.claim2.2.claim.1 then f.claim2.2.claim.2.mark_done else f.claim2.2.claim.2
  else f.claim2.2

/-- The method `reset_start()`: one pass over `_fsp`, under the guard of the shared
free-list.  The mark `mark_as_fsp_current_cycle` and the `guarantee` on the list links of
the page are not part of the state. -/
def reset_start (s : ZFromSpacePool) : ZFromSpacePool :=
  { s with
    _fsp := s._fsp.map reset_start_forwarding,
    _shared_free_list :=
      s._shared_free_list ++ (s._fsp.filter reset_start_claims).map (fun f => f.page),
    _evacuated_bytes :=
      size_add s._evacuated_bytes
        ((s._fsp.filter reset_start_claims).foldl (fun acc f => size_add acc f.evacuated_bytes) 0) }

/-- The loop of `empty_free_list`: the batches passed to `free_empty_pages`, in order.
`try_lock n` is the outcome of `g->try_lock()` when `n` pages are left in the list. -/
def empty_free_list (try_lock : Nat → Bool) : List ZPage → List ZPage → List (List ZPage)
  | [], empty_pages => if 0 < empty_pages.length then [empty_pages] else []
  | p :: rest, empty_pages =>
    (if (empty_pages ++ [p]).length = 64 then [empty_pages ++ [p]] else []) ++
      (if try_lock rest.length then
        empty_free_list try_lock rest
          (if (empty_pages ++ [p]).length = 64 then [] else empty_pages ++ [p])
      else
        [if (empty_pages ++ [p]).length = 64 then [] else empty_pages ++ [p]] ++
          empty_free_list try_lock rest [])

/-- The method `reset_end()`.  `age_max` is `ZPageAgeMax`, `heap_alloc_page` the page that
`ZHeap::alloc_page` gives for an age, `try_lock` the outcomes of `try_lock` while a
free-list is drained.  Returns `deferred_bytes`, the pool and the batches given to
`free_empty_pages`. -/
def reset_end (s : ZFromSpacePool) (age_max : Nat) (heap_alloc_page : Nat → Option ZPage)
    (try_lock : Nat → Bool) : Nat × ZFromSpacePool × List (List ZPage) :=
  (size_sub s._deferrable_bytes (size_add s._evacuated_bytes s._in_placed_bytes),
    { s with
      _in_placed_pages := fun a => if a < age_max then [] else s._in_placed_pages a,
      _target := fun a =>
        if a < age_max then
          match s._target a with
          | some _ => heap_alloc_page a
          | none => none
        else s._target a,
      _shared_free_list := [],
      _per_cpu_free_list := s._per_cpu_free_list.map (fun _ => []),
      _fsp_pages := 0, _fsp_start := 0, _size_in_bytes := 0, _evacuated_bytes := 0,
      _in_placed_bytes := 0, _deferrable_bytes := 0, _evacuated_page_count := 0,
      _in_placed_page_count := 0, _fsp := [] },
    empty_free_list try_lock s._shared_free_list [] ++
      (s._per_cpu_free_list.map (fun l => empty_free_list try_lock l [])).flatten)

/-- The method `update_if_higher(&_fsp_start, value)`. -/
def update_if_higher (s : ZFromSpacePool) (value : Nat) : ZFromSpacePool :=
  if s._fsp_start < value then { s with _fsp_start := value } else s

/-- The inner loop of `claim_and_remove_any_page(age)` for one `attempt`: `n` iterations
are left and the loop variable is `i`.  Returns the index of the forwarding whose page is
returned. -/
def claim_any_scan (age : Nat) (attempt : Nat) :
    Nat → Nat → ZFromSpacePool → Option Nat × ZFromSpacePool
  | 0, _, s => (none, s)
  | n + 1, i, s =>
    match s._fsp[i]? with
    | none => (none, s)
    | some f =>
      if attempt = 0 ∧ f.to_age ≠ age then claim_any_scan age attempt n (i + 1) s
      else if f.is_done then claim_any_scan age attempt n (i + 1) s
      else if f.is_claim2 then claim_any_scan age attempt n (i + 1) s
      else if (f.in_place_relocation_claim_page false).1 then
        (some i, s.set_fsp i (f.in_place_relocation_claim_page false).2.claim.2)
      else claim_any_scan age attempt n (i + 1) s

/-- The method `claim_and_remove_any_page(age)`; the page returned is the page of the
forwarding at the returned index. -/
def claim_and_remove_any_page (s : ZFromSpacePool) (age : Nat) : Option Nat × ZFromSpacePool :=
  match claim_any_scan age 0 (s._fsp_pages - s._fsp_start) s._fsp_start s with
  | (some i, s1) => (some i, s1)
  | (none, s1) => claim_any_scan age 1 (s1._fsp_pages - s1._fsp_start) s1._fsp_start s1

/-- The method `install_new_target(age)`. -/
def install_new_target (s : ZFromSpacePool) (age : Nat) : Option ZPage × ZFromSpacePool :=
  match s._in_placed_pages age with
  | p :: rest =>
    (some p, { s with _in_placed_pages := fun a => if a = age then rest else s._in_placed_pages a })
  | [] =>
    match claim_and_remove_any_page s age with
    | (none, s1) => (none, s1)
    | (some i, s1) =>
      match s1._fsp[i]? with
      | none => (none, s1)
      | some f =>
        (some ((ZRelocate.compact_in_place f).2.page.reset_age age),
          (inc_in_placed_page_count_and_bytes s1 (ZRelocate.compact_in_place f).1 f).set_fsp i
            { (ZRelocate.compact_in_place f).2.release_page.mark_done with
              page := (ZRelocate.compact_in_place f).2.page.reset_age age })

/-- The method `try_claim_page(i, update_fsp)`.  Returns whether a forwarding (the one at
index `i`) is returned, the pool and the value of `*update_fsp`. -/
def try_claim_page (s : ZFromSpacePool) (i : Nat) (update_fsp : Bool) :
    Bool × ZFromSpacePool × Bool :=
  match s._fsp[i]? with
  | none => (false, s, update_fsp)
  | some f =>
    if f.is_done then
      (false, if update_fsp then update_if_higher s (i + 1) else s, update_fsp)
    else if !f.claim2.1 then (false, s.set_fsp i f.claim2.2, false)
    else if !f.claim2.2.retain_page.1 then
      (false, s.set_fsp i f.claim2.2.retain_page.2.unclaim2, update_fsp)
    else (true, s.set_fsp i f.claim2.2.retain_page.2, update_fsp)

/-- The places of `alloc_page_inner` at which control arrives: the test of the `for` loop
and the two labels. -/
inductive Label where
  | for_test
  | retry_before_claimed
  | retry_after_retained
  deriving DecidableEq, Repr

/-- The local state of `alloc_page_inner`. -/
structure Locals where
  i : Nat
  update_fsp : Bool
  livemap_cursor : Nat
  out : Option ZPage
  deriving DecidableEq, Repr

/-- The first half of the body at `retry_after_retained`: `evacuate_page(f, &livemap_cursor)`
on the target of `f.to_age`, then `f->inc_evacuated_bytes(evacuated_bytes)`.  Returns the
value of `inc_evacuated_bytes`, the pool and the cursor. -/
def evacuate_and_count (s : ZFromSpacePool) (i : Nat) (f : ZForwarding) (livemap_cursor : Nat) :
    Bool × ZFromSpacePool × Nat :=
  (((evacuate_page f (s._target f.to_age) (some livemap_cursor)).1.inc_evacuated_bytes
      (evacuate_page f (s._target f.to_age) (some livemap_cursor)).2.2.2).1,
    { s with
      _fsp := s._fsp.set i
        ((evacuate_page f (s._target f.to_age) (some livemap_cursor)).1.inc_evacuated_bytes
          (evacuate_page f (s._target f.to_age) (some livemap_cursor)).2.2.2).2,
      _target := fun a =>
        if a = f.to_age then (evacuate_page f (s._target f.to_age) (some livemap_cursor)).2.1
        else s._target a },
    ((evacuate_page f (s._target f.to_age) (some livemap_cursor)).2.2.1).getD 0)

/-- The body of `alloc_page_inner`, one step of control for each unit of `fuel`; `none`
when the fuel runs out.  `others` is what the other threads that hold a page do to its
forwarding between the attempts of `try_free_if_evacuated_else_release` (the identity when
no call overlaps).  Returns the returned value, the pool and the page in `*result`. -/
def alloc_page_inner_go (others : ZForwarding → ZForwarding) (result : Bool) (cpu_id : Nat)
    (try_lock : Bool) :
    Nat → Label → Locals → ZFromSpacePool → Option (Bool × ZFromSpacePool × Option ZPage)
  | 0, _, _, _ => none
  | fuel + 1, Label.for_test, l, s =>
    if l.i < s._fsp_pages then
      alloc_page_inner_go others result cpu_id try_lock fuel Label.retry_before_claimed l s
    else some (false, s, l.out)
  | fuel + 1, Label.retry_before_claimed, l, s =>
    if (try_claim_page s l.i l.update_fsp).1 then
      alloc_page_inner_go others result cpu_id try_lock fuel Label.retry_after_retained
        { l with update_fsp := (try_claim_page s l.i l.update_fsp).2.2 }
        (try_claim_page s l.i l.update_fsp).2.1
    else
      alloc_page_inner_go others result cpu_id try_lock fuel Label.for_test
        { l with
          i := max (l.i + 1) (try_claim_page s l.i l.update_fsp).2.1._fsp_start,
          update_fsp := (try_claim_page s l.i l.update_fsp).2.2 }
        (try_claim_page s l.i l.update_fsp).2.1
  | fuel + 1, Label.retry_after_retained, l, s =>
    match s._fsp[l.i]? with
    | none => some (false, s, l.out)
    | some f =>
      if (evacuate_and_count s l.i f l.livemap_cursor).1 then
        -- the page is now fully evacuated
        if (try_free_if_evacuated_else_release others result cpu_id try_lock l.i 2
            (evacuate_and_count s l.i f l.livemap_cursor).2.1).1 then
          some (true,
            (try_free_if_evacuated_else_release others result cpu_id try_lock l.i 2
              (evacuate_and_count s l.i f l.livemap_cursor).2.1).2.1,
            (try_free_if_evacuated_else_release others result cpu_id try_lock l.i 2
              (evacuate_and_count s l.i f l.livemap_cursor).2.1).2.2)
        else if result then
          alloc_page_inner_go others result cpu_id try_lock fuel Label.for_test
            { l with
              i := max (l.i + 1)
                (try_free_if_evacuated_else_release others result cpu_id try_lock l.i 2
                  (evacuate_and_count s l.i f l.livemap_cursor).2.1).2.1._fsp_start,
              livemap_cursor := 0,
              out :=
                ((try_free_if_evacuated_else_release others result cpu_id try_lock l.i 2
                  (evacuate_and_count s l.i f l.livemap_cursor).2.1).2.2).orElse
                  (fun _ => l.out) }
            (try_free_if_evacuated_else_release others result cpu_id try_lock l.i 2
              (evacuate_and_count s l.i f l.livemap_cursor).2.1).2.1
        else
          some (true,
            (try_free_if_evacuated_else_release others result cpu_id try_lock l.i 2
              (evacuate_and_count s l.i f l.livemap_cursor).2.1).2.1, l.out)
      else
        -- the target is full
        if (evacuate_and_count s l.i f l.livemap_cursor).2.1.load_target f.to_age
            ≠ s.load_target f.to_age then
          alloc_page_inner_go others result cpu_id try_lock fuel Label.retry_after_retained
            { l with livemap_cursor := (evacuate_and_count s l.i f l.livemap_cursor).2.2 }
            (evacuate_and_count s l.i f l.livemap_cursor).2.1
        else
          match (evacuate_and_count s l.i f l.livemap_cursor).2.1._fsp[l.i]? with
          | none => some (false, (evacuate_and_count s l.i f l.livemap_cursor).2.1, l.out)
          | some f1 =>
            if (evacuate_and_count s l.i f l.livemap_cursor).2.1.load_target f.to_age
                ≠ ((evacuate_and_count s l.i f l.livemap_cursor).2.1.set_fsp l.i
                    f1.unclaim2.release_page).load_target f.to_age then
              alloc_page_inner_go others result cpu_id try_lock fuel Label.retry_before_claimed
                { l with livemap_cursor := 0 }
                ((evacuate_and_count s l.i f l.livemap_cursor).2.1.set_fsp l.i
                  f1.unclaim2.release_page)
            else
              match install_new_target
                  ((evacuate_and_count s l.i f l.livemap_cursor).2.1.set_fsp l.i
                    f1.unclaim2.release_page) f.to_age with
              | (some new_target, s1) =>
                alloc_page_inner_go others result cpu_id try_lock fuel Label.retry_before_claimed
                  { l with livemap_cursor := 0 } (s1.store_target new_target f.to_age)
              | (none, s1) => some (false, s1, l.out)

/-- The weight of a pool for `alloc_page_inner`: for every forwarding the length of the
in-placed list of its age, plus one when it is not done. -/
def weight (s : ZFromSpacePool) : Nat :=
  (s._fsp.map (fun f => (s._in_placed_pages f.to_age).length + if f.done then 0 else 1)).sum

/-- A number of control steps that `alloc_page_inner` never exceeds. -/
def alloc_page_inner_fuel (s : ZFromSpacePool) : Nat :=
  3 * (s._fsp_pages - s._fsp_start) + 3 * s.weight + 1

/-- The method `alloc_page_inner(result)`: `none` only if the step bound were exceeded. -/
def alloc_page_inner (s : ZFromSpacePool) (result : Bool) (cpu_id : Nat) (try_lock : Bool) :
    Option (Bool × ZFromSpacePool × Option ZPage) :=
  alloc_page_inner_go id result cpu_id try_lock s.alloc_page_inner_fuel Label.for_test
    { i := s._fsp_start, update_fsp := true, livemap_cursor := 0, out := none } s

/-- The method `alloc_page()`; `in_phase_mc` is the value of `is_phase_mark_complete()`.
Returns the page (`none` for null) and the pool.  No lock is tried with a non-null
`result`, so the outcome given to `alloc_page_inner` is of no consequence. -/
def alloc_page (s : ZFromSpacePool) (cpu_id : Nat) (in_phase_mc : Bool) :
    Option (Option ZPage × ZFromSpacePool) :=
  if (alloc_page_from_cache s true cpu_id in_phase_mc).1 then
    some ((alloc_page_from_cache s true cpu_id in_phase_mc).2.2,
      (alloc_page_from_cache s true cpu_id in_phase_mc).2.1)
  else if !(alloc_page_from_cache s true cpu_id in_phase_mc).2.1.fsp_depleted && !in_phase_mc then
    (alloc_page_inner (alloc_page_from_cache s true cpu_id in_phase_mc).2.1 true cpu_id true).map
      (fun r => (r.2.2, r.2.1))
  else some (none, (alloc_page_from_cache s true cpu_id in_phase_mc).2.1)

/-- The method `free_page()`.  Returns the returned value and the pool. -/
def free_page (s : ZFromSpacePool) (cpu_id : Nat) (in_phase_mc : Bool) (try_lock : Bool) :
    Option (Bool × ZFromSpacePool) :=
  if (alloc_page_from_cache s false cpu_id in_phase_mc).1 then
    some (true, (alloc_page_from_cache s false cpu_id in_phase_mc).2.1)
  else if !(alloc_page_from_cache s false cpu_id in_phase_mc).2.1.fsp_depleted && !in_phase_mc then
    (alloc_page_inner (alloc_page_from_cache s false cpu_id in_phase_mc).2.1 false cpu_id
      try_lock).map (fun r => (r.1, r.2.1))
  else some (false, (alloc_page_from_cache s false cpu_id in_phase_mc).2.1)

end ZFromSpacePool

/-! ## The invariant of the pool between calls -/

namespace ZForwarding

/-- An idle record: nobody holds it and nothing is decided. -/
def idle (f : ZForwarding) : Prop :=
  f.ref_count = 1 ∧ f.claimed = false ∧ f.claimed2 = false ∧ f.evacuated = false ∧ f.done = false

/-- A record claimed and retained by the worker running `alloc_page_inner`. -/
def held (f : ZForwarding) : Prop :=
  f.ref_count = 2 ∧ f.claimed = false ∧ f.claimed2 = true ∧ f.done = false

/-- The byte accounting of one record: what was evacuated and what is left to forward
fits in the live bytes, which are those of the page. -/
def bytes_ok (f : ZForwarding) : Prop :=
  f.evacuated_bytes + f.unforwarded_bytes ≤ f.live_bytes ∧ f.page.live_bytes = f.live_bytes

end ZForwarding

/-- The live bytes of the records that have been claimed. -/
def claimed_live (l : List ZForwarding) : Nat :=
  (l.map (fun f => if f.claimed then f.live_bytes else 0)).sum

/-- The live bytes of all records. -/
def total_live (l : List ZForwarding) : Nat := (l.map (fun f => f.live_bytes)).sum

/-- The invariant of the pool while the worker holds the record at index `h` (none between
calls) and has seen every record below `k` done. -/
structure GInv (h : Option Nat) (k : Nat) (s : ZFromSpacePool) : Prop where
  pages : s._fsp_pages = s._fsp.length
  status : ∀ (j : Nat) (f : ZForwarding), s._fsp[j]? = some f → f.done = true ∨ f.idle ∨ (h = some j ∧ f.held)
  bytes : ∀ (j : Nat) (f : ZForwarding), s._fsp[j]? = some f → f.bytes_ok
  counted : s._evacuated_bytes + s._in_placed_bytes ≤ claimed_live s._fsp
  deferrable : s._deferrable_bytes = total_live s._fsp ∧ total_live s._fsp < SIZE_T_MOD
  below_start : ∀ (j : Nat) (f : ZForwarding), j < s._fsp_start → s._fsp[j]? = some f → f.done = true
  below : ∀ (j : Nat) (f : ZForwarding), j < k → s._fsp[j]? = some f → f.done = true

namespace ZFromSpacePool

/-- What holds when control arrives at a place of `alloc_page_inner`. -/
def PreGo (lab : Label) (l : Locals) (s : ZFromSpacePool) : Prop :=
  match lab with
  | Label.retry_after_retained =>
    GInv (some l.i) (if l.update_fsp then l.i else 0) s ∧
      ∃ f, s._fsp[l.i]? = some f ∧ f.held ∧ f.evacuated = false
  | _ => GInv none (if l.update_fsp then l.i else 0) s

end ZFromSpacePool

/-! ## Reachable pools -/

/-- The pools built from an empty pool by `add_page` calls.  A page is registered with a
fresh forwarding; the bytes of its live objects are within its live bytes, and neither
the number of pages nor the sum of the live bytes overflows `size_t`. -/
inductive Registered : ZFromSpacePool → Prop
  | empty (ncpu : Nat) : Registered (ZFromSpacePool.empty ncpu)
  | add_page {s : ZFromSpacePool} (p : ZPage) (to_age : Nat) (livemap : List (Nat × Nat)) :
      Registered s →
      (livemap.map (fun o => o.2)).sum ≤ p.live_bytes →
      s._fsp.length + 1 < SIZE_T_MOD →
      s._deferrable_bytes + p.live_bytes < SIZE_T_MOD →
      Registered (s.add_page (ZForwarding.alloc p to_age livemap))

/-- The pools reachable within a cycle: `add_page` calls followed by any sequence of
`alloc_page`, `free_page` and `compact_in_place` calls, on any CPU, in any phase and with
any outcome of `try_lock`. -/
inductive InCycle : ZFromSpacePool → Prop
  | registered {s : ZFromSpacePool} : Registered s → InCycle s
  | alloc_page {s s' : ZFromSpacePool} (cpu_id : Nat) (in_phase_mc : Bool) (p : Option ZPage) :
      InCycle s → s.alloc_page cpu_id in_phase_mc = some (p, s') → InCycle s'
  | free_page {s s' : ZFromSpacePool} (cpu_id : Nat) (in_phase_mc try_lock b : Bool) :
      InCycle s → s.free_page cpu_id in_phase_mc try_lock = some (b, s') → InCycle s'
  | compact_in_place {s : ZFromSpacePool} (i cpu_id : Nat) (try_lock : Bool) :
      InCycle s → InCycle (s.compact_in_place i cpu_id try_lock)

/-- The pools reachable by `add_page` calls followed by any sequence of `alloc_page`,
`free_page`, `compact_in_place` and `reset_start` calls. -/
inductive Reachable : ZFromSpacePool → Prop
  | registered {s : ZFromSpacePool} : Registered s → Reachable s
  | alloc_page {s s' : ZFromSpacePool} (cpu_id : Nat) (in_phase_mc : Bool) (p : Option ZPage) :
      Reachable s → s.alloc_page cpu_id in_phase_mc = some (p, s') → Reachable s'
  | free_page {s s' : ZFromSpacePool} (cpu_id : Nat) (in_phase_mc try_lock b : Bool) :
      Reachable s → s.free_page cpu_id in_phase_mc try_lock = some (b, s') → Reachable s'
  | compact_in_place {s : ZFromSpacePool} (i cpu_id : Nat) (try_lock : Bool) :
      Reachable s → Reachable (s.compact_in_place i cpu_id try_lock)
  | reset_start {s : ZFromSpacePool} : Reachable s → Reachable s.reset_start

namespace ZFromSpacePool

/-- The control steps already spent when control arrives at a place, counted from the
test of the `for` loop. -/
def Label.slack (lab : Label) : Nat :=
  match lab with
  | Label.for_test => 0
  | Label.retry_before_claimed => 1
  | Label.retry_after_retained => 2

end ZFromSpacePool

/-- Nothing was freed or taken between `s` and `s'`: no `free_page(f, result)` was run, and
the free lists and the external allocator hold what they held. -/
def Quiet (s s' : ZFromSpacePool) : Prop :=
  s'.free_page_calls = s.free_page_calls ∧ s'._per_cpu_free_list = s._per_cpu_free_list ∧
  s'.heap_freed = s.heap_freed ∧ s'._shared_free_list = s._shared_free_list

/-- A small page with two live objects, 400 live bytes. -/
def ex_page_a : ZPage :=
  { id := 1, start := 4096, size := 1000, live_bytes := 400, age := 0, top := 1000 }

/-- A small page with two live objects, 300 live bytes. -/
def ex_page_b : ZPage :=
  { id := 2, start := 8192, size := 1000, live_bytes := 300, age := 0, top := 1000 }

/-- The fresh forwarding of `ex_page_a`, to age 1. -/
def ex_fwd_a : ZForwarding := ZForwarding.alloc ex_page_a 1 [(4096, 100), (4296, 300)]

/-- The fresh forwarding of `ex_page_b`, to age 1. -/
def ex_fwd_b : ZForwarding := ZForwarding.alloc ex_page_b 1 [(8192, 100), (8392, 200)]

/-- The pool of two CPUs after `add_page` of the two example pages. -/
def ex_pool : ZFromSpacePool := ((ZFromSpacePool.empty 2).add_page ex_fwd_a).add_page ex_fwd_b

/-- The example pool after `free_page()` on CPU 0, outside mark-complete, with the lock of
the shard busy. -/
def ex_pool_freed : ZFromSpacePool := ((ex_pool.free_page 0 false false).getD (false, ex_pool)).2

/-- The example pool after `compact_in_place` of the second page on CPU 0. -/
def ex_pool_compacted : ZFromSpacePool := ex_pool.compact_in_place 1 0 true

/-- The pool `ex_pool_compacted` at the moment another thread, inside
`compact_in_place` of the first page, has returned from `claim_and_remove_specific` and has
not yet compacted the page. -/
def ex_pool_claimed : ZFromSpacePool := (ex_pool_compacted.claim_and_remove_specific 0).2

/-- A pool of one CPU whose only page is fully evacuated and is held by the worker (which
claimed and retained it) and by one more thread: the count is 3. -/
def ex_pool_shared : ZFromSpacePool :=
  (ZFromSpacePool.empty 1).add_page
    { ex_fwd_b with
      ref_count := 3, claimed2 := true, evacuated := true, evacuated_bytes := 300,
      entries := [(8192, 16384), (8392, 16484)] }

/-- The value returned by `free_page()` on the example pool (CPU 0, outside mark-complete,
the lock of the shard free), and the pool it leaves. -/
def ex_free_result : Bool × ZFromSpacePool :=
  (ex_pool.free_page 0 false true).getD (false, ex_pool)

/-- A small page with one live object, 200 live bytes. -/
def ex_page_c : ZPage :=
  { id := 3, start := 12288, size := 1000, live_bytes := 200, age := 0, top := 1000 }

/-- The fresh forwarding of `ex_page_c`, to age 1. -/
def ex_fwd_c : ZForwarding := ZForwarding.alloc ex_page_c 1 [(12288, 200)]

/-- An empty target page. -/
def ex_target : ZPage :=
  { id := 9, start := 20480, size := 1000, live_bytes := 0, age := 1, top := 0 }

/-- The pool of two CPUs after `add_page` of the three example pages, with an empty target
page for age 1. -/
def ex_pool3 : ZFromSpacePool :=
  ((ex_pool.add_page ex_fwd_c).store_target ex_target 1)

/-- The page returned by `alloc_page()` on `ex_pool3` (CPU 0, outside mark-complete), and
the pool it leaves: the first page was evacuated onto the target and freed. -/
def ex_alloc3_result : Option ZPage × ZFromSpacePool :=
  (ex_pool3.alloc_page 0 false).getD (none, ex_pool3)

namespace ZFromSpacePool

/-- The order of visit that the specification gives for the per-CPU shards of `n` CPUs,
from the caller's CPU `c`: `c, c+1, ...`, wrapping modulo `n`. -/
def visit_order (n c : Nat) : List Nat := (List.range n).map (fun i => (i + c) % n)

/-- What a shard yields when visited: its index, its first page and the rest of it; nothing
when it is empty. -/
def take_first (shards : List (List ZPage)) (idx : Nat) : Option (Nat × ZPage × List ZPage) :=
  match shards[idx]? with
  | some (p :: rest) => some (idx, p, rest)
  | _ => none

/-- The page that the specification has the cache path take from the per-CPU shards: the
first page of the first non-empty shard in the order of visit. -/
def first_cached (shards : List (List ZPage)) (c : Nat) : Option (Nat × ZPage × List ZPage) :=
  (visit_order shards.length c).findSome? (take_first shards)

/-- The number of pages in the free-list cache: the per-CPU shards and the shared shard. -/
def cached_pages (s : ZFromSpacePool) : Nat :=
  (s._per_cpu_free_list.map (fun l => l.length)).sum + s._shared_free_list.length

end ZFromSpacePool

/-- A target page with room for 200 bytes. -/
def ex_target_short : ZPage :=
  { id := 9, start := 20480, size := 1000, live_bytes := 0, age := 1, top := 800 }

/-- The fresh forwarding of `ex_page_c`, to age 2. -/
def ex_fwd_d : ZForwarding := ZForwarding.alloc ex_page_c 2 [(12288, 200)]

/-- The pool of two CPUs after `add_page` of two pages to age 1 and one page to age 2. -/
def ex_pool_ages : ZFromSpacePool := ex_pool.add_page ex_fwd_d

/-- The forwarding `f` is considered by `claim_and_remove_any_page(age)` in the given
attempt and can be exclusively claimed: in attempt 0 its `to_age` is `age`, it is not
done, not claim2-ed, and `in_place_relocation_claim_page()` succeeds on it. -/
def ZFromSpacePool.Claimable (age attempt : Nat) (f : ZForwarding) : Prop :=
  (attempt = 0 → f.to_age = age) ∧ f.done = false ∧ f.claimed2 = false ∧
    (f.in_place_relocation_claim_page false).1 = true

/-! ## The lock of a free-list shard during `empty_free_list` -/

/-- The state of one run of `empty_free_list(free_list)`: the pages left in
`free_list._list`, whether the running thread holds the guard `g`, the local array
`empty_pages`, and the calls of `ZHeap::free_empty_pages` made so far, each with the batch
passed and whether the guard was held at the call. -/
structure Drain where
  list : List ZPage
  held : Bool
  empty_pages : List ZPage
  calls : List (List ZPage × Bool)

namespace Drain

/-- Modelled from the spec: `ZLock::lock` (zLock.hpp is absent) returns with the lock held
by the caller. -/
def lock (d : Drain) : Drain := { d with held := true }

/-- Modelled from the spec: `ZLock::unlock` releases the lock. -/
def unlock (d : Drain) : Drain := { d with held := false }

/-- Modelled from the spec: `ZLock::try_lock` takes the lock exactly when it returns true;
`outcome` is the value it returns. -/
def try_lock (d : Drain) (outcome : Bool) : Bool × Drain := (outcome, { d with held := outcome })

/-- The call `ZHeap::heap()->free_empty_pages(&empty_pages)`, recorded with the state of the
guard. -/
def free_empty_pages (d : Drain) : Drain :=
  { d with calls := d.calls ++ [(d.empty_pages, d.held)] }

/-- The call `empty_pages.clear()`. -/
def clear (d : Drain) : Drain := { d with empty_pages := [] }

end Drain

/-- One iteration of the loop of `empty_free_list`, for the page `p` that `remove_first`
took, `rest` being left in the list; `outcome` is what `g->try_lock()` returns. -/
def empty_free_list_body (outcome : Bool) (p : ZPage) (rest : List ZPage) (d : Drain) : Drain :=
  let d1 := { ({ d with list := rest } : Drain).unlock with empty_pages := d.empty_pages ++ [p] }
  let d2 := if d1.empty_pages.length = 64 then d1.free_empty_pages.clear else d1
  if (d2.try_lock outcome).1 then (d2.try_lock outcome).2
  else (d2.try_lock outcome).2.free_empty_pages.clear.lock

/-- The loop `while (ZPage* p = list->remove_first())` of `empty_free_list`, on the pages
of the list; `try_lock n` is the outcome of `g->try_lock()` when `n` pages are left. -/
def empty_free_list_loop (try_lock : Nat → Bool) : List ZPage → Drain → Drain
  | [], d => d
  | p :: rest, d =>
    empty_free_list_loop try_lock rest (empty_free_list_body (try_lock rest.length) p rest d)

/-- The function `empty_free_list(free_list)` with the state of the guard: `g->lock()`, the
loop, `g->unlock()`, and the last call of `free_empty_pages` if pages are left in
`empty_pages`. -/
def empty_free_list_run (try_lock : Nat → Bool) (free_list : List ZPage) : Drain :=
  if 0 < (empty_free_list_loop try_lock free_list
      ({ list := free_list, held := false, empty_pages := [], calls := [] } : Drain).lock
        ).unlock.empty_pages.length then
    (empty_free_list_loop try_lock free_list
      ({ list := free_list, held := false, empty_pages := [], calls := [] } : Drain).lock
        ).unlock.free_empty_pages
  else
    (empty_free_list_loop try_lock free_list
      ({ list := free_list, held := false, empty_pages := [], calls := [] } : Drain).lock).unlock

/-- The method `cache_size()`.  The loop runs `ZCPU::count()` times and reads
`_per_cpu_free_list.get()` each time: `get()` without an index is the shard of the CPU the
thread runs on (as in `free_page(f, result)`, which puts the page on the caller's shard),
`cpu_id i` being that CPU in iteration `i`.  The sum is on `size_t`. -/
def ZFromSpacePool.cache_size (s : ZFromSpacePool) (cpu_id : Nat → Nat) : Nat :=
  (List.range s._per_cpu_free_list.length).foldl
    (fun cache_size i => size_add cache_size (s._per_cpu_free_list.getD (cpu_id i) []).length)
    (size_add 0 s._shared_free_list.length)

/-- The example pool of three pages while another thread holds the first page (it has
retained it): the count of the first forwarding is 2. -/
def ex_pool3_retained : ZFromSpacePool :=
  ex_pool3.set_fsp 0 ((ex_pool3._fsp[0]?).getD ex_fwd_a).retain_page.2

/-- The value returned by `free_page()` on `ex_pool3_retained` (CPU 0, outside
mark-complete, the lock of the shard free), and the pool it leaves: the worker has
evacuated the first page, `try_free_if_evacuated_else_release` has failed because of the
other holder, and the call has returned true. -/
def ex_free3_result : Bool × ZFromSpacePool :=
  (ex_pool3_retained.free_page 0 false true).getD (false, ex_pool3_retained)

/-- The pool `ex_free3_result` after the other holder has released the first page. -/
def ex_pool3_left : ZFromSpacePool :=
  ex_free3_result.2.set_fsp 0 ((ex_free3_result.2._fsp[0]?).getD ex_fwd_a).release_page

/-! ## Evacuation of one page while other threads relocate objects of the same page -/

/-- The address `a` lies in the part of the target page `t` that is free when the call
starts: memory that only an allocation made from then on can return. -/
def ZPage.unallocated (t : Option ZPage) (a : Nat) : Prop :=
  match t with
  | some p => p.start + p.top ≤ a
  | none => False

instance ZPage.unallocated_decidable (t : Option ZPage) (a : Nat) :
    Decidable (ZPage.unallocated t a) :=
  match t with
  | some p => inferInstanceAs (Decidable (p.start + p.top ≤ a))
  | none => inferInstanceAs (Decidable False)

namespace ZFromSpacePool

end ZFromSpacePool

/-! ## Arithmetic and list lemmas -/

theorem size_add_le (a b : Nat) : size_add a b ≤ a + b := Nat.mod_le _ _

theorem size_add_of_lt {a b : Nat} (h : a + b < SIZE_T_MOD) : size_add a b = a + b :=
  Nat.mod_eq_of_lt h

theorem size_sub_of_le {a b : Nat} (hb : b ≤ a) (ha : a < SIZE_T_MOD) : size_sub a b = a - b := by
  unfold size_sub
  have h1 : b % SIZE_T_MOD = b := Nat.mod_eq_of_lt (lt_of_le_of_lt hb ha)
  rw [h1]
  have h2 : a + (SIZE_T_MOD - b) = (a - b) + SIZE_T_MOD := by omega
  rw [h2, Nat.add_mod_right]
  exact Nat.mod_eq_of_lt (lt_of_le_of_lt (Nat.sub_le _ _) ha)

theorem sum_map_set {α : Type} (g : α → Nat) :
    ∀ (l : List α) (i : Nat) (x y : α), l[i]? = some x →
      ((l.set i y).map g).sum + g x = (l.map g).sum + g y
  | [], i, x, y, h => by simp at h
  | a :: l, 0, x, y, h => by
    simp at h
    subst h
    simp only [List.set, List.map_cons, List.sum_cons]
    omega
  | a :: l, i + 1, x, y, h => by
    simp at h
    have := sum_map_set g l i x y h
    simp only [List.set, List.map_cons, List.sum_cons]
    omega

theorem claimed_live_le_total (l : List ZForwarding) : claimed_live l ≤ total_live l := by
  unfold claimed_live total_live
  induction l with
  | nil => simp
  | cons a l ih =>
    simp only [List.map_cons, List.sum_cons]
    split <;> omega

/-- The invariant after one record is rewritten. -/
theorem GInv.set {h h' : Option Nat} {k : Nat} {s s' : ZFromSpacePool} {j : Nat}
    {f : ZForwarding} (f' : ZForwarding) (hs : GInv h k s) (hj : s._fsp[j]? = some f)
    (hfsp : s'._fsp = s._fsp.set j f') (hpages : s'._fsp_pages = s._fsp_pages)
    (hstart : s'._fsp_start = s._fsp_start)
    (hdef : s'._deferrable_bytes = s._deferrable_bytes)
    (hh : h = none ∨ h = some j)
    (hlive : f'.live_bytes = f.live_bytes) (hb : f'.bytes_ok)
    (hst : f'.done = true ∨ f'.idle ∨ (h' = some j ∧ f'.held))
    (hdone : f.done = true → f'.done = true)
    (hcount : s'._evacuated_bytes + s'._in_placed_bytes
        + (if f.claimed then f.live_bytes else 0)
      ≤ s._evacuated_bytes + s._in_placed_bytes + (if f'.claimed then f'.live_bytes else 0)) :
    GInv h' k s' := by
  have hjl : j < s._fsp.length := (List.getElem?_eq_some.mp hj).1
  have key : ∀ i g, s'._fsp[i]? = some g → (i = j ∧ g = f') ∨ (i ≠ j ∧ s._fsp[i]? = some g) := by
    intro i g hg
    rw [hfsp, List.getElem?_set] at hg
    by_cases hij : j = i
    · subst hij
      simp [hjl] at hg
      exact Or.inl ⟨rfl, hg.symm⟩
    · simp [hij] at hg
      exact Or.inr ⟨fun e => hij e.symm, hg⟩
  refine ⟨?_, ?_, ?_, ?_, ?_, ?_, ?_⟩
  · rw [hpages, hfsp, List.length_set, hs.pages]
  · intro i g hg
    rcases key i g hg with ⟨rfl, rfl⟩ | ⟨hne, hg'⟩
    · exact hst
    · rcases hs.status i g hg' with hd | hi | ⟨hh', _⟩
      · exact Or.inl hd
      · exact Or.inr (Or.inl hi)
      · rcases hh with hh | hh
        · rw [hh] at hh'; cases hh'
        · rw [hh] at hh'; cases hh'; exact absurd rfl hne
  · intro i g hg
    rcases key i g hg with ⟨rfl, rfl⟩ | ⟨_, hg'⟩
    · exact hb
    · exact hs.bytes i g hg'
  · have e := sum_map_set (fun f => if f.claimed then f.live_bytes else 0) s._fsp j f f' hj
    have c := hs.counted
    unfold claimed_live at c ⊢
    rw [hfsp]
    simp only at e
    omega
  · have e := sum_map_set (fun f => f.live_bytes) s._fsp j f f' hj
    have c := hs.deferrable
    unfold total_live at c ⊢
    rw [hfsp, hdef]
    simp only at e
    constructor <;> omega
  · intro i g hi hg
    rw [hstart] at hi
    rcases key i g hg with ⟨rfl, rfl⟩ | ⟨_, hg'⟩
    · exact hdone (hs.below_start _ f hi hj)
    · exact hs.below_start i g hi hg'
  · intro i g hi hg
    rcases key i g hg with ⟨rfl, rfl⟩ | ⟨_, hg'⟩
    · exact hdone (hs.below _ f hi hj)
    · exact hs.below i g hi hg'

/-- The invariant reads only the index, its two cursors and three byte counters. -/
theorem GInv.congr {h : Option Nat} {k : Nat} {s s' : ZFromSpacePool} (hs : GInv h k s)
    (hfsp : s'._fsp = s._fsp) (hpages : s'._fsp_pages = s._fsp_pages)
    (hstart : s'._fsp_start = s._fsp_start)
    (hdef : s'._deferrable_bytes = s._deferrable_bytes)
    (hev : s'._evacuated_bytes = s._evacuated_bytes)
    (hin : s'._in_placed_bytes = s._in_placed_bytes) : GInv h k s' := by
  refine ⟨?_, ?_, ?_, ?_, ?_, ?_, ?_⟩
  · rw [hpages, hfsp]; exact hs.pages
  · rw [hfsp]; exact hs.status
  · rw [hfsp]; exact hs.bytes
  · rw [hfsp, hev, hin]; exact hs.counted
  · rw [hfsp, hdef]; exact hs.deferrable
  · rw [hfsp, hstart]; exact hs.below_start
  · rw [hfsp]; exact hs.below

theorem GInv.weaken {h : Option Nat} {k k' : Nat} {s : ZFromSpacePool} (hs : GInv h k s)
    (hk : k' ≤ k) : GInv h k' s :=
  ⟨hs.pages, hs.status, hs.bytes, hs.counted, hs.deferrable, hs.below_start,
    fun j f hj => hs.below j f (lt_of_lt_of_le hj hk)⟩

/-- Raising the bound below which every record is known to be done. -/
theorem GInv.raise {h : Option Nat} {k m : Nat} {s : ZFromSpacePool} (hs : GInv h k s)
    (hm : ∀ (j : Nat) (f : ZForwarding), j < m → s._fsp[j]? = some f → f.done = true) :
    GInv h m s :=
  ⟨hs.pages, hs.status, hs.bytes, hs.counted, hs.deferrable, hs.below_start, hm⟩


/-! ## Evacuation keeps the byte accounting -/

theorem filter_sum_mono (P Q : Nat × Nat → Bool) :
    ∀ (l : List (Nat × Nat)), (∀ o ∈ l, Q o = true → P o = true) →
      ((l.filter Q).map (fun o => o.2)).sum ≤ ((l.filter P).map (fun o => o.2)).sum
  | [], _ => by simp
  | a :: l, h => by
    have ih := filter_sum_mono P Q l (fun o ho => h o (List.mem_cons_of_mem _ ho))
    have ha := h a (List.mem_cons_self _ _)
    cases hq : Q a <;> cases hp : P a <;>
      simp only [List.filter_cons, hq, hp, if_true, if_false, List.map_cons, List.sum_cons,
        Bool.false_eq_true] <;>
      first
        | omega
        | (rw [hq, hp] at ha; exact absurd (ha rfl) (by simp))

theorem filter_sum_drop (P Q : Nat × Nat → Bool) (x : Nat × Nat) :
    ∀ (l : List (Nat × Nat)), (∀ o ∈ l, Q o = true → P o = true) → x ∈ l → P x = true →
      Q x = false →
      ((l.filter Q).map (fun o => o.2)).sum + x.2 ≤ ((l.filter P).map (fun o => o.2)).sum
  | [], _, hx, _, _ => by simp at hx
  | a :: l, h, hx, hp, hq => by
    have hmono := filter_sum_mono P Q l (fun o ho => h o (List.mem_cons_of_mem _ ho))
    have ha := h a (List.mem_cons_self _ _)
    rcases List.mem_cons.mp hx with rfl | hx'
    · simp only [List.filter_cons, hq, hp, if_true, if_false, List.map_cons, List.sum_cons,
        Bool.false_eq_true]
      omega
    · have ih := filter_sum_drop P Q x l (fun o ho => h o (List.mem_cons_of_mem _ ho)) hx' hp hq
      cases hqa : Q a <;> cases hpa : P a <;>
        simp only [List.filter_cons, hqa, hpa, if_true, if_false, List.map_cons, List.sum_cons,
          Bool.false_eq_true] <;>
        first
          | omega
          | (rw [hqa, hpa] at ha; exact absurd (ha rfl) (by simp))

theorem insert_snd {f : ZForwarding} {a dst : Nat} (h : ZRelocate.lookup f a = none) :
    (ZRelocate.insert f a dst).2 = { f with entries := f.entries ++ [(a, dst)] } := by
  unfold ZRelocate.insert
  rw [h]

theorem insert_unforwarded {f : ZForwarding} {a sz dst : Nat}
    (h : ZRelocate.lookup f a = none) (hm : (a, sz) ∈ f.livemap) :
    (ZRelocate.insert f a dst).2.unforwarded_bytes + sz ≤ f.unforwarded_bytes := by
  rw [insert_snd h]
  unfold ZForwarding.unforwarded_bytes
  have hnone : f.entries.find? (fun e => e.1 == a) = none := by
    unfold ZRelocate.lookup at h
    cases hf : f.entries.find? (fun e => e.1 == a) with
    | none => rfl
    | some v => rw [hf] at h; simp at h
  refine filter_sum_drop _ _ (a, sz) f.livemap ?_ hm ?_ ?_
  · intro o _ ho
    simp only [List.find?_append, Option.isNone_iff_eq_none] at ho ⊢
    cases hf : f.entries.find? (fun e => e.1 == o.1) with
    | none => rfl
    | some v => rw [hf] at ho; simp at ho
  · simp [hnone]
  · simp [List.find?_append, hnone]

/-- Evacuation writes the forwarding table and nothing else of the record. -/
theorem evacuate_objects_fields (sf : Nat) (hc : Bool) :
    ∀ (objs : List (Nat × Nat)) (f : ZForwarding) (t : Option ZPage) (cur bytes : Nat),
      (evacuate_objects sf hc objs f t cur bytes).1
        = { f with entries := (evacuate_objects sf hc objs f t cur bytes).1.entries }
  | [], f, t, cur, bytes => by simp [evacuate_objects]
  | (a, sz) :: rest, f, t, cur, bytes => by
    unfold evacuate_objects
    by_cases h1 : a < sf
    · simp only [h1, if_true]
      exact evacuate_objects_fields sf hc rest f t cur bytes
    · simp only [h1, if_false]
      cases hl : ZRelocate.lookup f a with
      | some v => exact evacuate_objects_fields sf hc rest f t cur bytes
      | none =>
        dsimp only
        cases t with
        | none => rfl
        | some p =>
          dsimp only
          cases hto : (p.alloc_object_atomic sz).1 with
          | none => rfl
          | some dst =>
            have ih := evacuate_objects_fields sf hc rest (ZRelocate.insert f a dst).2
              (some (p.alloc_object_atomic sz).2) cur
              (if (ZRelocate.insert f a dst).1 = dst then size_add bytes sz else bytes)
            dsimp only
            rw [ih]
            rw [insert_snd hl]

/-- Evacuation counts no more bytes than it takes off the unforwarded objects. -/
theorem evacuate_objects_bytes (sf : Nat) (hc : Bool) :
    ∀ (objs : List (Nat × Nat)) (f : ZForwarding) (t : Option ZPage) (cur bytes : Nat),
      (∀ o ∈ objs, o ∈ f.livemap) →
      (evacuate_objects sf hc objs f t cur bytes).2.2.2
          + (evacuate_objects sf hc objs f t cur bytes).1.unforwarded_bytes
        ≤ bytes + f.unforwarded_bytes
  | [], f, t, cur, bytes, _ => by simp [evacuate_objects]
  | (a, sz) :: rest, f, t, cur, bytes, hm => by
    have hrest : ∀ o ∈ rest, o ∈ f.livemap := fun o ho => hm o (List.mem_cons_of_mem _ ho)
    unfold evacuate_objects
    by_cases h1 : a < sf
    · simp only [h1, if_true]
      exact evacuate_objects_bytes sf hc rest f t cur bytes hrest
    · simp only [h1, if_false]
      cases hl : ZRelocate.lookup f a with
      | some v => exact evacuate_objects_bytes sf hc rest f t cur bytes hrest
      | none =>
        dsimp only
        cases t with
        | none => exact le_refl _
        | some p =>
          dsimp only
          cases hto : (p.alloc_object_atomic sz).1 with
          | none => exact le_refl _
          | some dst =>
            have hlm : (ZRelocate.insert f a dst).2.livemap = f.livemap := by
              rw [insert_snd hl]
            have ih := evacuate_objects_bytes sf hc rest (ZRelocate.insert f a dst).2
              (some (p.alloc_object_atomic sz).2) cur
              (if (ZRelocate.insert f a dst).1 = dst then size_add bytes sz else bytes)
              (by rw [hlm]; exact hrest)
            have h1 := @insert_unforwarded f a sz dst hl (hm (a, sz) (List.mem_cons_self _ _))
            have h2 : (if (ZRelocate.insert f a dst).1 = dst then size_add bytes sz else bytes)
                ≤ bytes + sz := by
              split
              · exact size_add_le _ _
              · omega
            dsimp only
            omega

theorem alloc_object_atomic_id (p : ZPage) (sz : Nat) : (p.alloc_object_atomic sz).2.id = p.id := by
  unfold ZPage.alloc_object_atomic
  split <;> rfl

/-- Evacuation keeps the identity of the target page. -/
theorem evacuate_objects_target (sf : Nat) (hc : Bool) :
    ∀ (objs : List (Nat × Nat)) (f : ZForwarding) (t : Option ZPage) (cur bytes : Nat),
      ((evacuate_objects sf hc objs f t cur bytes).2.1).map (fun p => p.id)
        = t.map (fun p => p.id)
  | [], f, t, cur, bytes => by simp [evacuate_objects]
  | (a, sz) :: rest, f, t, cur, bytes => by
    unfold evacuate_objects
    by_cases h1 : a < sf
    · simp only [h1, if_true]
      exact evacuate_objects_target sf hc rest f t cur bytes
    · simp only [h1, if_false]
      cases hl : ZRelocate.lookup f a with
      | some v => exact evacuate_objects_target sf hc rest f t cur bytes
      | none =>
        dsimp only
        cases t with
        | none => rfl
        | some p =>
          dsimp only
          cases hto : (p.alloc_object_atomic sz).1 with
          | none => simp [alloc_object_atomic_id]
          | some dst =>
            dsimp only
            rw [evacuate_objects_target sf hc rest]
            simp [alloc_object_atomic_id]

theorem evacuate_page_fields (f : ZForwarding) (t : Option ZPage) (c : Option Nat) :
    (evacuate_page f t c).1 = { f with entries := (evacuate_page f t c).1.entries } :=
  evacuate_objects_fields _ _ f.livemap f t _ 0

theorem evacuate_page_bytes (f : ZForwarding) (t : Option ZPage) (c : Option Nat) :
    (evacuate_page f t c).2.2.2 + (evacuate_page f t c).1.unforwarded_bytes
      ≤ f.unforwarded_bytes := by
  have h := evacuate_objects_bytes (c.getD 0) c.isSome f.livemap f t (c.getD 0) 0 (fun _ ho => ho)
  simpa [evacuate_page] using h

theorem evacuate_page_target (f : ZForwarding) (t : Option ZPage) (c : Option Nat) :
    ((evacuate_page f t c).2.1).map (fun p => p.id) = t.map (fun p => p.id) :=
  evacuate_objects_target _ _ f.livemap f t _ 0

namespace ZFromSpacePool

theorem evacuate_and_count_target (s : ZFromSpacePool) (i : Nat) (f : ZForwarding) (c : Nat) :
    (evacuate_and_count s i f c).2.1.load_target f.to_age = s.load_target f.to_age := by
  simp [evacuate_and_count, load_target, evacuate_page_target]

theorem load_target_set_fsp (s : ZFromSpacePool) (i : Nat) (f : ZForwarding) (age : Nat) :
    (s.set_fsp i f).load_target age = s.load_target age := rfl

theorem inc_evacuated_bytes_facts {f g : ZForwarding} {b : Nat}
    (e1 : g = { f with entries := g.entries })
    (e2 : b + g.unforwarded_bytes ≤ f.unforwarded_bytes) (hb : f.bytes_ok) (hf : f.held) :
    (g.inc_evacuated_bytes b).2.bytes_ok ∧ (g.inc_evacuated_bytes b).2.held ∧
    (g.inc_evacuated_bytes b).2.live_bytes = f.live_bytes ∧
    (g.inc_evacuated_bytes b).2.to_age = f.to_age ∧
    (g.inc_evacuated_bytes b).2.claimed = f.claimed ∧
    (g.inc_evacuated_bytes b).2.done = f.done ∧
    ((g.inc_evacuated_bytes b).1 = false → (g.inc_evacuated_bytes b).2.evacuated = f.evacuated) := by
  have hg1 : g.live_bytes = f.live_bytes := by rw [e1]
  have hg2 : g.evacuated_bytes = f.evacuated_bytes := by rw [e1]
  have hg3 : g.page = f.page := by rw [e1]
  have hg4 : g.ref_count = f.ref_count := by rw [e1]
  have hg5 : g.claimed = f.claimed := by rw [e1]
  have hg6 : g.claimed2 = f.claimed2 := by rw [e1]
  have hg7 : g.done = f.done := by rw [e1]
  have hg8 : g.to_age = f.to_age := by rw [e1]
  have hg9 : g.evacuated = f.evacuated := by rw [e1]
  have hsa := size_add_le g.evacuated_bytes b
  obtain ⟨hb1, hb2⟩ := hb
  obtain ⟨hf1, hf2, hf3, hf4⟩ := hf
  clear e1
  have hu1 : ∀ (x : Nat) (y : Bool), ZForwarding.unforwarded_bytes
      { g with evacuated_bytes := x, evacuated := y } = g.unforwarded_bytes := fun _ _ => rfl
  have hu2 : ∀ (x : Nat), ZForwarding.unforwarded_bytes
      { g with evacuated_bytes := x } = g.unforwarded_bytes := fun _ => rfl
  unfold ZForwarding.inc_evacuated_bytes
  split
  · refine ⟨⟨?_, ?_⟩, ⟨?_, ?_, ?_, ?_⟩, ?_, ?_, ?_, ?_, ?_⟩
    · rw [hu1]; dsimp only; omega
    · dsimp only; rw [hg3, hg1]; exact hb2
    · dsimp only; rw [hg4]; exact hf1
    · dsimp only; rw [hg5]; exact hf2
    · dsimp only; rw [hg6]; exact hf3
    · dsimp only; rw [hg7]; exact hf4
    · exact hg1
    · exact hg8
    · exact hg5
    · exact hg7
    · intro h; cases h
  · refine ⟨⟨?_, ?_⟩, ⟨?_, ?_, ?_, ?_⟩, ?_, ?_, ?_, ?_, ?_⟩
    · rw [hu2]; dsimp only; omega
    · dsimp only; rw [hg3, hg1]; exact hb2
    · dsimp only; rw [hg4]; exact hf1
    · dsimp only; rw [hg5]; exact hf2
    · dsimp only; rw [hg6]; exact hf3
    · dsimp only; rw [hg7]; exact hf4
    · exact hg1
    · exact hg8
    · exact hg5
    · exact hg7
    · intro _; exact hg9

/-- Evacuating the held record keeps the invariant and the hold. -/
theorem evacuate_and_count_inv {k i c : Nat} {s : ZFromSpacePool} {f : ZForwarding}
    (hs : GInv (some i) k s) (hi : s._fsp[i]? = some f) (hf : f.held) :
    GInv (some i) k (evacuate_and_count s i f c).2.1 ∧
    ∃ f', (evacuate_and_count s i f c).2.1._fsp[i]? = some f' ∧ f'.held ∧ f'.to_age = f.to_age ∧
      ((evacuate_and_count s i f c).1 = false → f'.evacuated = f.evacuated) := by
  have hil : i < s._fsp.length := (List.getElem?_eq_some.mp hi).1
  have hb := hs.bytes i f hi
  obtain ⟨a1, a2, a3, a4, a5, a6, a7⟩ := inc_evacuated_bytes_facts
    (evacuate_page_fields f (s._target f.to_age) (some c))
    (evacuate_page_bytes f (s._target f.to_age) (some c)) hb hf
  refine ⟨?_, _, List.getElem?_set_self hil, a2, a4, a7⟩
  refine GInv.set _ hs hi rfl rfl rfl rfl (Or.inr rfl) a3 a1 (Or.inr (Or.inr ⟨rfl, a2⟩)) ?_ ?_
  · intro hd; rw [a6]; exact hd
  · rw [a5, a3]
    exact le_refl _

/-- Freeing the held, fully evacuated record succeeds and restores the invariant. -/
theorem try_free_inv {k i : Nat} (cpu : Nat) (result tl : Bool) {s : ZFromSpacePool} {f : ZForwarding}
    (hs : GInv (some i) k s) (hi : s._fsp[i]? = some f) (hf : f.held) :
    (try_free_if_evacuated_else_release id result cpu tl i 2 s).1 = true ∧
    GInv none k (try_free_if_evacuated_else_release id result cpu tl i 2 s).2.1 := by
  have hil : i < s._fsp.length := (List.getElem?_eq_some.mp hi).1
  obtain ⟨hb1, hb2⟩ := hs.bytes i f hi
  obtain ⟨hf1, hf2, hf3, hf4⟩ := hf
  have hsa := size_add_le s._evacuated_bytes f.evacuated_bytes
  have h32 : to_int32 (1 + 1) = 2 := by decide
  have hr : (try_free_if_evacuated_else_release id result cpu tl i 2 s)
      = (true, free_page_forwarding
          ((s.record_claim true).set_fsp i { f with ref_count := -1, claimed := true })
          i result cpu tl) := by
    simp [try_free_if_evacuated_else_release, hi, ZForwarding.try_fast_zero_rc, hf1,
      ZForwarding.claim, hf2, h32]
  rw [hr]
  refine ⟨rfl, ?_⟩
  have hget : ((s.record_claim true).set_fsp i { f with ref_count := -1, claimed := true })._fsp[i]?
      = some { f with ref_count := -1, claimed := true } := List.getElem?_set_self hil
  simp only [free_page_forwarding, hget]
  refine GInv.set (ZForwarding.mark_done { f with ref_count := -1, claimed := true })
    hs hi ?_ rfl rfl rfl (Or.inr rfl) rfl ⟨?_, ?_⟩ (Or.inl rfl) (fun _ => rfl) ?_
  · simp [set_fsp, record_claim, List.set_set]
  · exact hb1
  · exact hb2
  · simp only [inc_evacuated_page_count_and_bytes, set_fsp, record_claim, ZForwarding.mark_done,
      hf2]
    simp
    omega

/-- Backing out of the held record makes it idle again. -/
theorem back_out_inv {k i : Nat} {s : ZFromSpacePool} {f : ZForwarding}
    (hs : GInv (some i) k s) (hi : s._fsp[i]? = some f) (hf : f.held) (he : f.evacuated = false) :
    GInv none k (s.set_fsp i f.unclaim2.release_page) := by
  obtain ⟨hb1, hb2⟩ := hs.bytes i f hi
  obtain ⟨hf1, hf2, hf3, hf4⟩ := hf
  have hrel : f.unclaim2.release_page = { f with claimed2 := false, ref_count := 1 } := by
    simp [ZForwarding.unclaim2, ZForwarding.release_page, hf1]
  rw [hrel]
  refine GInv.set _ hs hi rfl rfl rfl rfl (Or.inr rfl) rfl ⟨hb1, hb2⟩
    (Or.inr (Or.inl ⟨rfl, hf2, rfl, he, hf4⟩)) ?_ (le_refl _)
  intro hd
  rw [hf4] at hd
  cases hd

end ZFromSpacePool

namespace ZFromSpacePool

theorem try_claim_page_none {i : Nat} {u : Bool} {s : ZFromSpacePool} (hi : s._fsp[i]? = none) :
    try_claim_page s i u = (false, s, u) := by
  simp [try_claim_page, hi]

theorem try_claim_page_done {i : Nat} {u : Bool} {s : ZFromSpacePool} {f : ZForwarding}
    (hi : s._fsp[i]? = some f) (hd : f.done = true) :
    try_claim_page s i u = (false, if u then update_if_higher s (i + 1) else s, u) := by
  simp [try_claim_page, hi, ZForwarding.is_done, hd]

theorem try_claim_page_idle {i : Nat} {u : Bool} {s : ZFromSpacePool} {f : ZForwarding}
    (hi : s._fsp[i]? = some f) (hf : f.idle) :
    try_claim_page s i u = (true, s.set_fsp i { f with claimed2 := true, ref_count := 2 }, u) := by
  obtain ⟨h1, h2, h3, h4, h5⟩ := hf
  simp [try_claim_page, hi, ZForwarding.is_done, h5, ZForwarding.claim2, h3,
    ZForwarding.retain_page, h4, h1]

theorem update_if_higher_start (s : ZFromSpacePool) (v : Nat) :
    (update_if_higher s v)._fsp_start = max s._fsp_start v := by
  unfold update_if_higher
  split
  · simp only []
    omega
  · omega

theorem update_if_higher_inv {h : Option Nat} {k v : Nat} {s : ZFromSpacePool} (hs : GInv h k s)
    (hv : ∀ (j : Nat) (f : ZForwarding), j < v → s._fsp[j]? = some f → f.done = true) :
    GInv h (max k v) (update_if_higher s v) := by
  have e : (update_if_higher s v)._fsp = s._fsp := by
    unfold update_if_higher; split <;> rfl
  have e2 : (update_if_higher s v)._fsp_pages = s._fsp_pages := by
    unfold update_if_higher; split <;> rfl
  have e3 : (update_if_higher s v)._deferrable_bytes = s._deferrable_bytes := by
    unfold update_if_higher; split <;> rfl
  have e4 : (update_if_higher s v)._evacuated_bytes = s._evacuated_bytes := by
    unfold update_if_higher; split <;> rfl
  have e5 : (update_if_higher s v)._in_placed_bytes = s._in_placed_bytes := by
    unfold update_if_higher; split <;> rfl
  refine ⟨?_, ?_, ?_, ?_, ?_, ?_, ?_⟩
  · rw [e, e2]; exact hs.pages
  · rw [e]; exact hs.status
  · rw [e]; exact hs.bytes
  · rw [e, e4, e5]; exact hs.counted
  · rw [e, e3]; exact hs.deferrable
  · rw [e, update_if_higher_start]
    intro j f hj hjf
    rcases lt_max_iff.mp hj with h1 | h1
    · exact hs.below_start j f h1 hjf
    · exact hv j f h1 hjf
  · rw [e]
    intro j f hj hjf
    rcases lt_max_iff.mp hj with h1 | h1
    · exact hs.below j f h1 hjf
    · exact hv j f h1 hjf

/-- What `try_claim_page` leaves behind, between calls of other threads: a claimed and
retained record, or a record that was done. -/
theorem try_claim_page_inv {i : Nat} {u : Bool} {s : ZFromSpacePool}
    (hs : GInv none (if u then i else 0) s) :
    (try_claim_page s i u).2.2 = u ∧
    ((try_claim_page s i u).1 = true →
      GInv (some i) (if u then i else 0) (try_claim_page s i u).2.1 ∧
      ∃ f, (try_claim_page s i u).2.1._fsp[i]? = some f ∧ f.held ∧ f.evacuated = false) ∧
    ((try_claim_page s i u).1 = false →
      GInv none (if u then max (i + 1) (try_claim_page s i u).2.1._fsp_start else 0)
        (try_claim_page s i u).2.1) := by
  cases hi : s._fsp[i]? with
  | none =>
    rw [try_claim_page_none hi]
    refine ⟨rfl, (fun h => by cases h), fun _ => ?_⟩
    refine hs.raise ?_
    intro j f hj hjf
    cases u with
    | false => simp at hj
    | true =>
      simp only [if_true] at hj hs
      have hjl : j < s._fsp.length := (List.getElem?_eq_some.mp hjf).1
      have hil : s._fsp.length ≤ i := by
        by_contra hc
        rw [List.getElem?_eq_getElem (by omega)] at hi
        cases hi
      rcases lt_max_iff.mp hj with h1 | h1
      · exact hs.below j f (by omega) hjf
      · exact hs.below_start j f h1 hjf
  | some f =>
    have hil : i < s._fsp.length := (List.getElem?_eq_some.mp hi).1
    rcases hs.status i f hi with hd | hidle | ⟨hh, _⟩
    · -- the record is done
      rw [try_claim_page_done hi hd]
      refine ⟨rfl, (fun h => by cases h), fun _ => ?_⟩
      cases u with
      | false => exact hs
      | true =>
        simp only [if_true] at hs ⊢
        have hv : ∀ (j : Nat) (g : ZForwarding), j < i + 1 → s._fsp[j]? = some g →
            g.done = true := by
          intro j g hj hg
          by_cases h1 : j < i
          · exact hs.below j g h1 hg
          · have h2 : j = i := by omega
            subst h2
            rw [hi] at hg
            cases hg
            exact hd
        have h1 := update_if_higher_inv hs hv
        refine h1.raise ?_
        intro j g hj hg
        have e : (update_if_higher s (i + 1))._fsp = s._fsp := by
          unfold update_if_higher; split <;> rfl
        rcases lt_max_iff.mp hj with h2 | h2
        · rw [e] at hg; exact hv j g h2 hg
        · exact h1.below_start j g h2 hg
    · -- the record is idle
      rw [try_claim_page_idle hi hidle]
      obtain ⟨h1, h2, h3, h4, h5⟩ := hidle
      obtain ⟨hb1, hb2⟩ := hs.bytes i f hi
      refine ⟨rfl, fun _ => ⟨?_, _, List.getElem?_set_self hil, ⟨rfl, h2, rfl, h5⟩, h4⟩,
        (fun h => by cases h)⟩
      refine GInv.set _ hs hi rfl rfl rfl rfl (Or.inl rfl) rfl ⟨hb1, hb2⟩
        (Or.inr (Or.inr ⟨rfl, ⟨rfl, h2, rfl, h5⟩⟩)) ?_ (le_refl _)
      intro hd
      rw [h5] at hd
      cases hd
    · cases hh

theorem claim_any_scan_none (age att : Nat) :
    ∀ (n i : Nat) (s s1 : ZFromSpacePool), claim_any_scan age att n i s = (none, s1) → s1 = s
  | 0, i, s, s1, h => by
    simp only [claim_any_scan] at h
    cases h
    rfl
  | n + 1, i, s, s1, h => by
    unfold claim_any_scan at h
    cases hi : s._fsp[i]? with
    | none => 
      rw [hi] at h
      cases h
      rfl
    | some f =>
      rw [hi] at h
      dsimp only at h
      split at h
      · exact claim_any_scan_none age att n (i + 1) s s1 h
      · split at h
        · exact claim_any_scan_none age att n (i + 1) s s1 h
        · split at h
          · exact claim_any_scan_none age att n (i + 1) s s1 h
          · split at h
            · cases h
            · exact claim_any_scan_none age att n (i + 1) s s1 h

theorem claim_any_scan_some (age att : Nat) :
    ∀ (n i : Nat) (s s1 : ZFromSpacePool) (idx : Nat),
      claim_any_scan age att n i s = (some idx, s1) →
      ∃ f, s._fsp[idx]? = some f ∧ f.done = false ∧ f.claimed2 = false ∧
        (f.in_place_relocation_claim_page false).1 = true ∧
        s1 = s.set_fsp idx (f.in_place_relocation_claim_page false).2.claim.2
  | 0, i, s, s1, idx, h => by
    simp only [claim_any_scan] at h
    cases h
  | n + 1, i, s, s1, idx, h => by
    unfold claim_any_scan at h
    cases hi : s._fsp[i]? with
    | none => 
      rw [hi] at h
      cases h
    | some f =>
      rw [hi] at h
      dsimp only at h
      split at h
      · exact claim_any_scan_some age att n (i + 1) s s1 idx h
      · split at h
        · exact claim_any_scan_some age att n (i + 1) s s1 idx h
        · rename_i hnd
          split at h
          · exact claim_any_scan_some age att n (i + 1) s s1 idx h
          · rename_i hnc
            split at h
            · rename_i hc
              cases h
              refine ⟨f, hi, ?_, ?_, hc, rfl⟩
              · simpa [ZForwarding.is_done] using hnd
              · simpa [ZForwarding.is_claim2] using hnc
            · exact claim_any_scan_some age att n (i + 1) s s1 idx h

theorem claim_and_remove_any_page_none {s s1 : ZFromSpacePool} {age : Nat}
    (h : claim_and_remove_any_page s age = (none, s1)) : s1 = s := by
  unfold claim_and_remove_any_page at h
  split at h
  · cases h
  · rename_i s2 h2
    have e := claim_any_scan_none _ _ _ _ _ _ h2
    subst e
    exact claim_any_scan_none _ _ _ _ _ _ h

theorem claim_and_remove_any_page_some {s s1 : ZFromSpacePool} {age idx : Nat}
    (h : claim_and_remove_any_page s age = (some idx, s1)) :
    ∃ f, s._fsp[idx]? = some f ∧ f.done = false ∧ f.claimed2 = false ∧
      (f.in_place_relocation_claim_page false).1 = true ∧
      s1 = s.set_fsp idx (f.in_place_relocation_claim_page false).2.claim.2 := by
  unfold claim_and_remove_any_page at h
  split at h
  · rename_i i2 s2 h2
    cases h
    exact claim_any_scan_some _ _ _ _ _ _ _ h2
  · rename_i s2 h2
    have e := claim_any_scan_none _ _ _ _ _ _ h2
    subst e
    exact claim_any_scan_some _ _ _ _ _ _ _ h

end ZFromSpacePool

namespace ZFromSpacePool

/-- Installing a new target keeps the invariant. -/
theorem install_new_target_inv {k : Nat} (age : Nat) {s : ZFromSpacePool} (hs : GInv none k s) :
    GInv none k (install_new_target s age).2 := by
  unfold install_new_target
  cases hl : s._in_placed_pages age with
  | cons p rest =>
    dsimp only
    exact hs.congr rfl rfl rfl rfl rfl rfl
  | nil =>
    dsimp only
    cases hc : claim_and_remove_any_page s age with
    | mk o s1 =>
      cases o with
      | none =>
        dsimp only
        rw [claim_and_remove_any_page_none hc]
        exact hs
      | some idx =>
        dsimp only
        obtain ⟨f0, hi, hnd, _, _, hs1⟩ := claim_and_remove_any_page_some hc
        have hil : idx < s._fsp.length := (List.getElem?_eq_some.mp hi).1
        rcases hs.status idx f0 hi with hd | hidle | ⟨hh, _⟩
        · rw [hnd] at hd; cases hd
        · obtain ⟨h1, h2, h3, h4, h5⟩ := hidle
          obtain ⟨hb1, hb2⟩ := hs.bytes idx f0 hi
          have hfc : (f0.in_place_relocation_claim_page false).2.claim.2
              = { f0 with ref_count := -1, claimed := true } := by
            simp [ZForwarding.in_place_relocation_claim_page, h5, h1, ZForwarding.claim, h2]
          rw [hfc] at hs1
          subst hs1
          have hget : (s.set_fsp idx { f0 with ref_count := -1, claimed := true })._fsp[idx]?
              = some { f0 with ref_count := -1, claimed := true } :=
            List.getElem?_set_self hil
          rw [hget]
          dsimp only
          have hsa := size_add_le s._in_placed_bytes f0.live_bytes
          refine GInv.set
            { (ZRelocate.compact_in_place
                { f0 with ref_count := -1, claimed := true }).2.release_page.mark_done with
              page := (ZRelocate.compact_in_place
                { f0 with ref_count := -1, claimed := true }).2.page.reset_age age }
            hs hi ?_ rfl rfl rfl (Or.inl rfl) rfl ⟨hb1, hb2⟩ (Or.inl rfl) (fun _ => rfl) ?_
          · simp [set_fsp, inc_in_placed_page_count_and_bytes, List.set_set]
          · simp only [set_fsp, inc_in_placed_page_count_and_bytes, ZRelocate.compact_in_place,
              ZForwarding.release_page, ZForwarding.mark_done, h2]
            simp
            omega
        · cases hh

theorem store_target_inv {h : Option Nat} {k age : Nat} {p : ZPage} {s : ZFromSpacePool}
    (hs : GInv h k s) : GInv h k (s.store_target p age) :=
  hs.congr rfl rfl rfl rfl rfl rfl

end ZFromSpacePool

namespace ZFromSpacePool

/-- The invariant holds again when `alloc_page_inner` returns. -/
theorem alloc_page_inner_go_inv (result : Bool) (cpu : Nat) (tl : Bool) :
    ∀ (fuel : Nat) (lab : Label) (l : Locals) (s : ZFromSpacePool)
      (r : Bool × ZFromSpacePool × Option ZPage),
      PreGo lab l s → alloc_page_inner_go id result cpu tl fuel lab l s = some r → GInv none 0 r.2.1
  | 0, lab, l, s, r, _, h => by
    simp [alloc_page_inner_go] at h
  | fuel + 1, Label.for_test, l, s, r, hp, h => by
    simp only [alloc_page_inner_go] at h
    split at h
    · exact alloc_page_inner_go_inv result cpu tl fuel Label.retry_before_claimed l s r hp h
    · cases h
      exact GInv.weaken hp (Nat.zero_le _)
  | fuel + 1, Label.retry_before_claimed, l, s, r, hp, h => by
    simp only [alloc_page_inner_go] at h
    obtain ⟨hu, ht, hf⟩ := try_claim_page_inv (i := l.i) (u := l.update_fsp) hp
    split at h
    · rename_i hc
      refine alloc_page_inner_go_inv result cpu tl fuel _ _ _ r ?_ h
      simp only [PreGo, hu]
      exact ht hc
    · rename_i hc
      refine alloc_page_inner_go_inv result cpu tl fuel _ _ _ r ?_ h
      simp only [PreGo, hu]
      exact hf (by simpa using hc)
  | fuel + 1, Label.retry_after_retained, l, s, r, hp, h => by
    simp only [alloc_page_inner_go] at h
    obtain ⟨hs, f, hi, hheld, hev⟩ := hp
    rw [hi] at h
    dsimp only at h
    obtain ⟨hs2, f', hi2, hheld2, hage, hev2⟩ :=
      evacuate_and_count_inv (c := l.livemap_cursor) hs hi hheld
    cases hfull : (evacuate_and_count s l.i f l.livemap_cursor).1 with
    | true =>
      rw [hfull] at h
      simp only [if_true] at h
      obtain ⟨hfree, hs3⟩ := try_free_inv cpu result tl hs2 hi2 hheld2
      rw [hfree] at h
      simp only [if_true] at h
      cases h
      exact GInv.weaken hs3 (Nat.zero_le _)
    | false =>
      rw [hfull] at h
      simp only [Bool.false_eq_true, if_false] at h
      rw [evacuate_and_count_target] at h
      rw [if_neg (fun hne => hne rfl)] at h
      rw [hi2] at h
      dsimp only at h
      rw [load_target_set_fsp, evacuate_and_count_target] at h
      rw [if_neg (fun hne => hne rfl)] at h
      have hev3 : f'.evacuated = false := by rw [hev2 hfull]; exact hev
      have hs4 := back_out_inv hs2 hi2 hheld2 hev3
      have hs5 := install_new_target_inv f.to_age hs4
      cases hin : install_new_target
          ((evacuate_and_count s l.i f l.livemap_cursor).2.1.set_fsp l.i
            f'.unclaim2.release_page) f.to_age with
      | mk o s1 =>
        rw [hin] at h hs5
        cases o with
        | none =>
          dsimp only at h
          cases h
          exact GInv.weaken hs5 (Nat.zero_le _)
        | some nt =>
          dsimp only at h
          refine alloc_page_inner_go_inv result cpu tl fuel _ _ _ r ?_ h
          simp only [PreGo]
          exact store_target_inv hs5

end ZFromSpacePool

namespace ZFromSpacePool

theorem deliver_frame (s : ZFromSpacePool) (result : Bool) (p : ZPage) :
    (deliver s result p).2.1._fsp = s._fsp ∧ (deliver s result p).2.1._fsp_pages = s._fsp_pages ∧
    (deliver s result p).2.1._fsp_start = s._fsp_start ∧
    (deliver s result p).2.1._deferrable_bytes = s._deferrable_bytes ∧
    (deliver s result p).2.1._evacuated_bytes = s._evacuated_bytes ∧
    (deliver s result p).2.1._in_placed_bytes = s._in_placed_bytes := by
  unfold deliver
  split <;> exact ⟨rfl, rfl, rfl, rfl, rfl, rfl⟩

/-- The cache path touches the free lists and the external allocator only. -/
theorem alloc_page_from_cache_frame (s : ZFromSpacePool) (result : Bool) (cpu : Nat) (mc : Bool) :
    (alloc_page_from_cache s result cpu mc).2.1._fsp = s._fsp ∧
    (alloc_page_from_cache s result cpu mc).2.1._fsp_pages = s._fsp_pages ∧
    (alloc_page_from_cache s result cpu mc).2.1._fsp_start = s._fsp_start ∧
    (alloc_page_from_cache s result cpu mc).2.1._deferrable_bytes = s._deferrable_bytes ∧
    (alloc_page_from_cache s result cpu mc).2.1._evacuated_bytes = s._evacuated_bytes ∧
    (alloc_page_from_cache s result cpu mc).2.1._in_placed_bytes = s._in_placed_bytes := by
  unfold alloc_page_from_cache
  split
  · exact deliver_frame _ _ _
  · split
    · split
      · exact deliver_frame _ _ _
      · exact ⟨rfl, rfl, rfl, rfl, rfl, rfl⟩
    · exact ⟨rfl, rfl, rfl, rfl, rfl, rfl⟩

theorem alloc_page_from_cache_inv {h : Option Nat} {k : Nat} {s : ZFromSpacePool}
    (result : Bool) (cpu : Nat) (mc : Bool) (hs : GInv h k s) :
    GInv h k (alloc_page_from_cache s result cpu mc).2.1 := by
  obtain ⟨h1, h2, h3, h4, h5, h6⟩ := alloc_page_from_cache_frame s result cpu mc
  exact hs.congr h1 h2 h3 h4 h5 h6

theorem alloc_page_inner_inv {s : ZFromSpacePool} {result : Bool} {cpu : Nat} {tl : Bool}
    {r : Bool × ZFromSpacePool × Option ZPage} (hs : GInv none 0 s)
    (h : alloc_page_inner s result cpu tl = some r) : GInv none 0 r.2.1 := by
  refine alloc_page_inner_go_inv result cpu tl _ Label.for_test _ s r ?_ h
  simp only [PreGo, if_true]
  exact hs.raise (fun j f hj hjf => hs.below_start j f hj hjf)

/-- The invariant holds after `alloc_page`. -/
theorem alloc_page_inv {s s' : ZFromSpacePool} {cpu : Nat} {mc : Bool} {p : Option ZPage}
    (hs : GInv none 0 s) (h : alloc_page s cpu mc = some (p, s')) : GInv none 0 s' := by
  unfold alloc_page at h
  have hc := alloc_page_from_cache_inv true cpu mc hs
  split at h
  · cases h
    exact hc
  · split at h
    · cases hr : alloc_page_inner (alloc_page_from_cache s true cpu mc).2.1 true cpu true with
      | none => rw [hr] at h; cases h
      | some r =>
        rw [hr] at h
        cases h
        exact alloc_page_inner_inv hc hr
    · cases h
      exact hc

/-- The invariant holds after `free_page`. -/
theorem free_page_inv {s s' : ZFromSpacePool} {cpu : Nat} {mc tl : Bool} {b : Bool}
    (hs : GInv none 0 s) (h : free_page s cpu mc tl = some (b, s')) : GInv none 0 s' := by
  unfold free_page at h
  have hc := alloc_page_from_cache_inv false cpu mc hs
  split at h
  · cases h
    exact hc
  · split at h
    · cases hr : alloc_page_inner (alloc_page_from_cache s false cpu mc).2.1 false cpu tl with
      | none => rw [hr] at h; cases h
      | some r =>
        rw [hr] at h
        cases h
        exact alloc_page_inner_inv hc hr
    · cases h
      exact hc

/-- The invariant holds after `compact_in_place`. -/
theorem compact_in_place_inv {s : ZFromSpacePool} (i cpu : Nat) (tl : Bool)
    (hs : GInv none 0 s) : GInv none 0 (compact_in_place s i cpu tl) := by
  cases hi : s._fsp[i]? with
  | none =>
    have e : claim_and_remove_specific s i = (false, s) := by
      simp [claim_and_remove_specific, hi]
    simp only [compact_in_place, e]
    exact hs
  | some f =>
    have hil : i < s._fsp.length := (List.getElem?_eq_some.mp hi).1
    rcases hs.status i f hi with hd | hidle | ⟨hh, _⟩
    · have e : claim_and_remove_specific s i = (false, s) := by
        simp [claim_and_remove_specific, hi, ZForwarding.in_place_relocation_claim_page, hd]
      simp only [compact_in_place, e]
      exact hs
    · obtain ⟨h1, h2, h3, h4, h5⟩ := hidle
      obtain ⟨hb1, hb2⟩ := hs.bytes i f hi
      have e : claim_and_remove_specific s i
          = (true, (s.record_claim true).set_fsp i { f with ref_count := -1, claimed := true }) := by
        simp [claim_and_remove_specific, hi, ZForwarding.in_place_relocation_claim_page, h5, h1,
          ZForwarding.claim, h2]
      have hget : ((s.record_claim true).set_fsp i
          { f with ref_count := -1, claimed := true })._fsp[i]?
          = some { f with ref_count := -1, claimed := true } := List.getElem?_set_self hil
      simp only [compact_in_place, e, if_true]
      rw [hget]
      dsimp only
      rw [if_neg (by simp [ZForwarding.is_evacuated, h4])]
      have hsa := size_add_le s._in_placed_bytes f.live_bytes
      refine GInv.set
        (ZRelocate.compact_in_place
          { f with ref_count := -1, claimed := true }).2.release_page.mark_in_place.mark_done
        hs hi ?_ rfl rfl rfl (Or.inl rfl) rfl ⟨hb1, hb2⟩ (Or.inl rfl) (fun _ => rfl) ?_
      · simp [set_fsp, record_claim, inc_in_placed_page_count_and_bytes,
          append_to_in_placed_pages, List.set_set]
      · simp only [set_fsp, record_claim, inc_in_placed_page_count_and_bytes,
          append_to_in_placed_pages, ZRelocate.compact_in_place, ZForwarding.release_page, ZForwarding.mark_done,
          ZForwarding.mark_in_place, h2]
        simp
        omega
    · cases hh

theorem reset_start_forwarding_done (f : ZForwarding) (h : f.done = true ∨ f.idle) :
    (reset_start_forwarding f).done = true := by
  rcases h with hd | ⟨h1, h2, h3, h4, h5⟩
  · unfold reset_start_forwarding ZForwarding.claim2 ZForwarding.claim ZForwarding.mark_done
    split <;> split <;> (try split) <;> (try split) <;> simp_all
  · simp [reset_start_forwarding, ZForwarding.claim2, ZForwarding.claim, ZForwarding.mark_done,
      h2, h3]

theorem reset_start_forwarding_fields (f : ZForwarding) :
    (reset_start_forwarding f).live_bytes = f.live_bytes ∧
    (reset_start_forwarding f).page = f.page ∧
    (reset_start_forwarding f).evacuated_bytes = f.evacuated_bytes ∧
    (reset_start_forwarding f).unforwarded_bytes = f.unforwarded_bytes := by
  unfold reset_start_forwarding ZForwarding.claim2 ZForwarding.claim ZForwarding.mark_done
  split <;> split <;> (try split) <;> (try split) <;> exact ⟨rfl, rfl, rfl, rfl⟩

theorem reset_start_fold_le :
    ∀ (l : List ZForwarding) (acc : Nat),
      l.foldl (fun acc f => size_add acc f.evacuated_bytes) acc
        ≤ acc + (l.map (fun f => f.evacuated_bytes)).sum
  | [], acc => by simp
  | f :: l, acc => by
    have ih := reset_start_fold_le l (size_add acc f.evacuated_bytes)
    have := size_add_le acc f.evacuated_bytes
    simp only [List.foldl_cons, List.map_cons, List.sum_cons]
    omega

theorem reset_start_claimed_one (f : ZForwarding) (hb : f.bytes_ok) :
    (if f.claimed then f.live_bytes else 0)
        + (if reset_start_claims f then f.evacuated_bytes else 0)
      ≤ (if (reset_start_forwarding f).claimed then (reset_start_forwarding f).live_bytes else 0) := by
  obtain ⟨hb1, _⟩ := hb
  cases hc : f.claimed <;> cases hc2 : f.claimed2 <;>
    simp [reset_start_claims, reset_start_forwarding, ZForwarding.claim2, ZForwarding.claim,
      ZForwarding.mark_done, hc, hc2]
  omega

theorem reset_start_claimed_live :
    ∀ (l : List ZForwarding), (∀ f ∈ l, f.bytes_ok) →
      claimed_live l + ((l.filter reset_start_claims).map (fun f => f.evacuated_bytes)).sum
        ≤ claimed_live (l.map reset_start_forwarding)
  | [], _ => by simp [claimed_live]
  | f :: l, hb => by
    have ih := reset_start_claimed_live l (fun g hg => hb g (List.mem_cons_of_mem _ hg))
    have h1 := reset_start_claimed_one f (hb f (List.mem_cons_self _ _))
    unfold claimed_live at ih ⊢
    simp only [List.map_cons, List.sum_cons, List.filter_cons]
    cases hc : reset_start_claims f
    · simp only [hc, Bool.false_eq_true, if_false] at h1 ⊢
      omega
    · simp only [hc, if_true, List.map_cons, List.sum_cons] at h1 ⊢
      omega

/-- The invariant holds after `reset_start`, and every record is done. -/
theorem reset_start_inv {s : ZFromSpacePool} (hs : GInv none 0 s) :
    GInv none 0 (reset_start s) ∧ ∀ f ∈ (reset_start s)._fsp, f.done = true := by
  have hdone : ∀ (j : Nat) (f : ZForwarding), (reset_start s)._fsp[j]? = some f →
      f.done = true := by
    intro j f hj
    simp only [reset_start, List.getElem?_map] at hj
    cases hg : s._fsp[j]? with
    | none => rw [hg] at hj; cases hj
    | some g =>
      rw [hg] at hj
      cases hj
      refine reset_start_forwarding_done g ?_
      rcases hs.status j g hg with hd | hidle | ⟨hh, _⟩
      · exact Or.inl hd
      · exact Or.inr hidle
      · cases hh
  refine ⟨⟨?_, ?_, ?_, ?_, ?_, ?_, ?_⟩, ?_⟩
  · simp only [reset_start, List.length_map]
    exact hs.pages
  · exact fun j f hj => Or.inl (hdone j f hj)
  · intro j f hj
    simp only [reset_start, List.getElem?_map] at hj
    cases hg : s._fsp[j]? with
    | none => rw [hg] at hj; cases hj
    | some g =>
      rw [hg] at hj
      cases hj
      obtain ⟨e1, e2, e3, e4⟩ := reset_start_forwarding_fields g
      obtain ⟨hb1, hb2⟩ := hs.bytes j g hg
      exact ⟨by rw [e3, e4, e1]; exact hb1, by rw [e2, e1]; exact hb2⟩
  · have h1 := reset_start_claimed_live s._fsp
      (fun f hf => by
        obtain ⟨n, hn⟩ := List.mem_iff_getElem?.mp hf
        exact hs.bytes n f hn)
    have h2 := reset_start_fold_le (s._fsp.filter reset_start_claims) 0
    have h3 := size_add_le s._evacuated_bytes
      ((s._fsp.filter reset_start_claims).foldl (fun acc f => size_add acc f.evacuated_bytes) 0)
    have h4 := hs.counted
    simp only [reset_start]
    omega
  · have e : total_live (s._fsp.map reset_start_forwarding) = total_live s._fsp := by
      unfold total_live
      rw [List.map_map]
      congr 1
      apply List.map_congr_left
      intro f _
      exact (reset_start_forwarding_fields f).1
    simp only [reset_start]
    rw [e]
    exact hs.deferrable
  · exact fun j f _ hj => hdone j f hj
  · exact fun j f _ hj => hdone j f hj
  · intro f hf
    obtain ⟨n, hn⟩ := List.mem_iff_getElem?.mp hf
    exact hdone n f hn

end ZFromSpacePool

theorem InCycle.reachable {s : ZFromSpacePool} (h : InCycle s) : Reachable s := by
  induction h with
  | registered hr => exact Reachable.registered hr
  | alloc_page cpu mc p _ hs ih => exact Reachable.alloc_page cpu mc p ih hs
  | free_page cpu mc tl b _ hs ih => exact Reachable.free_page cpu mc tl b ih hs
  | compact_in_place i cpu tl _ ih => exact Reachable.compact_in_place i cpu tl ih

theorem unforwarded_bytes_alloc (p : ZPage) (to_age : Nat) (livemap : List (Nat × Nat)) :
    (ZForwarding.alloc p to_age livemap).unforwarded_bytes = (livemap.map (fun o => o.2)).sum := by
  simp [ZForwarding.unforwarded_bytes, ZForwarding.alloc]

/-- Registration establishes the invariant. -/
theorem registered_inv {s : ZFromSpacePool} (h : Registered s) : GInv none 0 s := by
  induction h with
  | empty ncpu =>
    refine ⟨rfl, ?_, ?_, ?_, ?_, ?_, ?_⟩ <;>
      simp [ZFromSpacePool.empty, claimed_live, total_live, SIZE_T_MOD]
  | @add_page s p to_age livemap _ hlm hlen hdef ih =>
    have hnew : ∀ (j : Nat) (f : ZForwarding),
        (s.add_page (ZForwarding.alloc p to_age livemap))._fsp[j]? = some f →
        s._fsp[j]? = some f ∨ (j = s._fsp.length ∧ f = ZForwarding.alloc p to_age livemap) := by
      intro j f hj
      simp only [ZFromSpacePool.add_page] at hj
      by_cases hjl : j < s._fsp.length
      · rw [List.getElem?_append_left hjl] at hj
        exact Or.inl hj
      · rw [List.getElem?_append_right (by omega)] at hj
        have : j - s._fsp.length = 0 := by
          by_contra hc
          have h2 : j - s._fsp.length = (j - s._fsp.length - 1) + 1 := by omega
          rw [h2] at hj
          simp at hj
        rw [this] at hj
        simp at hj
        exact Or.inr ⟨by omega, hj.symm⟩
    refine ⟨?_, ?_, ?_, ?_, ?_, ?_, ?_⟩
    · simp only [ZFromSpacePool.add_page, List.length_append, List.length_singleton]
      rw [ih.pages]
      exact size_add_of_lt hlen
    · intro j f hj
      rcases hnew j f hj with h1 | ⟨_, rfl⟩
      · exact ih.status j f h1
      · exact Or.inr (Or.inl ⟨rfl, rfl, rfl, rfl, rfl⟩)
    · intro j f hj
      rcases hnew j f hj with h1 | ⟨_, rfl⟩
      · exact ih.bytes j f h1
      · refine ⟨?_, rfl⟩
        rw [unforwarded_bytes_alloc]
        simpa [ZForwarding.alloc] using hlm
    · have c := ih.counted
      simp only [ZFromSpacePool.add_page, claimed_live, List.map_append, List.sum_append] at c ⊢
      omega
    · obtain ⟨d1, d2⟩ := ih.deferrable
      simp only [ZFromSpacePool.add_page, total_live, List.map_append, List.sum_append,
        List.map_cons, List.map_nil, List.sum_cons, List.sum_nil] at d1 d2 ⊢
      have e1 : (ZForwarding.alloc p to_age livemap).page.live_bytes = p.live_bytes := rfl
      have e2 : (ZForwarding.alloc p to_age livemap).live_bytes = p.live_bytes := rfl
      rw [e1, e2, size_add_of_lt hdef]
      constructor <;> omega
    · intro j f hj hjf
      rcases hnew j f hjf with h1 | ⟨h2, rfl⟩
      · exact ih.below_start j f hj h1
      · have hl := (List.getElem?_eq_some.mp hjf).1
        have hst : s._fsp_start = 0 := by
          clear hnew hjf hj hl h2 hlm hlen hdef ih
          rename_i hreg
          induction hreg with
          | empty n => rfl
          | add_page _ _ _ _ _ _ _ ih2 => exact ih2
        simp only [ZFromSpacePool.add_page] at hj
        omega
    · intro j f hj
      omega

/-- Every reachable pool satisfies the invariant. -/
theorem reachable_inv {s : ZFromSpacePool} (h : Reachable s) : GInv none 0 s := by
  induction h with
  | registered hr => exact registered_inv hr
  | alloc_page cpu mc p _ hs ih => exact ZFromSpacePool.alloc_page_inv ih hs
  | free_page cpu mc tl b _ hs ih => exact ZFromSpacePool.free_page_inv ih hs
  | compact_in_place i cpu tl _ ih => exact ZFromSpacePool.compact_in_place_inv i cpu tl ih
  | reset_start _ ih => exact (ZFromSpacePool.reset_start_inv ih).1

/-! ## `alloc_page_inner` returns -/

namespace ZFromSpacePool

theorem claim_fields (f : ZForwarding) :
    f.claim.2.to_age = f.to_age ∧ f.claim.2.done = f.done := by
  unfold ZForwarding.claim
  split <;> exact ⟨rfl, rfl⟩

theorem in_place_relocation_claim_page_fields (f : ZForwarding) (b : Bool) :
    (f.in_place_relocation_claim_page b).2.to_age = f.to_age ∧
    (f.in_place_relocation_claim_page b).2.done = f.done := by
  unfold ZForwarding.in_place_relocation_claim_page
  split
  · exact ⟨rfl, rfl⟩
  · split <;> exact ⟨rfl, rfl⟩

theorem release_page_fields (f : ZForwarding) :
    f.release_page.to_age = f.to_age ∧ f.release_page.done = f.done := by
  unfold ZForwarding.release_page
  split
  · exact ⟨rfl, rfl⟩
  · split <;> exact ⟨rfl, rfl⟩

theorem weight_set (s s' : ZFromSpacePool) {i : Nat} {f : ZForwarding} (f' : ZForwarding)
    (hi : s._fsp[i]? = some f) (hfsp : s'._fsp = s._fsp.set i f')
    (hin : s'._in_placed_pages = s._in_placed_pages) (hage : f'.to_age = f.to_age) :
    s'.weight + (if f.done then 0 else 1) = s.weight + (if f'.done then 0 else 1) := by
  have e := sum_map_set
    (fun f => (s._in_placed_pages f.to_age).length + if f.done then 0 else 1) s._fsp i f f' hi
  unfold weight
  rw [hfsp, hin]
  simp only at e
  rw [hage] at e
  omega

theorem weight_congr {s s' : ZFromSpacePool} (hfsp : s'._fsp = s._fsp)
    (hin : s'._in_placed_pages = s._in_placed_pages) : s'.weight = s.weight := by
  unfold weight
  rw [hfsp, hin]

theorem sum_map_lt {α : Type} (g g' : α → Nat) :
    ∀ (l : List α), (∀ x ∈ l, g' x ≤ g x) → (∃ x ∈ l, g' x < g x) →
      (l.map g').sum + 1 ≤ (l.map g).sum
  | [], _, ⟨x, hx, _⟩ => by simp at hx
  | a :: l, hle, ⟨x, hx, hlt⟩ => by
    have ha := hle a (List.mem_cons_self _ _)
    have hle' : ∀ x ∈ l, g' x ≤ g x := fun y hy => hle y (List.mem_cons_of_mem _ hy)
    have hmono : (l.map g').sum ≤ (l.map g).sum := by
      clear hx hlt ha hle
      induction l with
      | nil => simp
      | cons b l ih =>
        have := hle' b (List.mem_cons_self _ _)
        have := ih (fun y hy => hle' y (List.mem_cons_of_mem _ hy))
        simp only [List.map_cons, List.sum_cons]
        omega
    simp only [List.map_cons, List.sum_cons]
    rcases List.mem_cons.mp hx with rfl | hx'
    · omega
    · have := sum_map_lt g g' l hle' ⟨x, hx', hlt⟩
      omega

theorem weight_pop {s s' : ZFromSpacePool} {age : Nat} {p : ZPage} {rest : List ZPage}
    (hl : s._in_placed_pages age = p :: rest) (hex : ∃ f ∈ s._fsp, f.to_age = age)
    (hfsp : s'._fsp = s._fsp)
    (hin : s'._in_placed_pages = fun a => if a = age then rest else s._in_placed_pages a) :
    s'.weight + 1 ≤ s.weight := by
  unfold weight
  rw [hfsp, hin]
  refine sum_map_lt _ _ s._fsp ?_ ?_
  · intro f _
    by_cases h : f.to_age = age
    · simp only [h, if_true, hl, List.length_cons]
      omega
    · simp only [h, if_false]
      exact le_refl _
  · obtain ⟨f, hf, hage⟩ := hex
    refine ⟨f, hf, ?_⟩
    simp only [hage, if_true, hl, List.length_cons]
    omega

theorem try_claim_page_weight {i k : Nat} {u : Bool} {s : ZFromSpacePool} (hs : GInv none k s) :
    (try_claim_page s i u).2.1._fsp_pages = s._fsp_pages ∧
    (try_claim_page s i u).2.1.weight = s.weight := by
  cases hi : s._fsp[i]? with
  | none =>
    rw [try_claim_page_none hi]
    exact ⟨rfl, rfl⟩
  | some f =>
    rcases hs.status i f hi with hd | hidle | ⟨hh, _⟩
    · rw [try_claim_page_done hi hd]
      cases u
      · exact ⟨rfl, rfl⟩
      · simp only [if_true]
        unfold update_if_higher
        split <;> exact ⟨rfl, rfl⟩
    · rw [try_claim_page_idle hi hidle]
      refine ⟨rfl, ?_⟩
      have := weight_set s (s.set_fsp i { f with claimed2 := true, ref_count := 2 }) _
        hi rfl rfl rfl
      dsimp only at this ⊢
      omega
    · cases hh

theorem evacuate_and_count_weight {i c : Nat} {s : ZFromSpacePool} {f : ZForwarding}
    (hi : s._fsp[i]? = some f) :
    (evacuate_and_count s i f c).2.1._fsp_pages = s._fsp_pages ∧
    (evacuate_and_count s i f c).2.1.weight = s.weight := by
  refine ⟨rfl, ?_⟩
  have e1 := evacuate_page_fields f (s._target f.to_age) (some c)
  have hage : ((evacuate_page f (s._target f.to_age) (some c)).1.inc_evacuated_bytes
      (evacuate_page f (s._target f.to_age) (some c)).2.2.2).2.to_age = f.to_age := by
    unfold ZForwarding.inc_evacuated_bytes
    split <;> (dsimp only; rw [e1])
  have hdone : ((evacuate_page f (s._target f.to_age) (some c)).1.inc_evacuated_bytes
      (evacuate_page f (s._target f.to_age) (some c)).2.2.2).2.done = f.done := by
    unfold ZForwarding.inc_evacuated_bytes
    split <;> (dsimp only; rw [e1])
  have := weight_set s (evacuate_and_count s i f c).2.1 _ hi rfl rfl hage
  rw [hdone] at this
  omega

theorem back_out_weight {i : Nat} {s : ZFromSpacePool} {f : ZForwarding}
    (hi : s._fsp[i]? = some f) :
    (s.set_fsp i f.unclaim2.release_page)._fsp_pages = s._fsp_pages ∧
    (s.set_fsp i f.unclaim2.release_page).weight = s.weight := by
  refine ⟨rfl, ?_⟩
  have hage : f.unclaim2.release_page.to_age = f.to_age := (release_page_fields _).1
  have hdone : f.unclaim2.release_page.done = f.done := (release_page_fields _).2
  have := weight_set s (s.set_fsp i f.unclaim2.release_page) _ hi rfl rfl hage
  rw [hdone] at this
  omega

theorem install_new_target_weight {age : Nat} {s s1 : ZFromSpacePool} {nt : ZPage}
    (hex : ∃ f ∈ s._fsp, f.to_age = age)
    (h : install_new_target s age = (some nt, s1)) :
    s1._fsp_pages = s._fsp_pages ∧ s1.weight + 1 ≤ s.weight := by
  unfold install_new_target at h
  cases hl : s._in_placed_pages age with
  | cons p rest =>
    rw [hl] at h
    dsimp only at h
    cases h
    exact ⟨rfl, weight_pop hl hex rfl rfl⟩
  | nil =>
    rw [hl] at h
    dsimp only at h
    cases hc : claim_and_remove_any_page s age with
    | mk o s2 =>
      rw [hc] at h
      cases o with
      | none => cases h
      | some idx =>
        dsimp only at h
        obtain ⟨f0, hi, hnd, _, _, hs2⟩ := claim_and_remove_any_page_some hc
        have hil : idx < s._fsp.length := (List.getElem?_eq_some.mp hi).1
        have hage : (f0.in_place_relocation_claim_page false).2.claim.2.to_age = f0.to_age := by
          rw [(claim_fields _).1, (in_place_relocation_claim_page_fields _ _).1]
        generalize (f0.in_place_relocation_claim_page false).2.claim.2 = fc at hs2 hage
        subst hs2
        have hget : (s.set_fsp idx fc)._fsp[idx]? = some fc := List.getElem?_set_self hil
        rw [hget] at h
        dsimp only at h
        cases h
        refine ⟨rfl, ?_⟩
        have key : ∀ (S : ZFromSpacePool) (F : ZForwarding), S._fsp = s._fsp.set idx F →
            S._in_placed_pages = s._in_placed_pages → F.to_age = f0.to_age → F.done = true →
            S.weight + 1 ≤ s.weight := by
          intro S F h1 h2 h3 h4
          have := weight_set s S F hi h1 h2 h3
          rw [hnd, h4] at this
          simp only [Bool.false_eq_true, if_false, if_true] at this
          omega
        refine key _ { (ZRelocate.compact_in_place fc).2.release_page.mark_done with
            page := (ZRelocate.compact_in_place fc).2.page.reset_age age } ?_ rfl ?_ rfl
        · simp [set_fsp, inc_in_placed_page_count_and_bytes, List.set_set]
        · show (ZRelocate.compact_in_place fc).2.release_page.to_age = f0.to_age
          rw [(release_page_fields _).1]
          exact hage

/-- With the fuel of `alloc_page_inner_fuel`, the body of `alloc_page_inner` returns. -/
theorem alloc_page_inner_go_total (result : Bool) (cpu : Nat) (tl : Bool) :
    ∀ (fuel : Nat) (lab : Label) (l : Locals) (s : ZFromSpacePool),
      PreGo lab l s → (lab ≠ Label.for_test → l.i < s._fsp_pages) →
      3 * (s._fsp_pages - l.i) + 3 * s.weight + 1 ≤ fuel + lab.slack →
      ∃ r, alloc_page_inner_go id result cpu tl fuel lab l s = some r
  | 0, Label.for_test, l, s, _, _, hfuel => by
    simp only [Label.slack] at hfuel
    omega
  | 0, Label.retry_before_claimed, l, s, _, hlt, hfuel => by
    have := hlt (by simp)
    simp only [Label.slack] at hfuel
    omega
  | 0, Label.retry_after_retained, l, s, _, hlt, hfuel => by
    have := hlt (by simp)
    simp only [Label.slack] at hfuel
    omega
  | fuel + 1, Label.for_test, l, s, hp, _, hfuel => by
    simp only [alloc_page_inner_go]
    simp only [Label.slack] at hfuel
    split
    · rename_i hlt
      exact alloc_page_inner_go_total result cpu tl fuel Label.retry_before_claimed l s hp
        (fun _ => hlt) (by simp only [Label.slack]; omega)
    · exact ⟨_, rfl⟩
  | fuel + 1, Label.retry_before_claimed, l, s, hp, hlt, hfuel => by
    simp only [alloc_page_inner_go]
    simp only [Label.slack] at hfuel
    have hlt' := hlt (by simp)
    obtain ⟨hu, ht, hf⟩ := try_claim_page_inv (i := l.i) (u := l.update_fsp) hp
    obtain ⟨hw1, hw2⟩ := try_claim_page_weight (i := l.i) (u := l.update_fsp) hp
    split
    · rename_i hc
      refine alloc_page_inner_go_total result cpu tl fuel Label.retry_after_retained _ _ ?_ ?_ ?_
      · simp only [PreGo, hu]
        exact ht hc
      · intro _
        rw [hw1]
        exact hlt'
      · simp only [Label.slack]
        rw [hw1, hw2]
        omega
    · rename_i hc
      refine alloc_page_inner_go_total result cpu tl fuel Label.for_test _ _ ?_ ?_ ?_
      · simp only [PreGo, hu]
        exact hf (by simpa using hc)
      · intro h; exact absurd rfl h
      · simp only [Label.slack]
        rw [hw1, hw2]
        have : l.i + 1 ≤ max (l.i + 1) (try_claim_page s l.i l.update_fsp).2.1._fsp_start :=
          le_max_left _ _
        omega
  | fuel + 1, Label.retry_after_retained, l, s, hp, hlt, hfuel => by
    simp only [alloc_page_inner_go]
    simp only [Label.slack] at hfuel
    have hlt' := hlt (by simp)
    obtain ⟨hs, f, hi, hheld, hev⟩ := hp
    rw [hi]
    dsimp only
    obtain ⟨hs2, f', hi2, hheld2, hage, hev2⟩ :=
      evacuate_and_count_inv (c := l.livemap_cursor) hs hi hheld
    obtain ⟨hw1, hw2⟩ := evacuate_and_count_weight (c := l.livemap_cursor) hi
    cases hfull : (evacuate_and_count s l.i f l.livemap_cursor).1 with
    | true =>
      simp only [if_true]
      obtain ⟨hfree, _⟩ := try_free_inv cpu result tl hs2 hi2 hheld2
      rw [hfree]
      simp only [if_true]
      exact ⟨_, rfl⟩
    | false =>
      simp only [Bool.false_eq_true, if_false]
      rw [evacuate_and_count_target]
      rw [if_neg (fun hne => hne rfl)]
      rw [hi2]
      dsimp only
      rw [load_target_set_fsp, evacuate_and_count_target]
      rw [if_neg (fun hne => hne rfl)]
      have hev3 : f'.evacuated = false := by rw [hev2 hfull]; exact hev
      have hs4 := back_out_inv hs2 hi2 hheld2 hev3
      obtain ⟨hw3, hw4⟩ := back_out_weight hi2
      have hs5 := install_new_target_inv f.to_age hs4
      cases hin : install_new_target
          ((evacuate_and_count s l.i f l.livemap_cursor).2.1.set_fsp l.i
            f'.unclaim2.release_page) f.to_age with
      | mk o s1 =>
        rw [hin] at hs5
        cases o with
        | none => exact ⟨_, rfl⟩
        | some nt =>
          dsimp only
          have hex : ∃ g ∈ ((evacuate_and_count s l.i f l.livemap_cursor).2.1.set_fsp l.i
              f'.unclaim2.release_page)._fsp, g.to_age = f.to_age := by
            have hil : l.i < (evacuate_and_count s l.i f l.livemap_cursor).2.1._fsp.length :=
              (List.getElem?_eq_some.mp hi2).1
            refine ⟨f'.unclaim2.release_page, ?_, ?_⟩
            · exact List.mem_set _ _ hil _
            · rw [← hage]
              exact (release_page_fields _).1
          obtain ⟨hw5, hw6⟩ := install_new_target_weight hex hin
          refine alloc_page_inner_go_total result cpu tl fuel Label.retry_before_claimed _ _ ?_ ?_ ?_
          · simp only [PreGo]
            exact store_target_inv hs5
          · intro _
            show l.i < s1._fsp_pages
            rw [hw5, hw3, hw1]
            exact hlt'
          · simp only [Label.slack]
            have e1 : (s1.store_target nt f.to_age)._fsp_pages = s1._fsp_pages := rfl
            have e2 : (s1.store_target nt f.to_age).weight = s1.weight := rfl
            rw [e1, e2, hw5, hw3, hw1]
            omega

/-- Between calls, `alloc_page_inner` returns. -/
theorem alloc_page_inner_total {s : ZFromSpacePool} (result : Bool) (cpu : Nat) (tl : Bool)
    (hs : GInv none 0 s) : ∃ r, alloc_page_inner s result cpu tl = some r := by
  refine alloc_page_inner_go_total result cpu tl _ Label.for_test _ s ?_ ?_ ?_
  · simp only [PreGo, if_true]
    exact hs.raise (fun j f hj hjf => hs.below_start j f hj hjf)
  · intro h; exact absurd rfl h
  · simp only [Label.slack, alloc_page_inner_fuel]
    omega

/-- Between calls, `alloc_page` returns. -/
theorem alloc_page_total {s : ZFromSpacePool} (cpu : Nat) (mc : Bool) (hs : GInv none 0 s) :
    ∃ r, alloc_page s cpu mc = some r := by
  unfold alloc_page
  split
  · exact ⟨_, rfl⟩
  · split
    · obtain ⟨r, hr⟩ := alloc_page_inner_total true cpu true
        (alloc_page_from_cache_inv true cpu mc hs)
      rw [hr]
      exact ⟨_, rfl⟩
    · exact ⟨_, rfl⟩

/-- Between calls, `free_page` returns. -/
theorem free_page_total {s : ZFromSpacePool} (cpu : Nat) (mc tl : Bool) (hs : GInv none 0 s) :
    ∃ r, free_page s cpu mc tl = some r := by
  unfold free_page
  split
  · exact ⟨_, rfl⟩
  · split
    · obtain ⟨r, hr⟩ := alloc_page_inner_total false cpu tl
        (alloc_page_from_cache_inv false cpu mc hs)
      rw [hr]
      exact ⟨_, rfl⟩
    · exact ⟨_, rfl⟩

end ZFromSpacePool

/-! ## What a call frees and where the page goes -/

theorem Quiet.trans {s s1 s2 : ZFromSpacePool} (h1 : Quiet s s1) (h2 : Quiet s1 s2) :
    Quiet s s2 :=
  ⟨h2.1.trans h1.1, h2.2.1.trans h1.2.1, h2.2.2.1.trans h1.2.2.1, h2.2.2.2.trans h1.2.2.2⟩

namespace ZFromSpacePool

end ZFromSpacePool

namespace ZFromSpacePool

end ZFromSpacePool

/-! ## What a call frees while other threads hold pages -/

namespace ZFromSpacePool

end ZFromSpacePool

namespace ZFromSpacePool

end ZFromSpacePool

/-! ## The claims -/

theorem ex_pool_registered : Registered ex_pool :=
  Registered.add_page ex_page_b 1 [(8192, 100), (8392, 200)]
    (Registered.add_page ex_page_a 1 [(4096, 100), (4296, 300)] (Registered.empty 2)
      (by decide) (by decide) (by decide))
    (by decide) (by decide) (by decide)

theorem ex_pool_free_page : ex_pool.free_page 0 false false = some (true, ex_pool_freed) := rfl

theorem ex_pool_freed_in_cycle : InCycle ex_pool_freed :=
  InCycle.free_page 0 false false true (InCycle.registered ex_pool_registered) ex_pool_free_page

theorem total_live_eq_pages {s : ZFromSpacePool} (hs : GInv none 0 s) :
    (s._fsp.map (fun f => f.page.live_bytes)).sum = total_live s._fsp := by
  unfold total_live
  congr 1
  apply List.map_congr_left
  intro f hf
  obtain ⟨n, hn⟩ := List.mem_iff_getElem?.mp hf
  exact (hs.bytes n f hn).2

/-- C1: in every pool reachable from an empty pool by `add_page` calls followed by any
sequence of `alloc_page`, `free_page`, `compact_in_place` and `reset_start` calls,
`_deferrable_bytes` is the sum of the live bytes of the registered pages,
`_evacuated_bytes + _in_placed_bytes` is at most that sum, and `reset_end` returns their
difference: the `size_t` subtraction does not wrap. -/
theorem reset_end_returns_deferred_bytes {s : ZFromSpacePool} (age_max : Nat)
    (heap_alloc_page : Nat → Option ZPage) (try_lock : Nat → Bool) (h : Reachable s) :
    s._deferrable_bytes = (s._fsp.map (fun f => f.page.live_bytes)).sum ∧
    s._evacuated_bytes + s._in_placed_bytes ≤ (s._fsp.map (fun f => f.page.live_bytes)).sum ∧
    (s.reset_end age_max heap_alloc_page try_lock).1
      = (s._fsp.map (fun f => f.page.live_bytes)).sum
        - (s._evacuated_bytes + s._in_placed_bytes) := by
  have hs := reachable_inv h
  have e := total_live_eq_pages hs
  obtain ⟨d1, d2⟩ := hs.deferrable
  have c := le_trans hs.counted (claimed_live_le_total s._fsp)
  rw [e]
  refine ⟨d1, c, ?_⟩
  have hlt : s._evacuated_bytes + s._in_placed_bytes < SIZE_T_MOD := lt_of_le_of_lt c d2
  show size_sub s._deferrable_bytes (size_add s._evacuated_bytes s._in_placed_bytes) = _
  rw [size_add_of_lt hlt, d1]
  exact size_sub_of_le c d2

/-- C1, at the example pool after a `free_page` that compacted one page in place (400
bytes) and evacuated the other (300 bytes): nothing is deferred. -/
theorem reset_end_returns_deferred_bytes_witness :
    Reachable ex_pool_freed ∧
    (ex_pool_freed._deferrable_bytes = (ex_pool_freed._fsp.map (fun f => f.page.live_bytes)).sum ∧
    ex_pool_freed._evacuated_bytes + ex_pool_freed._in_placed_bytes
      ≤ (ex_pool_freed._fsp.map (fun f => f.page.live_bytes)).sum ∧
    (ex_pool_freed.reset_end 16 (fun _ => none) (fun _ => true)).1
      = (ex_pool_freed._fsp.map (fun f => f.page.live_bytes)).sum
        - (ex_pool_freed._evacuated_bytes + ex_pool_freed._in_placed_bytes)) :=
  ⟨ex_pool_freed_in_cycle.reachable,
    reset_end_returns_deferred_bytes 16 (fun _ => none) (fun _ => true)
      ex_pool_freed_in_cycle.reachable⟩

/-- C2, as stated, fails: while another thread is inside `compact_in_place` of the page at
index 0 (claimed, not yet done), `try_claim_page(0)` fails to retain it and leaves
`update_fsp` true, and the `alloc_page` call advances `_fsp_start` to 2, past the page that
is still not done. -/
theorem fsp_start_passes_unfinished_page :
    InCycle ex_pool_compacted ∧
    (ex_pool_claimed._fsp.map (fun f => f.done)) = [false, true] ∧
    ex_pool_claimed._fsp_start = 0 ∧
    ((ex_pool_claimed.try_claim_page 0 true).1, (ex_pool_claimed.try_claim_page 0 true).2.2)
      = (false, true) ∧
    (ex_pool_claimed.alloc_page 0 false).map
        (fun r => (r.1, r.2._fsp_start, r.2._fsp.map (fun f => f.done)))
      = some (none, 2, [false, true]) :=
  ⟨InCycle.compact_in_place 1 0 true (InCycle.registered ex_pool_registered),
    by decide, by decide, by decide, by decide⟩

/-- C2, amended: in every pool reachable within a cycle by calls that do not overlap,
every forwarding at an index below `_fsp_start` is done; and in any pool, when
`try_claim_page` fails to retain a page that is not done, it returns null, rolls `claim2`
back and leaves `update_fsp` and `_fsp_start` as they were, so that a later done page lets
the caller advance `_fsp_start` past it. -/
theorem fsp_start_below_done {s : ZFromSpacePool} (h : InCycle s) :
    (∀ (j : Nat) (f : ZForwarding), j < s._fsp_start → s._fsp[j]? = some f → f.done = true) ∧
    (∀ (t : ZFromSpacePool) (i : Nat) (u : Bool) (f : ZForwarding),
      t._fsp[i]? = some f → f.done = false → f.claim2.1 = true →
      f.claim2.2.retain_page.1 = false →
      t.try_claim_page i u = (false, t.set_fsp i f.claim2.2.retain_page.2.unclaim2, u)) := by
  refine ⟨(reachable_inv h.reachable).below_start, ?_⟩
  intro t i u f hi hd hc hr
  simp [ZFromSpacePool.try_claim_page, hi, ZForwarding.is_done, hd, hc, hr]

/-- C2, amended, at the example pool after a `free_page` (`_fsp_start` is 1 and the page
at index 0 is done) and, for the failed retain, at the pool where another thread holds the
exclusive claim of the page at index 0. -/
theorem fsp_start_below_done_witness :
    InCycle ex_pool_freed ∧ ex_pool_freed._fsp_start = 1 ∧
    (∀ (j : Nat) (f : ZForwarding), j < ex_pool_freed._fsp_start →
      ex_pool_freed._fsp[j]? = some f → f.done = true) ∧
    ex_pool_claimed.try_claim_page 0 true
      = (false, ex_pool_claimed.set_fsp 0
          (ZForwarding.unclaim2 (ZForwarding.retain_page
            (ZForwarding.claim2 { ex_fwd_a with ref_count := -1, claimed := true }).2).2), true) :=
  ⟨ex_pool_freed_in_cycle, by decide, (fsp_start_below_done ex_pool_freed_in_cycle).1,
    (fsp_start_below_done ex_pool_freed_in_cycle).2 ex_pool_claimed 0 true
      { ex_fwd_a with ref_count := -1, claimed := true } rfl rfl rfl rfl⟩

namespace ZFromSpacePool

theorem deliver_fst (s : ZFromSpacePool) (result : Bool) (p : ZPage) :
    (deliver s result p).1 = true := by
  unfold deliver
  split <;> rfl

theorem alloc_page_from_cache_false {s : ZFromSpacePool} {result : Bool} {cpu : Nat} {mc : Bool}
    (h : (alloc_page_from_cache s result cpu mc).1 = false) :
    (alloc_page_from_cache s result cpu mc).2.1 = s := by
  cases hsc : scan_per_cpu s._per_cpu_free_list cpu s._per_cpu_free_list.length 0 with
  | some v =>
    obtain ⟨p, shards⟩ := v
    simp only [alloc_page_from_cache, hsc] at h
    rw [deliver_fst] at h
    cases h
  | none =>
    simp only [alloc_page_from_cache, hsc] at h ⊢
    cases mc with
    | false => rfl
    | true =>
      simp only [if_true] at h ⊢
      cases hsh : s._shared_free_list with
      | nil => rfl
      | cons p rest =>
        rw [hsh] at h
        simp only [] at h
        rw [deliver_fst] at h
        cases h

end ZFromSpacePool

/-- C4, as stated, fails: another thread holds the first page of the example pool of three
pages; `free_page()` evacuates that page, cannot free it (the count is 3, not 2), leaves
its forwarding evacuated with `claim2` set and returns true, no `free_page(f, result)`
having been run; the other thread releases the page; `reset_start` then skips the
forwarding, because `claim2()` fails on it: it is not done when `reset_start` returns,
and its page is in no list. -/
theorem reset_start_skips_claim2_page :
    ex_pool3_retained._fsp.map (fun f => (f.ref_count, f.claimed, f.claimed2, f.evacuated, f.done))
      = [(2, false, false, false, false), (1, false, false, false, false),
          (1, false, false, false, false)] ∧
    ex_free3_result.1 = true ∧
    ex_free3_result.2.free_page_calls = [] ∧
    ex_pool3_left._fsp.map (fun f => (f.ref_count, f.claimed, f.claimed2, f.evacuated, f.done))
      = [(1, false, true, true, false), (1, false, false, false, false),
          (1, false, false, false, false)] ∧
    ex_pool3_left.reset_start._fsp.map (fun f => f.done) = [false, true, true] ∧
    ex_pool3_left.reset_start._shared_free_list.map (fun p => p.id) = [2, 3] ∧
    ex_pool3_left.reset_start._per_cpu_free_list = [[], []] := by
  decide

/-- C4, amended: `reset_start` keeps the FSP index in place; when it returns, a forwarding
is done exactly if it was done before or neither its `claim2` flag nor its claim flag was
set; so after any sequence of `alloc_page`, `free_page` and `compact_in_place` calls of a
cycle that do not overlap, every forwarding of the FSP index is done, while a forwarding
that is not done and has `claim2` set stays not done. -/
theorem reset_start_leaves_all_done {s : ZFromSpacePool} (h : InCycle s) :
    (s.reset_start._fsp.length = s._fsp.length ∧ ∀ f ∈ s.reset_start._fsp, f.done = true) ∧
    (∀ (t : ZFromSpacePool), t.reset_start._fsp.length = t._fsp.length ∧
      ∀ (j : Nat) (f : ZForwarding), t._fsp[j]? = some f →
        ∃ f', t.reset_start._fsp[j]? = some f' ∧
          (f'.done = true ↔ (f.done = true ∨ (f.claimed2 = false ∧ f.claimed = false))) ∧
          (f.done = false → f.claimed2 = true → f'.done = false)) := by
  refine ⟨⟨by simp [ZFromSpacePool.reset_start],
    (ZFromSpacePool.reset_start_inv (reachable_inv h.reachable)).2⟩, fun t => ?_⟩
  refine ⟨by simp [ZFromSpacePool.reset_start], fun j f hj => ?_⟩
  refine ⟨ZFromSpacePool.reset_start_forwarding f, ?_, ?_, ?_⟩
  · simp [ZFromSpacePool.reset_start, List.getElem?_map, hj]
  · cases hc : f.claimed <;> cases hc2 : f.claimed2 <;> cases hd : f.done <;>
      simp [ZFromSpacePool.reset_start_forwarding, ZForwarding.claim2, ZForwarding.claim,
        ZForwarding.mark_done, hc, hc2, hd]
  · intro hd hc2
    cases hc : f.claimed <;>
      simp [ZFromSpacePool.reset_start_forwarding, ZForwarding.claim2, ZForwarding.claim,
        ZForwarding.mark_done, hc, hc2, hd]

/-- C4, amended, at the example pool after `compact_in_place` of the second page:
`reset_start` sweeps the first page, and both are done; and at the pool where another
thread held the first page, whose forwarding stays not done. -/
theorem reset_start_leaves_all_done_witness :
    InCycle ex_pool_compacted ∧
    (ex_pool_compacted._fsp.map (fun f => f.done)) = [false, true] ∧
    (ex_pool_compacted.reset_start._fsp.length = ex_pool_compacted._fsp.length ∧
      ∀ f ∈ ex_pool_compacted.reset_start._fsp, f.done = true) ∧
    ex_pool3_left.reset_start._fsp.length = ex_pool3_left._fsp.length :=
  ⟨InCycle.compact_in_place 1 0 true (InCycle.registered ex_pool_registered), by decide,
    (reset_start_leaves_all_done
      (InCycle.compact_in_place 1 0 true (InCycle.registered ex_pool_registered))).1,
    ((reset_start_leaves_all_done
      (InCycle.compact_in_place 1 0 true (InCycle.registered ex_pool_registered))).2
        ex_pool3_left).1⟩

/-- C5, evaluated at the failing input: the page is fully evacuated and its count is 3 (the
worker and one more thread hold it); the worker calls
`try_free_if_evacuated_else_release(f, 2, &page)`; the first attempt fails, the worker
releases, the other thread releases, and the second attempt, with expected count 1,
frees the page: `free_page(f, result)` was executed, `*result` holds the page, the
forwarding is done, and the call returns false. -/
theorem try_free_returns_false_after_freeing :
    ((ZFromSpacePool.try_free_if_evacuated_else_release ZForwarding.release_page true 0 true 0 2
        ex_pool_shared).1,
      (ZFromSpacePool.try_free_if_evacuated_else_release ZForwarding.release_page true 0 true 0 2
        ex_pool_shared).2.2.map (fun p => p.id),
      (ZFromSpacePool.try_free_if_evacuated_else_release ZForwarding.release_page true 0 true 0 2
        ex_pool_shared).2.1.free_page_calls.map (fun f => (f.page.id, f.ref_count, f.claimed)),
      (ZFromSpacePool.try_free_if_evacuated_else_release ZForwarding.release_page true 0 true 0 2
        ex_pool_shared).2.1._fsp.map (fun f => f.done),
      (ZFromSpacePool.try_free_if_evacuated_else_release ZForwarding.release_page true 0 true 0 2
        ex_pool_shared).2.1._evacuated_page_count)
      = (false, some 2, [(2, -1, true)], [true], 1) := by
  decide

namespace ZFromSpacePool

theorem scan_per_cpu_none {shards : List (List ZPage)} (cpu : Nat)
    (h : ∀ l ∈ shards, l = []) : ∀ (n i : Nat), scan_per_cpu shards cpu n i = none
  | 0, _ => rfl
  | n + 1, i => by
    unfold scan_per_cpu
    cases hg : shards[(i + cpu) % shards.length]? with
    | none => exact scan_per_cpu_none cpu h n (i + 1)
    | some l =>
      have hl := h l (List.mem_iff_getElem?.mpr ⟨_, hg⟩)
      subst hl
      exact scan_per_cpu_none cpu h n (i + 1)

end ZFromSpacePool

/-- C6: when every per-CPU shard is empty, the shared shard is empty or the phase is not
mark-complete, and the FSP is depleted or the phase is mark-complete, `alloc_page` returns
null and `free_page` returns false, and neither changes the pool: the FSP index,
`_fsp_start`, the forwardings, the target slots and the counters are what they were. -/
theorem depleted_pool_yields_nothing (s : ZFromSpacePool) (cpu_id : Nat)
    (in_phase_mc try_lock : Bool)
    (hcpu : ∀ l ∈ s._per_cpu_free_list, l = [])
    (hshared : s._shared_free_list = [] ∨ in_phase_mc = false)
    (hdepleted : s._fsp_pages ≤ s._fsp_start ∨ in_phase_mc = true) :
    s.alloc_page cpu_id in_phase_mc = some (none, s) ∧
    s.free_page cpu_id in_phase_mc try_lock = some (false, s) := by
  have hcache : ∀ (result : Bool),
      ZFromSpacePool.alloc_page_from_cache s result cpu_id in_phase_mc = (false, s, none) := by
    intro result
    unfold ZFromSpacePool.alloc_page_from_cache
    rw [ZFromSpacePool.scan_per_cpu_none cpu_id hcpu]
    rcases hshared with h | h
    · rw [h]
      cases in_phase_mc <;> rfl
    · rw [h]
      rfl
  have hgate : (!s.fsp_depleted && !in_phase_mc) = false := by
    rcases hdepleted with h | h
    · simp [ZFromSpacePool.fsp_depleted, h]
    · simp [h]
  constructor
  · unfold ZFromSpacePool.alloc_page
    rw [hcache true]
    simp only [Bool.false_eq_true, if_false, hgate]
  · unfold ZFromSpacePool.free_page
    rw [hcache false]
    simp only [Bool.false_eq_true, if_false, hgate]

/-- C6, at the example pool in the phase mark-complete: the cache is empty, and nothing
happens. -/
theorem depleted_pool_yields_nothing_witness :
    ex_pool.alloc_page 0 true = some (none, ex_pool) ∧
    ex_pool.free_page 0 true false = some (false, ex_pool) :=
  depleted_pool_yields_nothing ex_pool 0 true false (by decide) (Or.inl rfl) (Or.inr rfl)

namespace ZFromSpacePool

/-- The loop of `alloc_page_from_cache` finds what the first non-empty shard of its
remaining order of visit yields. -/
theorem scan_per_cpu_eq (shards : List (List ZPage)) (c : Nat) :
    ∀ (n i : Nat), scan_per_cpu shards c n i
      = (((List.range' i n).map (fun i => (i + c) % shards.length)).findSome?
          (take_first shards)).map (fun r => (r.2.1, shards.set r.1 r.2.2))
  | 0, _ => rfl
  | n + 1, i => by
    unfold scan_per_cpu
    rw [List.range'_succ, List.map_cons, List.findSome?_cons]
    have ih := scan_per_cpu_eq shards c n (i + 1)
    unfold take_first
    cases hg : shards[(i + c) % shards.length]? with
    | none => exact ih
    | some l =>
      cases l with
      | nil => exact ih
      | cons p rest => rfl

theorem visit_order_perm (n c : Nat) : (visit_order n c).Perm (List.range n) := by
  unfold visit_order
  refine List.Subperm.perm_of_length_le (List.subperm_of_subset ?_ ?_) (by simp)
  · refine List.Nodup.map_on ?_ (List.nodup_range n)
    intro x hx y hy hxy
    have hx' := List.mem_range.mp hx
    have hy' := List.mem_range.mp hy
    have h1 : x ≡ y [MOD n] := Nat.ModEq.add_right_cancel' c hxy
    have h2 : x % n = y % n := h1
    rwa [Nat.mod_eq_of_lt hx', Nat.mod_eq_of_lt hy'] at h2
  · intro a ha
    obtain ⟨i, hi, rfl⟩ := List.mem_map.mp ha
    have hi' := List.mem_range.mp hi
    exact List.mem_range.mpr (Nat.mod_lt _ (by omega))

theorem visit_order_get (n c i : Nat) (hi : i < n) :
    (visit_order n c)[i]? = some ((i + c) % n) := by
  simp [visit_order, List.getElem?_map, List.getElem?_range hi]

theorem first_cached_none_iff (shards : List (List ZPage)) (c : Nat) :
    first_cached shards c = none ↔ ∀ l ∈ shards, l = [] := by
  unfold first_cached
  rw [List.findSome?_eq_none_iff]
  constructor
  · intro h l hl
    obtain ⟨idx, hidx⟩ := List.mem_iff_getElem?.mp hl
    have hlt : idx < shards.length := (List.getElem?_eq_some.mp hidx).1
    have hm : idx ∈ visit_order shards.length c :=
      (visit_order_perm shards.length c).mem_iff.mpr (List.mem_range.mpr hlt)
    have := h idx hm
    unfold take_first at this
    rw [hidx] at this
    cases l with
    | nil => rfl
    | cons p rest => simp at this
  · intro h idx _
    unfold take_first
    cases hg : shards[idx]? with
    | none => rfl
    | some l =>
      have := h l (List.mem_iff_getElem?.mpr ⟨_, hg⟩)
      subst this
      rfl

theorem first_cached_some {shards : List (List ZPage)} {c idx : Nat} {p : ZPage}
    {rest : List ZPage} (h : first_cached shards c = some (idx, p, rest)) :
    shards[idx]? = some (p :: rest) := by
  unfold first_cached at h
  obtain ⟨a, _, ha⟩ := List.exists_of_findSome?_eq_some h
  unfold take_first at ha
  cases hg : shards[a]? with
  | none => rw [hg] at ha; cases ha
  | some l =>
    rw [hg] at ha
    cases l with
    | nil => cases ha
    | cons q r =>
      simp only [Option.some.injEq, Prod.mk.injEq] at ha
      obtain ⟨rfl, rfl, rfl⟩ := ha
      exact hg

theorem cached_pages_deliver (s : ZFromSpacePool) (result : Bool) (p : ZPage) :
    (deliver s result p).2.1.cached_pages = s.cached_pages := by
  unfold deliver
  split <;> rfl

end ZFromSpacePool

/-- C7: for `n ≥ 1` CPUs and a caller on CPU `c < n`, the order of visit `c, c+1, ...`
modulo `n` starts at `c` and holds every shard exactly once; `alloc_page_from_cache` takes
the first page of the first non-empty shard in that order; it consults the shared shard
exactly when every per-CPU shard is empty and the phase is mark-complete; it returns true
exactly when a page was taken, and then the cache holds one page less, the page taken;
when it returns false the pool is unchanged. -/
theorem alloc_page_from_cache_visits_in_order (s : ZFromSpacePool) (result : Bool) (c : Nat)
    (in_phase_mc : Bool) (hn : 1 ≤ s._per_cpu_free_list.length)
    (hc : c < s._per_cpu_free_list.length) :
    (ZFromSpacePool.visit_order s._per_cpu_free_list.length c).Perm
      (List.range s._per_cpu_free_list.length) ∧
    (ZFromSpacePool.visit_order s._per_cpu_free_list.length c).head? = some c ∧
    (ZFromSpacePool.first_cached s._per_cpu_free_list c = none ↔
      ∀ l ∈ s._per_cpu_free_list, l = []) ∧
    s.alloc_page_from_cache result c in_phase_mc =
      (match ZFromSpacePool.first_cached s._per_cpu_free_list c with
       | some (idx, p, rest) =>
         ZFromSpacePool.deliver
           { s with _per_cpu_free_list := s._per_cpu_free_list.set idx rest } result p
       | none =>
         if in_phase_mc then
           match s._shared_free_list with
           | p :: rest => ZFromSpacePool.deliver { s with _shared_free_list := rest } result p
           | [] => (false, s, none)
         else (false, s, none)) ∧
    ((s.alloc_page_from_cache result c in_phase_mc).1 = true →
      (s.alloc_page_from_cache result c in_phase_mc).2.1.cached_pages + 1 = s.cached_pages) ∧
    ((s.alloc_page_from_cache result c in_phase_mc).1 = false →
      (s.alloc_page_from_cache result c in_phase_mc).2.1 = s) := by
  have heq : s.alloc_page_from_cache result c in_phase_mc =
      (match ZFromSpacePool.first_cached s._per_cpu_free_list c with
       | some (idx, p, rest) =>
         ZFromSpacePool.deliver
           { s with _per_cpu_free_list := s._per_cpu_free_list.set idx rest } result p
       | none =>
         if in_phase_mc then
           match s._shared_free_list with
           | p :: rest => ZFromSpacePool.deliver { s with _shared_free_list := rest } result p
           | [] => (false, s, none)
         else (false, s, none)) := by
    unfold ZFromSpacePool.alloc_page_from_cache
    rw [ZFromSpacePool.scan_per_cpu_eq, ← List.range_eq_range']
    unfold ZFromSpacePool.first_cached ZFromSpacePool.visit_order
    generalize List.findSome? (ZFromSpacePool.take_first s._per_cpu_free_list)
      (List.map (fun i => (i + c) % s._per_cpu_free_list.length)
        (List.range s._per_cpu_free_list.length)) = o
    cases o with
    | none => rfl
    | some r =>
      obtain ⟨idx, p, rest⟩ := r
      rfl
  refine ⟨ZFromSpacePool.visit_order_perm _ c, ?_,
    ZFromSpacePool.first_cached_none_iff _ c, heq, ?_,
    ZFromSpacePool.alloc_page_from_cache_false⟩
  · have h0 := ZFromSpacePool.visit_order_get s._per_cpu_free_list.length c 0 (by omega)
    rw [Nat.zero_add, Nat.mod_eq_of_lt hc] at h0
    rw [← h0]
    cases ZFromSpacePool.visit_order s._per_cpu_free_list.length c <;> simp
  · intro ht
    rw [heq] at ht ⊢
    cases hf : ZFromSpacePool.first_cached s._per_cpu_free_list c with
    | some r =>
      obtain ⟨idx, p, rest⟩ := r
      dsimp only
      rw [ZFromSpacePool.cached_pages_deliver]
      have hg := ZFromSpacePool.first_cached_some hf
      have e := sum_map_set (fun l : List ZPage => l.length) s._per_cpu_free_list idx
        (p :: rest) rest hg
      simp only [List.length_cons] at e
      unfold ZFromSpacePool.cached_pages
      dsimp only
      omega
    | none =>
      rw [hf] at ht
      dsimp only at ht ⊢
      cases in_phase_mc with
      | false => simp at ht
      | true =>
        simp only [if_true] at ht ⊢
        cases hsh : s._shared_free_list with
        | nil => rw [hsh] at ht; simp at ht
        | cons p rest =>
          dsimp only
          rw [ZFromSpacePool.cached_pages_deliver]
          unfold ZFromSpacePool.cached_pages
          dsimp only
          rw [hsh, List.length_cons]
          omega

/-- C7, at the example pool after a `free_page` that put page 2 in the shard of CPU 0:
a caller on CPU 1 visits the shards in the order 1, 0 and takes page 2 from shard 0. -/
theorem alloc_page_from_cache_visits_in_order_witness :
    ZFromSpacePool.visit_order 2 1 = [1, 0] ∧
    (ex_free_result.2.alloc_page_from_cache true 1 false).1 = true ∧
    (ex_free_result.2.alloc_page_from_cache true 1 false).2.2.map (fun p => p.id) = some 2 ∧
    ((ex_free_result.2.alloc_page_from_cache true 1 false).1 = true →
      (ex_free_result.2.alloc_page_from_cache true 1 false).2.1.cached_pages + 1
        = ex_free_result.2.cached_pages) :=
  ⟨by decide, by decide, by decide,
    (alloc_page_from_cache_visits_in_order ex_free_result.2 true 1 false (by decide)
      (by decide)).2.2.2.2.1⟩

/-- C8: when the in-placed list of `age` is non-empty, `install_new_target(age)` removes
and returns its first page and changes nothing else of the pool; and after
`compact_in_place(f)` has won the claim on an unevacuated `f` while the in-placed list of
`f.to_age` was empty, the next `install_new_target(f.to_age)` returns the page of `f`, as
compacted. -/
theorem install_new_target_takes_in_placed (s t : ZFromSpacePool) (age : Nat) (p : ZPage)
    (rest : List ZPage) (i cpu_id : Nat) (try_lock : Bool) (f : ZForwarding)
    (hlist : s._in_placed_pages age = p :: rest)
    (hi : t._fsp[i]? = some f) (hwin : (f.in_place_relocation_claim_page true).1 = true)
    (hev : f.evacuated = false) (hempty : t._in_placed_pages f.to_age = []) :
    s.install_new_target age
      = (some p, { s with _in_placed_pages :=
          fun a => if a = age then rest else s._in_placed_pages a }) ∧
    ((t.compact_in_place i cpu_id try_lock).install_new_target f.to_age).1
      = some { f.page with top := f.unforwarded_bytes } ∧
    ((t.compact_in_place i cpu_id try_lock).install_new_target f.to_age).2._fsp
      = (t.compact_in_place i cpu_id try_lock)._fsp := by
  constructor
  · unfold ZFromSpacePool.install_new_target
    rw [hlist]
  · have hil : i < t._fsp.length := (List.getElem?_eq_some.mp hi).1
    have hnd : f.done = false := by
      cases hd : f.done with
      | false => rfl
      | true => simp [ZForwarding.in_place_relocation_claim_page, hd] at hwin
    have hrc : f.ref_count = 1 := by
      by_contra hne
      simp [ZForwarding.in_place_relocation_claim_page, hnd, hne, hev] at hwin
    have hfc : (f.in_place_relocation_claim_page true).2 = { f with ref_count := -1 } := by
      simp [ZForwarding.in_place_relocation_claim_page, hnd, hrc]
    have e : t.claim_and_remove_specific i
        = (true, (t.record_claim (ZForwarding.claim { f with ref_count := -1 }).1).set_fsp i
            (ZForwarding.claim { f with ref_count := -1 }).2) := by
      simp [ZFromSpacePool.claim_and_remove_specific, hi, hwin, hfc]
    have hget : ((t.record_claim (ZForwarding.claim { f with ref_count := -1 }).1).set_fsp i
        (ZForwarding.claim { f with ref_count := -1 }).2)._fsp[i]?
        = some (ZForwarding.claim { f with ref_count := -1 }).2 := List.getElem?_set_self hil
    have hcev : (ZForwarding.claim { f with ref_count := -1 }).2.is_evacuated = false := by
      unfold ZForwarding.claim ZForwarding.is_evacuated
      split <;> exact hev
    have hcage : (ZForwarding.claim { f with ref_count := -1 }).2.to_age = f.to_age := by
      unfold ZForwarding.claim
      split <;> rfl
    have hcpage : (ZRelocate.compact_in_place (ZForwarding.claim { f with ref_count := -1 }).2).2.page
        = { f.page with top := f.unforwarded_bytes } := by
      unfold ZForwarding.claim ZRelocate.compact_in_place
      split <;> rfl
    have hres : ∃ u : ZFromSpacePool, t.compact_in_place i cpu_id try_lock = u ∧
        u._in_placed_pages f.to_age = [{ f.page with top := f.unforwarded_bytes }] := by
      refine ⟨_, rfl, ?_⟩
      simp only [ZFromSpacePool.compact_in_place, e, if_true]
      rw [hget]
      dsimp only
      rw [hcev]
      simp only [Bool.false_eq_true, if_false, ZFromSpacePool.append_to_in_placed_pages, hcage,
        if_true, ZFromSpacePool.set_fsp, ZFromSpacePool.record_claim,
        ZFromSpacePool.inc_in_placed_page_count_and_bytes, hempty, List.nil_append, hcpage]
    obtain ⟨u, hu, hul⟩ := hres
    rw [hu]
    unfold ZFromSpacePool.install_new_target
    rw [hul]
    exact ⟨rfl, rfl⟩

/-- C8, at the example pool: `compact_in_place` of the second page wins the claim, and
`install_new_target(1)` then returns page 2, compacted to its 300 live bytes, and leaves
the in-placed list empty. -/
theorem install_new_target_takes_in_placed_witness :
    ex_pool_compacted._in_placed_pages 1 = [{ ex_page_b with top := 300 }] ∧
    (ex_pool_compacted.install_new_target 1
      = (some { ex_page_b with top := 300 }, { ex_pool_compacted with _in_placed_pages :=
          fun a => if a = 1 then [] else ex_pool_compacted._in_placed_pages a }) ∧
    ((ex_pool.compact_in_place 1 0 true).install_new_target ex_fwd_b.to_age).1
      = some { ex_fwd_b.page with top := ex_fwd_b.unforwarded_bytes } ∧
    ((ex_pool.compact_in_place 1 0 true).install_new_target ex_fwd_b.to_age).2._fsp
      = (ex_pool.compact_in_place 1 0 true)._fsp) :=
  ⟨by decide,
    install_new_target_takes_in_placed ex_pool_compacted ex_pool 1 { ex_page_b with top := 300 }
      [] 1 0 true ex_fwd_b (by decide) (by decide) (by decide) (by decide) (by decide)⟩

namespace ZFromSpacePool

theorem reset_start_fold_mod :
    ∀ (l : List ZForwarding) (acc : Nat),
      (l.foldl (fun acc f => size_add acc f.evacuated_bytes) acc) % SIZE_T_MOD
        = (acc + (l.map (fun f => f.evacuated_bytes)).sum) % SIZE_T_MOD
  | [], acc => by simp
  | f :: l, acc => by
    rw [List.foldl_cons, reset_start_fold_mod l]
    simp only [List.map_cons, List.sum_cons, size_add]
    rw [Nat.mod_add_mod, Nat.add_assoc]

theorem reset_start_claims_iff (f : ZForwarding) :
    reset_start_claims f = (!f.claimed2 && !f.claimed) := by
  cases hc : f.claimed <;> cases hc2 : f.claimed2 <;>
    simp [reset_start_claims, ZForwarding.claim2, ZForwarding.claim, hc, hc2]

theorem reset_start_forwarding_flag (f : ZForwarding) :
    (reset_start_forwarding f).done = (f.done || (f.claim2.1 && f.claim2.2.claim.1)) := by
  cases hc : f.claimed <;> cases hc2 : f.claimed2 <;> cases hd : f.done <;>
    simp [reset_start_forwarding, ZForwarding.claim2, ZForwarding.claim, ZForwarding.mark_done,
      hc, hc2, hd]

end ZFromSpacePool

/-- C9: `reset_start` keeps the FSP index in place; it sets the done flag of exactly the
forwardings on which both `claim2` and `claim` succeed (those neither claim2-ed nor
claimed) and leaves the done flag of the others as it was; it appends the pages of
exactly those forwardings to the shared free-list, in index order, and adds the sum of
their `evacuated_bytes` to `_evacuated_bytes` (on `size_t`).  With three registered pages,
the first fully evacuated and freed and the other two never touched, `reset_start` followed
by `reset_end` returns `live_bytes(p2) + live_bytes(p3)`. -/
theorem reset_start_sweeps_unclaimed (t s : ZFromSpacePool) (age_max : Nat)
    (heap_alloc_page : Nat → Option ZPage) (try_lock : Nat → Bool) (f1 f2 f3 : ZForwarding)
    (hfsp : s._fsp = [f1, f2, f3])
    (hfreed : f1.claimed = true ∧ f1.done = true)
    (hevac : s._evacuated_bytes = f1.live_bytes) (hin : s._in_placed_bytes = 0)
    (h2 : f2.claimed = false ∧ f2.claimed2 = false ∧ f2.evacuated_bytes = 0)
    (h3 : f3.claimed = false ∧ f3.claimed2 = false ∧ f3.evacuated_bytes = 0)
    (hdef : s._deferrable_bytes = f1.live_bytes + f2.live_bytes + f3.live_bytes)
    (hlt : f1.live_bytes + f2.live_bytes + f3.live_bytes < SIZE_T_MOD) :
    t.reset_start._fsp.length = t._fsp.length ∧
    (∀ (j : Nat) (f : ZForwarding), t._fsp[j]? = some f →
      ∃ f', t.reset_start._fsp[j]? = some f' ∧
        f'.done = (f.done || (f.claim2.1 && f.claim2.2.claim.1)) ∧
        (f.claim2.1 && f.claim2.2.claim.1) = (!f.claimed2 && !f.claimed)) ∧
    t.reset_start._shared_free_list
      = t._shared_free_list
        ++ (t._fsp.filter (fun f => f.claim2.1 && f.claim2.2.claim.1)).map (fun f => f.page) ∧
    t.reset_start._evacuated_bytes
      = (t._evacuated_bytes
          + ((t._fsp.filter (fun f => f.claim2.1 && f.claim2.2.claim.1)).map
              (fun f => f.evacuated_bytes)).sum) % SIZE_T_MOD ∧
    (s.reset_start.reset_end age_max heap_alloc_page try_lock).1
      = f2.live_bytes + f3.live_bytes := by
  refine ⟨by simp [ZFromSpacePool.reset_start], ?_, rfl, ?_, ?_⟩
  · intro j f hj
    refine ⟨ZFromSpacePool.reset_start_forwarding f, ?_,
      ZFromSpacePool.reset_start_forwarding_flag f, ZFromSpacePool.reset_start_claims_iff f⟩
    simp [ZFromSpacePool.reset_start, List.getElem?_map, hj]
  · have h := ZFromSpacePool.reset_start_fold_mod
      (t._fsp.filter ZFromSpacePool.reset_start_claims) 0
    rw [Nat.zero_add] at h
    have e : ∀ a b : Nat, size_add a b = (a + b) % SIZE_T_MOD := fun _ _ => rfl
    show size_add t._evacuated_bytes
      ((t._fsp.filter ZFromSpacePool.reset_start_claims).foldl
        (fun acc f => size_add acc f.evacuated_bytes) 0) = _
    rw [e, Nat.add_mod, h, ← Nat.add_mod]
    rfl
  · obtain ⟨c1, _⟩ := hfreed
    obtain ⟨a2, b2, e2⟩ := h2
    obtain ⟨a3, b3, e3⟩ := h3
    have hf1 : ZFromSpacePool.reset_start_claims f1 = false := by
      rw [ZFromSpacePool.reset_start_claims_iff, c1]; simp
    have hf2 : ZFromSpacePool.reset_start_claims f2 = true := by
      rw [ZFromSpacePool.reset_start_claims_iff, a2, b2]; rfl
    have hf3 : ZFromSpacePool.reset_start_claims f3 = true := by
      rw [ZFromSpacePool.reset_start_claims_iff, a3, b3]; rfl
    have hz : size_add (size_add 0 0) 0 = 0 := by decide
    have hev : s.reset_start._evacuated_bytes = f1.live_bytes := by
      simp only [ZFromSpacePool.reset_start, hfsp, List.filter_cons, hf1, hf2, hf3, if_true,
        Bool.false_eq_true, if_false, List.filter_nil, List.foldl_cons, List.foldl_nil, e2, e3,
        hz, hevac]
      exact size_add_of_lt (by omega)
    have hin' : s.reset_start._in_placed_bytes = 0 := hin
    have hd' : s.reset_start._deferrable_bytes = f1.live_bytes + f2.live_bytes + f3.live_bytes :=
      hdef
    show size_sub s.reset_start._deferrable_bytes
      (size_add s.reset_start._evacuated_bytes s.reset_start._in_placed_bytes) = _
    rw [hev, hin', hd', size_add_of_lt (by omega), size_sub_of_le (by omega) hlt]
    omega

/-- C9, at the example pool of three pages after an `alloc_page` that evacuated the first
page (400 bytes) onto the target and freed it: `reset_start` sweeps the other two, and
`reset_end` returns 300 + 200. -/
theorem reset_start_sweeps_unclaimed_witness :
    ex_alloc3_result.1.map (fun p => p.id) = some 1 ∧
    ex_alloc3_result.2.reset_start._fsp.map (fun f => f.done) = [true, true, true] ∧
    ex_alloc3_result.2.reset_start._shared_free_list.map (fun p => p.id) = [2, 3] ∧
    (ex_alloc3_result.2.reset_start.reset_end 16 (fun _ => none) (fun _ => true)).1
      = ex_fwd_b.live_bytes + ex_fwd_c.live_bytes :=
  ⟨by decide, by decide, by decide,
    (reset_start_sweeps_unclaimed ex_alloc3_result.2 ex_alloc3_result.2 16 (fun _ => none)
      (fun _ => true) ((ex_alloc3_result.2._fsp[0]?).getD ex_fwd_a) ex_fwd_b ex_fwd_c
      (by decide) (by decide) (by decide) (by decide) (by decide) (by decide) (by decide)
      (by decide)).2.2.2.2⟩

/-- C10, evaluated at the failing input: on the example pool, whose in-placed lists are
empty, `install_new_target(1)` claims the page at index 0, compacts it in place and marks
its forwarding done with `is_in_place()` false; `compact_in_place` on the same forwarding
marks it done with `is_in_place()` true. -/
theorem install_new_target_leaves_in_place_unset :
    (ex_pool.install_new_target 1).1.map (fun p => p.id) = some 1 ∧
    (ex_pool.install_new_target 1).2._fsp.map (fun f => (f.done, f.is_in_place))
      = [(true, false), (false, false)] ∧
    (ex_pool.install_new_target 1).2._in_placed_page_count = 1 ∧
    (ex_pool.compact_in_place 0 0 true)._fsp.map (fun f => (f.done, f.is_in_place))
      = [(true, true), (false, false)] := by
  decide

namespace ZFromSpacePool

end ZFromSpacePool

namespace ZFromSpacePool

end ZFromSpacePool

theorem lookup_insert_ne_none {f : ZForwarding} {a : Nat} (x dst : Nat)
    (h : ZRelocate.lookup f a ≠ none) :
    ZRelocate.lookup (ZRelocate.insert f x dst).2 a ≠ none := by
  unfold ZRelocate.insert
  cases hx : ZRelocate.lookup f x with
  | some v => exact h
  | none =>
    dsimp only
    unfold ZRelocate.lookup at h ⊢
    cases hf : f.entries.find? (fun e => e.1 == a) with
    | none => rw [hf] at h; exact absurd rfl h
    | some e => simp [List.find?_append, hf]

theorem lookup_insert_self {f : ZForwarding} {x : Nat} (dst : Nat)
    (h : ZRelocate.lookup f x = none) :
    ZRelocate.lookup (ZRelocate.insert f x dst).2 x ≠ none := by
  rw [insert_snd h]
  unfold ZRelocate.lookup at h ⊢
  cases hf : f.entries.find? (fun e => e.1 == x) with
  | none => simp [List.find?_append, hf]
  | some e => rw [hf] at h; cases h

/-- Entries are only added: an object that has an entry keeps one. -/
theorem evacuate_objects_mono (sf : Nat) (hc : Bool) (x : Nat) :
    ∀ (objs : List (Nat × Nat)) (f : ZForwarding) (t : Option ZPage) (cur bytes : Nat),
      ZRelocate.lookup f x ≠ none →
      ZRelocate.lookup (evacuate_objects sf hc objs f t cur bytes).1 x ≠ none
  | [], f, t, cur, bytes, h => by simpa [evacuate_objects] using h
  | (a, sz) :: rest, f, t, cur, bytes, h => by
    unfold evacuate_objects
    by_cases h1 : a < sf
    · simp only [h1, if_true]
      exact evacuate_objects_mono sf hc x rest f t cur bytes h
    · simp only [h1, if_false]
      cases hl : ZRelocate.lookup f a with
      | some v => exact evacuate_objects_mono sf hc x rest f t cur bytes h
      | none =>
        dsimp only
        cases t with
        | none => exact h
        | some p =>
          dsimp only
          cases hto : (p.alloc_object_atomic sz).1 with
          | none => exact h
          | some dst =>
            exact evacuate_objects_mono sf hc x rest _ _ _ _ (lookup_insert_ne_none a dst h)

/-- A run from a null cursor either visits every object, leaving the cursor as it was and
every object with an entry, or stops at the first object for which the allocation on the
target fails: the cursor is that object's address, every object before it has an
entry, and that object has none. -/
theorem evacuate_objects_stop :
    ∀ (objs : List (Nat × Nat)) (f : ZForwarding) (t : Option ZPage) (cur bytes : Nat)
      (r : ZForwarding × Option ZPage × Nat × Nat),
      evacuate_objects 0 true objs f t cur bytes = r →
      (r.2.2.1 = cur ∧ ∀ o ∈ objs, ZRelocate.lookup r.1 o.1 ≠ none) ∨
      (∃ pre sz post, objs = pre ++ (r.2.2.1, sz) :: post ∧
        (∀ o ∈ pre, ZRelocate.lookup r.1 o.1 ≠ none) ∧ ZRelocate.lookup r.1 r.2.2.1 = none)
  | [], f, t, cur, bytes, r, h => by
    simp only [evacuate_objects] at h
    subst h
    exact Or.inl ⟨rfl, fun o ho => by cases ho⟩
  | (a, sz) :: rest, f, t, cur, bytes, r, h => by
    unfold evacuate_objects at h
    simp only [Nat.not_lt_zero, if_false, if_true] at h
    cases hl : ZRelocate.lookup f a with
    | some v =>
      rw [hl] at h
      dsimp only at h
      have hm : ZRelocate.lookup r.1 a ≠ none := by
        rw [← h]
        exact evacuate_objects_mono 0 true a rest f t cur bytes (by rw [hl]; simp)
      rcases evacuate_objects_stop rest f t cur bytes r h with ⟨e1, e2⟩ | ⟨pre, sz2, post, e1, e2, e3⟩
      · refine Or.inl ⟨e1, fun o ho => ?_⟩
        rcases List.mem_cons.mp ho with ho | ho
        · subst ho; exact hm
        · exact e2 o ho
      · refine Or.inr ⟨(a, sz) :: pre, sz2, post, by rw [e1]; rfl, fun o ho => ?_, e3⟩
        rcases List.mem_cons.mp ho with ho | ho
        · subst ho; exact hm
        · exact e2 o ho
    | none =>
      rw [hl] at h
      dsimp only at h
      cases t with
      | none =>
        dsimp only at h
        subst h
        exact Or.inr ⟨[], sz, rest, rfl, (fun o ho => by cases ho), hl⟩
      | some p =>
        dsimp only at h
        cases hto : (p.alloc_object_atomic sz).1 with
        | none =>
          rw [hto] at h
          dsimp only at h
          subst h
          exact Or.inr ⟨[], sz, rest, rfl, (fun o ho => by cases ho), hl⟩
        | some dst =>
          rw [hto] at h
          dsimp only at h
          have hm : ZRelocate.lookup r.1 a ≠ none := by
            rw [← h]
            exact evacuate_objects_mono 0 true a rest _ _ _ _ (lookup_insert_self dst hl)
          rcases evacuate_objects_stop rest _ _ _ _ r h with
            ⟨e1, e2⟩ | ⟨pre, sz2, post, e1, e2, e3⟩
          · refine Or.inl ⟨e1, fun o ho => ?_⟩
            rcases List.mem_cons.mp ho with ho | ho
            · subst ho; exact hm
            · exact e2 o ho
          · refine Or.inr ⟨(a, sz) :: pre, sz2, post, by rw [e1]; rfl, fun o ho => ?_, e3⟩
            rcases List.mem_cons.mp ho with ho | ho
            · subst ho; exact hm
            · exact e2 o ho

/-- A run with cursor `sf` is the run, without a cursor test, over the objects whose
address is not below `sf`, in the order of the live map. -/
theorem evacuate_objects_filter (sf : Nat) (hc : Bool) :
    ∀ (objs : List (Nat × Nat)) (f : ZForwarding) (t : Option ZPage) (cur bytes : Nat),
      evacuate_objects sf hc objs f t cur bytes
        = evacuate_objects 0 hc (objs.filter (fun o => decide (sf ≤ o.1))) f t cur bytes
  | [], f, t, cur, bytes => by simp [evacuate_objects]
  | (a, sz) :: rest, f, t, cur, bytes => by
    by_cases h1 : a < sf
    · have e : ((a, sz) :: rest).filter (fun o => decide (sf ≤ o.1))
          = rest.filter (fun o => decide (sf ≤ o.1)) :=
        List.filter_cons_of_neg (by simpa using h1)
      rw [e, ← evacuate_objects_filter sf hc rest f t cur bytes]
      conv => lhs; unfold evacuate_objects
      simp only [h1, if_true]
    · have e : ((a, sz) :: rest).filter (fun o => decide (sf ≤ o.1))
          = (a, sz) :: rest.filter (fun o => decide (sf ≤ o.1)) :=
        List.filter_cons_of_pos (by simpa using h1)
      rw [e]
      unfold evacuate_objects
      simp only [h1, Nat.not_lt_zero, if_false]
      cases hl : ZRelocate.lookup f a with
      | some v => exact evacuate_objects_filter sf hc rest f t cur bytes
      | none =>
        dsimp only
        cases t with
        | none => rfl
        | some p =>
          dsimp only
          cases hto : (p.alloc_object_atomic sz).1 with
          | none => rfl
          | some dst => exact evacuate_objects_filter sf hc rest _ _ _ _

theorem ascending_split {pre post : List (Nat × Nat)} {c sz : Nat}
    (h : (pre ++ (c, sz) :: post).Pairwise (fun a b => a.1 < b.1)) :
    (∀ o ∈ pre, o.1 < c) ∧ (∀ o ∈ post, c < o.1) ∧
    (pre ++ (c, sz) :: post).filter (fun o => decide (c ≤ o.1)) = (c, sz) :: post := by
  rw [List.pairwise_append] at h
  obtain ⟨_, h2, h3⟩ := h
  rw [List.pairwise_cons] at h2
  have hpre : ∀ o ∈ pre, o.1 < c := fun o ho => h3 o ho (c, sz) (List.mem_cons_self _ _)
  have hpost : ∀ o ∈ post, c < o.1 := fun o ho => h2.1 o ho
  refine ⟨hpre, hpost, ?_⟩
  rw [List.filter_append]
  have e1 : pre.filter (fun o => decide (c ≤ o.1)) = [] := by
    rw [List.filter_eq_nil_iff]
    intro o ho
    have := hpre o ho
    simp only [decide_eq_true_eq]
    omega
  have e2 : ((c, sz) :: post).filter (fun o => decide (c ≤ o.1)) = (c, sz) :: post := by
    rw [List.filter_eq_self]
    intro o ho
    rcases List.mem_cons.mp ho with ho | ho
    · subst ho; simp
    · have := hpost o ho
      simp only [decide_eq_true_eq]
      omega
  rw [e1, e2]
  rfl

/-- C12: the live map being in ascending address order, if `evacuate_page(f, cursor)` started
with a null cursor leaves the cursor at `c`, not null, then `c` is the address of a live
object of the page, at which the allocation failed (it has no entry), every live object
with a smaller address has an entry in the forwarding table, the objects that pass the
cursor test of a following call with that cursor are the object at `c` and the live
objects after it, in ascending order, and such a call is the run over exactly these. -/
theorem evacuate_page_resumes_at_cursor (f : ZForwarding) (t : Option ZPage) (c : Nat)
    (hsorted : f.livemap.Pairwise (fun a b => a.1 < b.1))
    (hstop : (evacuate_page f t (some 0)).2.2.1 = some c) (hc : c ≠ 0) :
    ∃ pre sz post, f.livemap = pre ++ (c, sz) :: post ∧
      (∀ o ∈ pre, o.1 < c) ∧ (∀ o ∈ post, c < o.1) ∧
      (∀ o ∈ f.livemap, o.1 < c →
        ZRelocate.lookup (evacuate_page f t (some 0)).1 o.1 ≠ none) ∧
      ZRelocate.lookup (evacuate_page f t (some 0)).1 c = none ∧
      (evacuate_page f t (some 0)).1.livemap.filter (fun o => decide (¬ o.1 < c))
        = (c, sz) :: post ∧
      ∀ t2 : Option ZPage, evacuate_page (evacuate_page f t (some 0)).1 t2 (some c)
        = ((evacuate_objects 0 true ((c, sz) :: post) (evacuate_page f t (some 0)).1 t2 c 0).1,
           (evacuate_objects 0 true ((c, sz) :: post) (evacuate_page f t (some 0)).1 t2 c 0).2.1,
           some (evacuate_objects 0 true ((c, sz) :: post)
             (evacuate_page f t (some 0)).1 t2 c 0).2.2.1,
           (evacuate_objects 0 true ((c, sz) :: post)
             (evacuate_page f t (some 0)).1 t2 c 0).2.2.2) := by
  have hlm : (evacuate_page f t (some 0)).1.livemap = f.livemap := by
    rw [evacuate_page_fields f t (some 0)]
  have hcur : (evacuate_objects 0 true f.livemap f t 0 0).2.2.1 = c := by
    simpa [evacuate_page] using hstop
  have hf : (evacuate_page f t (some 0)).1 = (evacuate_objects 0 true f.livemap f t 0 0).1 := rfl
  rcases evacuate_objects_stop f.livemap f t 0 0 _ rfl with ⟨e1, _⟩ | ⟨pre, sz, post, e1, e2, e3⟩
  · exact absurd (hcur.symm.trans e1) hc
  · rw [hcur] at e1 e3
    rw [← hf] at e2 e3
    rw [e1] at hsorted
    obtain ⟨s1, s2, s3⟩ := ascending_split hsorted
    have hfil : (evacuate_page f t (some 0)).1.livemap.filter (fun o => decide (¬ o.1 < c))
        = (c, sz) :: post := by
      have e : (fun o : Nat × Nat => decide (¬ o.1 < c)) = (fun o => decide (c ≤ o.1)) := by
        funext o
        simp
      rw [hlm, e1, e]
      exact s3
    refine ⟨pre, sz, post, e1, s1, s2, ?_, e3, hfil, ?_⟩
    · intro o ho hlt
      rw [e1] at ho
      rcases List.mem_append.mp ho with ho | ho
      · exact e2 o ho
      · rcases List.mem_cons.mp ho with ho | ho
        · subst ho
          exact absurd hlt (Nat.lt_irrefl _)
        · have := s2 o ho
          omega
    · intro t2
      have hfil2 : (evacuate_page f t (some 0)).1.livemap.filter (fun o => decide (c ≤ o.1))
          = (c, sz) :: post := by
        rw [hlm, e1, s3]
      unfold evacuate_page
      simp only [Option.getD_some, Option.isSome_some, Option.map_some']
      rw [evacuate_objects_filter c true]
      have hfil3 : (evacuate_objects 0 true f.livemap f t 0 0).1.livemap.filter
          (fun o => decide (c ≤ o.1)) = (c, sz) :: post := hfil2
      rw [hfil3]

/-- C12 at the first example page and a target with room for the first object only: the
run stops at the second object, address 4296. -/
theorem evacuate_page_resumes_at_cursor_witness :
    (evacuate_page ex_fwd_a (some ex_target_short) (some 0)).2.2.1 = some 4296 ∧
    ∃ pre sz post, ex_fwd_a.livemap = pre ++ (4296, sz) :: post ∧
      (∀ o ∈ pre, o.1 < 4296) ∧ (∀ o ∈ post, 4296 < o.1) ∧
      (∀ o ∈ ex_fwd_a.livemap, o.1 < 4296 →
        ZRelocate.lookup (evacuate_page ex_fwd_a (some ex_target_short) (some 0)).1 o.1 ≠ none) ∧
      ZRelocate.lookup (evacuate_page ex_fwd_a (some ex_target_short) (some 0)).1 4296 = none ∧
      (evacuate_page ex_fwd_a (some ex_target_short) (some 0)).1.livemap.filter
          (fun o => decide (¬ o.1 < 4296))
        = (4296, sz) :: post ∧
      ∀ t2 : Option ZPage,
        evacuate_page (evacuate_page ex_fwd_a (some ex_target_short) (some 0)).1 t2 (some 4296)
        = ((evacuate_objects 0 true ((4296, sz) :: post)
              (evacuate_page ex_fwd_a (some ex_target_short) (some 0)).1 t2 4296 0).1,
           (evacuate_objects 0 true ((4296, sz) :: post)
              (evacuate_page ex_fwd_a (some ex_target_short) (some 0)).1 t2 4296 0).2.1,
           some (evacuate_objects 0 true ((4296, sz) :: post)
              (evacuate_page ex_fwd_a (some ex_target_short) (some 0)).1 t2 4296 0).2.2.1,
           (evacuate_objects 0 true ((4296, sz) :: post)
              (evacuate_page ex_fwd_a (some ex_target_short) (some 0)).1 t2 4296 0).2.2.2) :=
  ⟨by decide,
    evacuate_page_resumes_at_cursor ex_fwd_a (some ex_target_short) 4296 (by decide) (by decide)
      (by decide)⟩

/-! ## The bytes returned by `evacuate_page` -/

namespace ZFromSpacePool

/-- A scan that returns an index returns the lowest index, from `i`, of a forwarding that
can be claimed in this attempt. -/
theorem claim_any_scan_lowest (age att : Nat) :
    ∀ (n i : Nat) (s s1 : ZFromSpacePool) (idx : Nat),
      claim_any_scan age att n i s = (some idx, s1) →
      i ≤ idx ∧ idx < i + n ∧ (∃ f, s._fsp[idx]? = some f ∧ Claimable age att f) ∧
        ∀ (j : Nat) (g : ZForwarding), i ≤ j → j < idx → s._fsp[j]? = some g →
          ¬ Claimable age att g
  | 0, i, s, s1, idx, h => by
    simp only [claim_any_scan] at h
    cases h
  | n + 1, i, s, s1, idx, h => by
    unfold claim_any_scan at h
    cases hi : s._fsp[i]? with
    | none =>
      rw [hi] at h
      cases h
    | some f =>
      rw [hi] at h
      dsimp only at h
      have next : claim_any_scan age att n (i + 1) s = (some idx, s1) → ¬ Claimable age att f →
          i ≤ idx ∧ idx < i + (n + 1) ∧ (∃ f, s._fsp[idx]? = some f ∧ Claimable age att f) ∧
            ∀ (j : Nat) (g : ZForwarding), i ≤ j → j < idx → s._fsp[j]? = some g →
              ¬ Claimable age att g := by
        intro h2 hn
        obtain ⟨a1, a2, a3, a4⟩ := claim_any_scan_lowest age att n (i + 1) s s1 idx h2
        refine ⟨by omega, by omega, a3, fun j g hj1 hj2 hg => ?_⟩
        by_cases hji : j = i
        · subst hji
          rw [hi] at hg
          cases hg
          exact hn
        · exact a4 j g (by omega) hj2 hg
      by_cases c1 : att = 0 ∧ f.to_age ≠ age
      · rw [if_pos c1] at h
        exact next h (fun hc => c1.2 (hc.1 c1.1))
      · rw [if_neg c1] at h
        by_cases c2 : f.is_done = true
        · rw [if_pos c2] at h
          exact next h (fun hc => by
            have := hc.2.1
            simp [ZForwarding.is_done] at c2
            rw [c2] at this
            cases this)
        · rw [if_neg c2] at h
          by_cases c3 : f.is_claim2 = true
          · rw [if_pos c3] at h
            exact next h (fun hc => by
              have := hc.2.2.1
              simp [ZForwarding.is_claim2] at c3
              rw [c3] at this
              cases this)
          · rw [if_neg c3] at h
            by_cases c4 : (f.in_place_relocation_claim_page false).1 = true
            · rw [if_pos c4] at h
              cases h
              refine ⟨Nat.le_refl _, by omega, ⟨f, hi, ?_, ?_, ?_, c4⟩, fun j g hj1 hj2 => by omega⟩
              · intro ha
                by_contra hne
                exact c1 ⟨ha, hne⟩
              · simpa [ZForwarding.is_done] using c2
              · simpa [ZForwarding.is_claim2] using c3
            · rw [if_neg c4] at h
              exact next h (fun hc => c4 hc.2.2.2)

/-- A scan over indices inside the array that returns nothing has met no forwarding that
can be claimed in this attempt. -/
theorem claim_any_scan_nothing (age att : Nat) :
    ∀ (n i : Nat) (s s1 : ZFromSpacePool),
      (∀ j : Nat, i ≤ j → j < i + n → j < s._fsp.length) →
      claim_any_scan age att n i s = (none, s1) →
      ∀ (j : Nat) (g : ZForwarding), i ≤ j → j < i + n → s._fsp[j]? = some g →
        ¬ Claimable age att g
  | 0, i, s, s1, _, _ => fun j g hj1 hj2 => by omega
  | n + 1, i, s, s1, hb, h => by
    unfold claim_any_scan at h
    cases hi : s._fsp[i]? with
    | none =>
      have := hb i (Nat.le_refl _) (by omega)
      rw [List.getElem?_eq_none_iff] at hi
      omega
    | some f =>
      rw [hi] at h
      dsimp only at h
      have next : claim_any_scan age att n (i + 1) s = (none, s1) → ¬ Claimable age att f →
          ∀ (j : Nat) (g : ZForwarding), i ≤ j → j < i + (n + 1) → s._fsp[j]? = some g →
            ¬ Claimable age att g := by
        intro h2 hn j g hj1 hj2 hg
        by_cases hji : j = i
        · subst hji
          rw [hi] at hg
          cases hg
          exact hn
        · exact claim_any_scan_nothing age att n (i + 1) s s1
            (fun k hk1 hk2 => hb k (by omega) (by omega)) h2 j g (by omega) (by omega) hg
      by_cases c1 : att = 0 ∧ f.to_age ≠ age
      · rw [if_pos c1] at h
        exact next h (fun hc => c1.2 (hc.1 c1.1))
      · rw [if_neg c1] at h
        by_cases c2 : f.is_done = true
        · rw [if_pos c2] at h
          exact next h (fun hc => by
            have := hc.2.1
            simp [ZForwarding.is_done] at c2
            rw [c2] at this
            cases this)
        · rw [if_neg c2] at h
          by_cases c3 : f.is_claim2 = true
          · rw [if_pos c3] at h
            exact next h (fun hc => by
              have := hc.2.2.1
              simp [ZForwarding.is_claim2] at c3
              rw [c3] at this
              cases this)
          · rw [if_neg c3] at h
            by_cases c4 : (f.in_place_relocation_claim_page false).1 = true
            · rw [if_pos c4] at h
              cases h
            · rw [if_neg c4] at h
              exact next h (fun hc => c4 hc.2.2.2)

end ZFromSpacePool

/-- C14: the array holding `_fsp_pages` forwardings, `claim_and_remove_any_page(age)`
returns only a forwarding at an index in `[_fsp_start, _fsp_pages)` that is not done, not
claim2-ed and that it has exclusively claimed; it is the lowest-index claimable one whose
`to_age` is `age` if there is one, otherwise the lowest-index claimable one of any age;
it returns null exactly when no forwarding in the range can be claimed, and then changes
nothing; the page that `install_new_target(age)` returns from it is the page of that
forwarding, with its age reset to `age`. -/
theorem claim_and_remove_any_page_picks_lowest (s : ZFromSpacePool) (age : Nat)
    (hp : s._fsp_pages ≤ s._fsp.length) :
    (∀ (idx : Nat) (s1 : ZFromSpacePool), s.claim_and_remove_any_page age = (some idx, s1) →
      s._fsp_start ≤ idx ∧ idx < s._fsp_pages ∧
      ∃ f, s._fsp[idx]? = some f ∧ ZFromSpacePool.Claimable age 1 f ∧
        s1 = s.set_fsp idx (f.in_place_relocation_claim_page false).2.claim.2 ∧
        ((f.to_age = age ∧
            ∀ (j : Nat) (g : ZForwarding), s._fsp_start ≤ j → j < idx → s._fsp[j]? = some g →
              ¬ ZFromSpacePool.Claimable age 0 g) ∨
          ((∀ (j : Nat) (g : ZForwarding), s._fsp_start ≤ j → j < s._fsp_pages →
              s._fsp[j]? = some g → ¬ ZFromSpacePool.Claimable age 0 g) ∧
            ∀ (j : Nat) (g : ZForwarding), s._fsp_start ≤ j → j < idx → s._fsp[j]? = some g →
              ¬ ZFromSpacePool.Claimable age 1 g))) ∧
    (∀ s1 : ZFromSpacePool, s.claim_and_remove_any_page age = (none, s1) → s1 = s) ∧
    ((s.claim_and_remove_any_page age).1 = none ↔
      ∀ (j : Nat) (g : ZForwarding), s._fsp_start ≤ j → j < s._fsp_pages →
        s._fsp[j]? = some g → ¬ ZFromSpacePool.Claimable age 1 g) ∧
    (s._in_placed_pages age = [] →
      ∀ (p : ZPage) (s2 : ZFromSpacePool), s.install_new_target age = (some p, s2) →
        p.age = age ∧
        ∃ (idx : Nat) (f : ZForwarding), (s.claim_and_remove_any_page age).1 = some idx ∧
          s._fsp[idx]? = some f ∧ p.id = f.page.id) := by
  have hb : ∀ j : Nat, s._fsp_start ≤ j → j < s._fsp_start + (s._fsp_pages - s._fsp_start) →
      j < s._fsp.length := fun j h1 h2 => by omega
  have hsome : ∀ (idx : Nat) (s1 : ZFromSpacePool),
      s.claim_and_remove_any_page age = (some idx, s1) →
      s._fsp_start ≤ idx ∧ idx < s._fsp_pages ∧
      ∃ f, s._fsp[idx]? = some f ∧ ZFromSpacePool.Claimable age 1 f ∧
        s1 = s.set_fsp idx (f.in_place_relocation_claim_page false).2.claim.2 ∧
        ((f.to_age = age ∧
            ∀ (j : Nat) (g : ZForwarding), s._fsp_start ≤ j → j < idx → s._fsp[j]? = some g →
              ¬ ZFromSpacePool.Claimable age 0 g) ∨
          ((∀ (j : Nat) (g : ZForwarding), s._fsp_start ≤ j → j < s._fsp_pages →
              s._fsp[j]? = some g → ¬ ZFromSpacePool.Claimable age 0 g) ∧
            ∀ (j : Nat) (g : ZForwarding), s._fsp_start ≤ j → j < idx → s._fsp[j]? = some g →
              ¬ ZFromSpacePool.Claimable age 1 g)) := by
    intro idx s1 h
    obtain ⟨f, g1, g2, g3, g4, g5⟩ := ZFromSpacePool.claim_and_remove_any_page_some h
    unfold ZFromSpacePool.claim_and_remove_any_page at h
    split at h
    · rename_i i2 s2 h2
      cases h
      obtain ⟨a1, a2, ⟨f2, a3, a4⟩, a5⟩ :=
        ZFromSpacePool.claim_any_scan_lowest age 0 _ _ s s1 idx h2
      rw [g1] at a3
      cases a3
      exact ⟨a1, by omega, f, g1, ⟨(fun h0 => by cases h0), g2, g3, g4⟩, g5,
        Or.inl ⟨a4.1 rfl, a5⟩⟩
    · rename_i s2 h2
      have e := ZFromSpacePool.claim_any_scan_none _ _ _ _ _ _ h2
      subst e
      have n0 := ZFromSpacePool.claim_any_scan_nothing age 0 _ _ s2 s2 hb h2
      obtain ⟨a1, a2, ⟨f2, a3, a4⟩, a5⟩ :=
        ZFromSpacePool.claim_any_scan_lowest age 1 _ _ s2 s1 idx h
      rw [g1] at a3
      cases a3
      exact ⟨a1, by omega, f, g1, a4, g5,
        Or.inr ⟨fun j g h1 h2 => n0 j g h1 (by omega), a5⟩⟩
  refine ⟨hsome, fun s1 h => ZFromSpacePool.claim_and_remove_any_page_none h, ?_, ?_⟩
  · constructor
    · intro hnone j g h1 h2 hg
      cases hr : s.claim_and_remove_any_page age with
      | mk o s1 =>
        rw [hr] at hnone
        dsimp only at hnone
        subst hnone
        unfold ZFromSpacePool.claim_and_remove_any_page at hr
        split at hr
        · cases hr
        · rename_i s2 h2'
          have e := ZFromSpacePool.claim_any_scan_none _ _ _ _ _ _ h2'
          subst e
          exact ZFromSpacePool.claim_any_scan_nothing age 1 _ _ s2 s1 hb hr j g h1 (by omega) hg
    · intro hno
      cases hr : s.claim_and_remove_any_page age with
      | mk o s1 =>
        cases o with
        | none => rfl
        | some idx =>
          obtain ⟨a1, a2, f, a3, a4, _⟩ := hsome idx s1 hr
          exact absurd a4 (hno idx f a1 a2 a3)
  · intro hempty p s2 hin
    unfold ZFromSpacePool.install_new_target at hin
    rw [hempty] at hin
    dsimp only at hin
    cases hr : s.claim_and_remove_any_page age with
    | mk o s1 =>
      rw [hr] at hin
      cases o with
      | none => cases hin
      | some idx =>
        dsimp only at hin
        obtain ⟨a1, a2, f, a3, a4, a5, _⟩ := hsome idx s1 hr
        have hil : idx < s._fsp.length := (List.getElem?_eq_some.mp a3).1
        have hget : s1._fsp[idx]? = some (f.in_place_relocation_claim_page false).2.claim.2 := by
          rw [a5]
          exact List.getElem?_set_self hil
        rw [hget] at hin
        dsimp only at hin
        cases hin
        refine ⟨rfl, idx, f, rfl, a3, ?_⟩
        have hwin : (f.in_place_relocation_claim_page false).2 = { f with ref_count := -1 } := by
          have h4 := a4.2.2.2
          have h2 := a4.2.1
          unfold ZForwarding.in_place_relocation_claim_page at h4 ⊢
          rw [h2] at h4 ⊢
          simp only [Bool.false_eq_true, if_false] at h4 ⊢
          split
          · rfl
          · rename_i hne
            rw [if_neg hne] at h4
            cases h4
        rw [hwin]
        simp only [ZRelocate.compact_in_place, ZPage.reset_age, ZForwarding.claim]
        split <;> rfl

/-- C14 at the pool of two pages to age 1 and one page to age 2: for age 2 the third
forwarding is claimed, for age 3 (no page of that age) the first, and
`install_new_target(2)` returns page 3 with age 2. -/
theorem claim_and_remove_any_page_picks_lowest_witness :
    (ex_pool_ages.claim_and_remove_any_page 2).1 = some 2 ∧
    (ex_pool_ages.claim_and_remove_any_page 3).1 = some 0 ∧
    (ex_pool_ages.install_new_target 2).1.map (fun p => (p.id, p.age)) = some (3, 2) ∧
    ((ex_pool_ages.claim_and_remove_any_page 2).1 = none ↔
      ∀ (j : Nat) (g : ZForwarding), ex_pool_ages._fsp_start ≤ j → j < ex_pool_ages._fsp_pages →
        ex_pool_ages._fsp[j]? = some g → ¬ ZFromSpacePool.Claimable 2 1 g) :=
  ⟨by decide, by decide, by decide,
    (claim_and_remove_any_page_picks_lowest ex_pool_ages 2 (by decide)).2.2.1⟩

/-! ## Draining a free-list shard -/

/-- One iteration: the page moves from the list to `empty_pages` or to a batch, the guard
is held again at the end, fewer than 64 pages are left in `empty_pages`, and the calls
made were without the guard, with at most 64 pages. -/
theorem empty_free_list_body_spec (outcome : Bool) (p : ZPage) (rest : List ZPage) (d : Drain)
    (hlen : d.empty_pages.length < 64) :
    (empty_free_list_body outcome p rest d).list = rest ∧
    (empty_free_list_body outcome p rest d).held = true ∧
    (empty_free_list_body outcome p rest d).empty_pages.length < 64 ∧
    (∃ added : List (List ZPage × Bool),
      (empty_free_list_body outcome p rest d).calls = d.calls ++ added ∧
      (∀ c ∈ added, c.1.length ≤ 64 ∧ c.2 = false) ∧
      (added.map (fun c => c.1)).flatten ++ (empty_free_list_body outcome p rest d).empty_pages
        = d.empty_pages ++ [p] ∧
      added.map (fun c => c.1)
        = (if (d.empty_pages ++ [p]).length = 64 then [d.empty_pages ++ [p]] else []) ++
          (if outcome then []
            else [if (d.empty_pages ++ [p]).length = 64 then [] else d.empty_pages ++ [p]]) ∧
      (empty_free_list_body outcome p rest d).empty_pages
        = (if outcome then
            (if (d.empty_pages ++ [p]).length = 64 then [] else d.empty_pages ++ [p])
          else [])) := by
  have hl : (d.empty_pages ++ [p]).length = d.empty_pages.length + 1 := by simp
  by_cases h64 : d.empty_pages.length + 1 = 64
  · cases outcome
    · refine ⟨?_, ?_, ?_, [(d.empty_pages ++ [p], false), ([], false)], ?_, ?_, ?_, ?_, ?_⟩ <;>
        simp [empty_free_list_body, Drain.unlock, Drain.free_empty_pages, Drain.clear,
          Drain.lock, Drain.try_lock, h64]
    · refine ⟨?_, ?_, ?_, [(d.empty_pages ++ [p], false)], ?_, ?_, ?_, ?_, ?_⟩ <;>
        simp [empty_free_list_body, Drain.unlock, Drain.free_empty_pages, Drain.clear,
          Drain.lock, Drain.try_lock, h64]
  · cases outcome
    · refine ⟨?_, ?_, ?_, [(d.empty_pages ++ [p], false)], ?_, ?_, ?_, ?_, ?_⟩ <;>
        simp [empty_free_list_body, Drain.unlock, Drain.free_empty_pages, Drain.clear,
          Drain.lock, Drain.try_lock, h64]
      omega
    · refine ⟨?_, ?_, ?_, [], ?_, ?_, ?_, ?_, ?_⟩ <;>
        simp [empty_free_list_body, Drain.unlock, Drain.free_empty_pages, Drain.clear,
          Drain.lock, Drain.try_lock, h64]
      omega

/-- The loop: it ends with the list empty and the guard held, and the calls it made were
without the guard, with at most 64 pages, of the pages of the list in order. -/
theorem empty_free_list_loop_spec (try_lock : Nat → Bool) :
    ∀ (l : List ZPage) (d : Drain), d.list = l → d.held = true → d.empty_pages.length < 64 →
      (empty_free_list_loop try_lock l d).list = [] ∧
      (empty_free_list_loop try_lock l d).held = true ∧
      (empty_free_list_loop try_lock l d).empty_pages.length < 64 ∧
      ∃ added : List (List ZPage × Bool),
        (empty_free_list_loop try_lock l d).calls = d.calls ++ added ∧
        (∀ c ∈ added, c.1.length ≤ 64 ∧ c.2 = false) ∧
        (added.map (fun c => c.1)).flatten ++ (empty_free_list_loop try_lock l d).empty_pages
          = d.empty_pages ++ l ∧
        added.map (fun c => c.1) ++
            (if 0 < (empty_free_list_loop try_lock l d).empty_pages.length then
              [(empty_free_list_loop try_lock l d).empty_pages] else [])
          = ZFromSpacePool.empty_free_list try_lock l d.empty_pages
  | [], d, h1, h2, h3 => by
    refine ⟨h1, h2, h3, [], ?_, ?_, ?_, ?_⟩ <;> simp [empty_free_list_loop, ZFromSpacePool.empty_free_list]
  | p :: rest, d, h1, h2, h3 => by
    obtain ⟨b1, b2, b3, add1, b4, b5, b6, b7, b8⟩ :=
      empty_free_list_body_spec (try_lock rest.length) p rest d h3
    obtain ⟨r1, r2, r3, add2, r4, r5, r6, r7⟩ :=
      empty_free_list_loop_spec try_lock rest
        (empty_free_list_body (try_lock rest.length) p rest d) b1 b2 b3
    have e : empty_free_list_loop try_lock (p :: rest) d
        = empty_free_list_loop try_lock rest
            (empty_free_list_body (try_lock rest.length) p rest d) := rfl
    rw [e]
    refine ⟨r1, r2, r3, add1 ++ add2, ?_, ?_, ?_, ?_⟩
    · rw [r4, b4, List.append_assoc]
    · intro c hc
      rcases List.mem_append.mp hc with hc | hc
      · exact b5 c hc
      · exact r5 c hc
    · rw [List.map_append, List.flatten_append, List.append_assoc, r6, ← List.append_assoc, b6]
      simp
    · rw [List.map_append, List.append_assoc, r7, b7, b8]
      conv => rhs; unfold ZFromSpacePool.empty_free_list
      cases try_lock rest.length <;> simp

/-- C15: for every list of pages of a shard and whatever `try_lock` returns,
`empty_free_list` ends with the list empty and the guard released; the batches passed to
`free_empty_pages`, put end to end, are the pages of the list, each once; no batch has
more than 64 pages; the guard is not held at any of the calls.  The batches are the ones
that `reset_end` reports. -/
theorem empty_free_list_drains (try_lock : Nat → Bool) (free_list : List ZPage) :
    (empty_free_list_run try_lock free_list).list = [] ∧
    (empty_free_list_run try_lock free_list).held = false ∧
    ((empty_free_list_run try_lock free_list).calls.map (fun c => c.1)).flatten = free_list ∧
    (∀ c ∈ (empty_free_list_run try_lock free_list).calls, c.1.length ≤ 64 ∧ c.2 = false) ∧
    (empty_free_list_run try_lock free_list).calls.map (fun c => c.1)
      = ZFromSpacePool.empty_free_list try_lock free_list [] := by
  obtain ⟨r1, r2, r3, added, r4, r5, r6, r7⟩ :=
    empty_free_list_loop_spec try_lock free_list
      ({ list := free_list, held := false, empty_pages := [], calls := [] } : Drain).lock
      rfl rfl (by simp [Drain.lock])
  have e0 : ({ list := free_list, held := false, empty_pages := [], calls := [] } : Drain).lock.calls
      = [] := rfl
  have e1 : ({ list := free_list, held := false, empty_pages := [], calls := [] }
      : Drain).lock.empty_pages = [] := rfl
  rw [e0, List.nil_append] at r4
  rw [e1, List.nil_append] at r6
  rw [e1] at r7
  unfold empty_free_list_run
  generalize empty_free_list_loop try_lock free_list
    ({ list := free_list, held := false, empty_pages := [], calls := [] } : Drain).lock = r
    at r1 r2 r3 r4 r5 r6 r7
  by_cases hpos : 0 < r.unlock.empty_pages.length
  · rw [if_pos hpos]
    have hpos2 : 0 < r.empty_pages.length := hpos
    rw [if_pos hpos2] at r7
    refine ⟨r1, rfl, ?_, ?_, ?_⟩
    · simp only [Drain.free_empty_pages, Drain.unlock, List.map_append, List.flatten_append,
        List.map_cons, List.map_nil, List.flatten_cons, List.flatten_nil, List.append_nil]
      rw [r4]
      exact r6
    · intro c hc
      simp only [Drain.free_empty_pages, Drain.unlock] at hc
      rcases List.mem_append.mp hc with hc | hc
      · rw [r4] at hc
        exact r5 c hc
      · rw [List.mem_singleton] at hc
        subst hc
        exact ⟨by dsimp only; omega, rfl⟩
    · simp only [Drain.free_empty_pages, Drain.unlock, List.map_append, List.map_cons,
        List.map_nil]
      rw [r4]
      exact r7
  · rw [if_neg hpos]
    have hpos2 : ¬ 0 < r.empty_pages.length := hpos
    rw [if_neg hpos2, List.append_nil] at r7
    have hnil : r.empty_pages = [] := by
      cases h : r.empty_pages with
      | nil => rfl
      | cons a t => rw [h] at hpos2; simp at hpos2
    rw [hnil, List.append_nil] at r6
    refine ⟨r1, rfl, ?_, ?_, ?_⟩
    · simp only [Drain.unlock]
      rw [r4]
      exact r6
    · intro c hc
      simp only [Drain.unlock] at hc
      rw [r4] at hc
      exact r5 c hc
    · simp only [Drain.unlock]
      rw [r4]
      exact r7

/-! ## The size of the free-list cache -/

theorem foldl_size_add_const (k : Nat) :
    ∀ (l : List Nat) (a : Nat),
      l.foldl (fun acc _ => size_add acc k) (a % SIZE_T_MOD) = (a + l.length * k) % SIZE_T_MOD
  | [], a => by simp
  | _ :: l, a => by
    have e : size_add (a % SIZE_T_MOD) k = (a + k) % SIZE_T_MOD := by
      unfold size_add
      rw [Nat.mod_add_mod]
    rw [List.foldl_cons, e, foldl_size_add_const k l (a + k), List.length_cons]
    congr 1
    rw [Nat.add_mul, Nat.one_mul]
    omega

/-- C16: `cache_size` does not return the number of cached pages.  A thread that stays on
CPU `c` gets the length of the shared free-list plus `ZCPU::count()` times the length of
the shard of `c`, on `size_t`; in the example pool after `free_page()` on CPU 0, which
holds one page, on the shard of CPU 0, `cache_size` is 0 on CPU 1 and 2 on CPU 0. -/
theorem cache_size_counts_current_shard (s : ZFromSpacePool) (c : Nat) :
    s.cache_size (fun _ => c)
      = (s._shared_free_list.length
          + s._per_cpu_free_list.length * (s._per_cpu_free_list.getD c []).length) % SIZE_T_MOD ∧
    ex_free_result.2._per_cpu_free_list.map (fun l => l.map (fun p => p.id)) = [[2], []] ∧
    ex_free_result.2._shared_free_list = [] ∧
    ex_free_result.2.cached_pages = 1 ∧
    ex_free_result.2.cache_size (fun _ => 1) = 0 ∧
    ex_free_result.2.cache_size (fun _ => 0) = 2 := by
  refine ⟨?_, by decide, by decide, by decide, by decide, by decide⟩
  unfold ZFromSpacePool.cache_size
  have e : size_add 0 s._shared_free_list.length = s._shared_free_list.length % SIZE_T_MOD := by
    unfold size_add
    rw [Nat.zero_add]
  rw [e, foldl_size_add_const, List.length_range]

end ZFSP
